import Mathlib

/-!
Verification development for the front end of the `the-ceiling` language
(lexer, StringScanner, recursive-descent parser with scoped recovery, and
the IslandScanner), shallowly embedded from `src/syntax.ts`.

Source strings are modelled as `List Char` with absolute positions, matching
the host's index-based string access (`src[p]`, `src.slice(a, b)`).  Loops of
the source become fuel-indexed recursive functions returning `Option`
(`none` = fuel exhausted); fuel-sufficiency theorems discharge termination.
JavaScript exceptions become `Except`/dedicated error constructors.
JavaScript numbers are modelled exactly as rationals plus NaN/Infinity
markers (`NumValue`); this idealises floating-point rounding, which no claim
below depends on.  Lone UTF-16 surrogates produced by `fromCharCode` /
`fromCodePoint` are not representable as Lean `Char` and fall back to the
null character; only the raise/no-raise behaviour of those paths matters to
the claims.
-/

set_option linter.unusedVariables false

namespace TheCeiling

/-- Source text, as the host string's sequence of indexable units. -/
abbrev Src := List Char

/-- `src[p]` : character access, `undefined` ↦ `none`. -/
def charAt (src : Src) (p : Nat) : Option Char := src.get? p

/-- `src.slice(a, b)` for `0 ≤ a ≤ b` (the host clamps out-of-range ends). -/
def sliceChars (src : Src) (a b : Nat) : List Char := (src.drop a).take (b - a)

/-- The whitespace characters the lexer skips (`skipWhitespace`):
ASCII space, tab, CR, LF only. -/
def isLexWs (c : Char) : Bool :=
  c = ' ' || c = '\t' || c = '\r' || c = '\n'

/-- `isNumber` from `Lexer.run`: an ASCII decimal digit. -/
def isDigitCh (c : Char) : Bool := '0' ≤ c && c ≤ '9'

/-- The regular expression `/[0-9a-fA-F]/` used by `StringScanner`. -/
def isHexCh (c : Char) : Bool :=
  ('0' ≤ c && c ≤ '9') || ('a' ≤ c && c ≤ 'f') || ('A' ≤ c && c ≤ 'F')

/-- Numeric value of a hex digit. -/
def hexVal (c : Char) : Nat :=
  if '0' ≤ c && c ≤ '9' then c.toNat - '0'.toNat
  else if 'a' ≤ c && c ≤ 'f' then c.toNat - 'a'.toNat + 10
  else if 'A' ≤ c && c ≤ 'F' then c.toNat - 'A'.toNat + 10
  else 0

/-- `parseInt(s, 16)` on a list of hex digits (the uses below never pass
a malformed digit, and the empty list is handled by the caller). -/
def hexToNat : List Char → Nat
  | [] => 0
  | l => l.foldl (fun acc c => acc * 16 + hexVal c) 0

/-- Decimal digits to a natural number. -/
def decToNat (l : List Char) : Nat :=
  l.foldl (fun acc c => acc * 10 + (c.toNat - '0'.toNat)) 0

/-! ## The host's string-to-number coercion

`processIdent` classifies a completed identifier/number run with
`Number(content)` followed by an `isNaN` check.  We model ECMAScript
`StringToNumber` exactly over rationals: the result is NaN, a signed
infinity, or a rational value.  (The double rounding step is idealised
away; token classification only depends on NaN-ness, and the claims only
inspect exactly representable values.) -/

/-- JavaScript number values as seen by the lexer: NaN, ±Infinity, or a
finite value (modelled exactly as a rational). -/
inductive NumValue where
  | nan : NumValue
  | inf (neg : Bool) : NumValue
  | val (q : ℚ) : NumValue
deriving DecidableEq, Repr

/-- ECMAScript `StrWhiteSpace` characters trimmed by `StringToNumber`:
tab, LF, VT, FF, CR, space, NBSP, ZWNBSP, and the Unicode space
separators (plus the line/paragraph separators). -/
def isJsTrimWs (c : Char) : Bool :=
  let n := c.toNat
  n = 0x09 || n = 0x0a || n = 0x0b || n = 0x0c || n = 0x0d || n = 0x20 ||
  n = 0xa0 || n = 0xfeff || n = 0x1680 || (0x2000 <= n && n <= 0x200a) ||
  n = 0x2028 || n = 0x2029 || n = 0x202f || n = 0x205f || n = 0x3000

/-- Split off a maximal run of decimal digits. -/
def takeDigits (l : List Char) : List Char × List Char :=
  (l.takeWhile isDigitCh, l.dropWhile isDigitCh)

/-- Parse `ExponentPart` = `(e|E) (+|-)? DecimalDigits` and require that it
consumes the rest of the input; `none` when absent or malformed. -/
def parseExponent : List Char → Option Int
  | [] => some 0
  | e :: rest =>
    if e = 'e' || e = 'E' then
      let (sign, rest2) :=
        match rest with
        | '+' :: r => ((1 : Int), r)
        | '-' :: r => ((-1 : Int), r)
        | r => ((1 : Int), r)
      let (ds, rest3) := takeDigits rest2
      if ds.isEmpty || !rest3.isEmpty then none
      else some (sign * (decToNat ds : Int))
    else none

/-- `StrUnsignedDecimalLiteral` (without the `Infinity` production):
`DecimalDigits . DecimalDigits? ExponentPart?` or `. DecimalDigits
ExponentPart?` or `DecimalDigits ExponentPart?`, consuming all input. -/
def parseUnsignedDecimal (l : List Char) : Option ℚ :=
  let (intDs, rest) := takeDigits l
  match rest with
  | '.' :: rest2 =>
    let (fracDs, rest3) := takeDigits rest2
    if intDs.isEmpty && fracDs.isEmpty then none
    else
      match parseExponent rest3 with
      | none => none
      | some ex =>
        let mantissa : ℚ := (decToNat intDs : ℚ) +
          (decToNat fracDs : ℚ) / ((10 : ℚ) ^ fracDs.length)
        some (mantissa * (10 : ℚ) ^ ex)
  | _ =>
    if intDs.isEmpty then none
    else
      match parseExponent rest with
      | none => none
      | some ex => some ((decToNat intDs : ℚ) * (10 : ℚ) ^ ex)

/-- `StrNumericLiteral`'s non-decimal productions: `0x`/`0X` hex, `0o`/`0O`
octal, `0b`/`0B` binary, at least one digit, consuming all input. -/
def parseNonDecimal (l : List Char) : Option ℚ :=
  match l with
  | '0' :: b :: rest =>
    let radix : Option Nat :=
      if b = 'x' || b = 'X' then some 16
      else if b = 'o' || b = 'O' then some 8
      else if b = 'b' || b = 'B' then some 2
      else none
    match radix with
    | none => none
    | some r =>
      let digitOk : Char → Bool :=
        if r = 16 then isHexCh
        else if r = 8 then fun c => '0' ≤ c && c ≤ '7'
        else fun c => c = '0' || c = '1'
      if rest.isEmpty || !rest.all digitOk then none
      else some ((rest.foldl (fun acc c => acc * r + hexVal c) 0 : Nat) : ℚ)
  | _ => none

/-- ECMAScript `StringToNumber` (`Number(content)` in `processIdent`). -/
def jsStringToNumber (s : String) : NumValue :=
  let t := ((s.data.dropWhile isJsTrimWs).reverse.dropWhile isJsTrimWs).reverse
  if t.isEmpty then .val 0
  else
    match parseNonDecimal t with
    | some q => .val q
    | none =>
      let (neg, body) :=
        match t with
        | '+' :: r => (false, r)
        | '-' :: r => (true, r)
        | r => (false, r)
      if body = "Infinity".data then .inf neg
      else
        match parseUnsignedDecimal body with
        | some q => .val (if neg then -q else q)
        | none => .nan

/-! ## Tokens -/

/-- `TokenKind` from `syntax.ts` (same member names, lower camel case;
keywords that collide with Lean keywords carry a trailing `K`). -/
inductive TokenKind where
  | equals | equalsEquals | notEquals | colon | semicolon | comma | dot
  | lparen | rparen | lbrace | rbrace | lbracket | rbracket | langle | rangle
  | arrow | plus | minus | star | slash | ampAmp | pipePipe | exclaim
  | number | stringK | identifier
  | actor | await | command | constK | functionK | handle | ifK | elseK
  | letK | query | read | returnK | structK | thisK | unique
deriving DecidableEq, Repr

/-- The TypeScript enum's reverse mapping `TokenKind[kind]`, used in
diagnostic messages. -/
def tkName : TokenKind → String
  | .equals => "Equals" | .equalsEquals => "EqualsEquals"
  | .notEquals => "NotEquals" | .colon => "Colon" | .semicolon => "Semicolon"
  | .comma => "Comma" | .dot => "Dot" | .lparen => "LParen"
  | .rparen => "RParen" | .lbrace => "LBrace" | .rbrace => "RBrace"
  | .lbracket => "LBracket" | .rbracket => "RBracket" | .langle => "LAngle"
  | .rangle => "RAngle" | .arrow => "Arrow" | .plus => "Plus"
  | .minus => "Minus" | .star => "Star" | .slash => "Slash"
  | .ampAmp => "AmpAmp" | .pipePipe => "PipePipe" | .exclaim => "Exclaim"
  | .number => "Number" | .stringK => "String" | .identifier => "Identifier"
  | .actor => "Actor" | .await => "Await" | .command => "Command"
  | .constK => "Const" | .functionK => "Function" | .handle => "Handle"
  | .ifK => "If" | .elseK => "Else" | .letK => "Let" | .query => "Query"
  | .read => "Read" | .returnK => "Return" | .structK => "Struct"
  | .thisK => "This" | .unique => "Unique"

/-- A token: kind, half-open span, and the `value` payload (present only on
Number and String tokens; defaulted elsewhere, as in the discriminated
union of the source). -/
structure Token where
  kind : TokenKind
  start : Nat
  stop : Nat
  num : NumValue := .nan
  str : String := ""
deriving DecidableEq, Repr

/-! ## StringScanner -/

/-- The exceptions `StringScanner` can raise (`throw new Error(...)` /
`RangeError` out of `String.fromCodePoint`). -/
inductive ScanErr where
  /-- `invalid hex escape at p` -/
  | invalidHexEscape (p : Nat)
  /-- `unterminated unicode escape` -/
  | unterminatedUnicodeEscape
  /-- `invalid unicode at p` -/
  | invalidUnicode (p : Nat)
  /-- `expected string literal at p` -/
  | expectedStringLiteral (p : Nat)
  /-- `unterminated string literal` -/
  | unterminatedStringLiteral
  /-- `bad escape at <eof>` -/
  | badEscapeEof
  /-- `RangeError` raised by `String.fromCodePoint` when the `\u{...}`
  payload is `NaN` (empty braces) or above `0x10FFFF`. -/
  | invalidCodePoint (n : Option Nat)
deriving DecidableEq, Repr

/-- `String.fromCharCode(n)`: the code unit `n mod 2^16`; a lone surrogate
is not a Lean `Char` and falls back to the null character. -/
def fromCharCode (n : Nat) : Char := Char.ofNat (n % 65536)

/-- `readHexDigits(n)` : exactly `n` hex digits starting at `p`, else
`invalid hex escape at p`. -/
def readHexDigits (src : Src) : Nat → Nat → Except ScanErr (List Char × Nat)
  | p, 0 => .ok ([], p)
  | p, n + 1 =>
    match charAt src p with
    | some c =>
      if isHexCh c then
        match readHexDigits src (p + 1) n with
        | .ok (l, q) => .ok (c :: l, q)
        | .error e => .error e
      else .error (.invalidHexEscape p)
    | none => .error (.invalidHexEscape p)

/-- The accumulation loop of `readUnicodeEscape` inside `\u{...}`:
`p` is inside the braces; returns the digits and the position past `}`. -/
def uniBraceLoop (src : Src) : Nat → Nat → List Char →
    Option (Except ScanErr (List Char × Nat))
  | 0, _, _ => none
  | fuel + 1, p, acc =>
    match charAt src p with
    | none => some (.error .unterminatedUnicodeEscape)
    | some c =>
      if c = '}' then some (.ok (acc, p + 1))
      else if isHexCh c then uniBraceLoop src fuel (p + 1) (acc ++ [c])
      else some (.error (.invalidUnicode p))

/-- `readUnicodeEscape`, entered with `p` at the `u`.  The braced form
feeds `parseInt(hex, 16)` to `String.fromCodePoint`, which raises a
`RangeError` on `NaN` (no digits) or a value above `0x10FFFF`. -/
def readUnicodeEscape (src : Src) (fuel : Nat) (p : Nat) :
    Option (Except ScanErr (Char × Nat)) :=
  if charAt src (p + 1) = some '{' then
    match uniBraceLoop src fuel (p + 2) [] with
    | none => none
    | some (.error e) => some (.error e)
    | some (.ok (hex, q)) =>
      if hex.isEmpty then some (.error (.invalidCodePoint none))
      else
        let n := hexToNat hex
        if n ≤ 0x10FFFF then some (.ok (Char.ofNat n, q))
        else some (.error (.invalidCodePoint (some n)))
  else
    match readHexDigits src (p + 1) 4 with
    | .ok (hex, q) => some (.ok (fromCharCode (hexToNat hex), q))
    | .error e => some (.error e)

/-- `readHexEscape`, entered with `p` at the `x`. -/
def readHexEscape (src : Src) (p : Nat) : Except ScanErr (Char × Nat) :=
  match readHexDigits src (p + 1) 2 with
  | .ok (hex, q) => .ok (fromCharCode (hexToNat hex), q)
  | .error e => .error e

/-- The main `while` loop of `scanString`; `p` is inside the literal,
`quote` the opening quote, `acc` the decoded value so far. -/
def scanLoop (src : Src) (quote : Char) :
    Nat → Nat → List Char → Option (Except ScanErr (List Char × Nat))
  | 0, _, _ => none
  | fuel + 1, p, acc =>
    match charAt src p with
    | none => some (.error .unterminatedStringLiteral)
    | some ch =>
      if ch = quote then some (.ok (acc, p + 1))
      else if ch = '\\' then
        match charAt src (p + 1) with
        | none => some (.error .badEscapeEof)
        | some esc =>
          if esc = 'n' then scanLoop src quote fuel (p + 2) (acc ++ ['\n'])
          else if esc = 'r' then scanLoop src quote fuel (p + 2) (acc ++ ['\r'])
          else if esc = 't' then scanLoop src quote fuel (p + 2) (acc ++ ['\t'])
          else if esc = '\\' then scanLoop src quote fuel (p + 2) (acc ++ ['\\'])
          else if esc = '"' then scanLoop src quote fuel (p + 2) (acc ++ ['"'])
          else if esc = '\'' then scanLoop src quote fuel (p + 2) (acc ++ ['\''])
          else if esc = 'u' then
            match readUnicodeEscape src fuel (p + 1) with
            | none => none
            | some (.error e) => some (.error e)
            | some (.ok (c, q)) => scanLoop src quote fuel q (acc ++ [c])
          else if esc = 'x' then
            match readHexEscape src (p + 1) with
            | .error e => some (.error e)
            | .ok (c, q) => scanLoop src quote fuel q (acc ++ [c])
          else scanLoop src quote fuel (p + 2) (acc ++ [esc])
      else scanLoop src quote fuel (p + 1) (acc ++ [ch])

/-- `scanString`, started at position `p`: checks the opening quote and
runs the scan loop; returns the decoded value and the position just past
the closing quote. -/
def scanString (src : Src) (fuel : Nat) (p : Nat) :
    Option (Except ScanErr (List Char × Nat)) :=
  match charAt src p with
  | some q =>
    if q = '"' || q = '\'' then scanLoop src q fuel (p + 1) []
    else some (.error (.expectedStringLiteral p))
  | none => some (.error (.expectedStringLiteral p))

/-! ### Spec-side failure conditions for string scanning

`specScanFailsClaim` reads the four failure conditions of the spec's
sentence word for word; `specScanFailsAmended` adds the `\u{...}`
code-point condition (`String.fromCodePoint`'s RangeError). Both walk the
literal from just after the opening quote and only decide failure; `none`
is fuel exhaustion. -/

/-- "`\u{…}`": hex digits up to `}`; end-of-input is the unterminated
condition, a non-hex digit the invalid-digit condition. Returns the digit
count, the denoted value and the position past `}`. -/
def specBrace (src : Src) : Nat → Nat → Nat → Nat → Option (Sum (Nat × Nat × Nat) Bool)
  | 0, _, _, _ => none
  | fuel + 1, p, cnt, v =>
    match charAt src p with
    | none => some (.inr true)
    | some c =>
      if c = '}' then some (.inl (cnt, v, p + 1))
      else if isHexCh c then specBrace src fuel (p + 1) (cnt + 1) (v * 16 + hexVal c)
      else some (.inr true)

/-- Exactly `n` hex digits present starting at `p`. -/
def specHexRun (src : Src) : Nat → Nat → Bool
  | _, 0 => true
  | p, n + 1 =>
    match charAt src p with
    | some c => isHexCh c && specHexRun src (p + 1) n
    | none => false

/-- The claim's four conditions, word for word: end-of-input inside the
literal; end-of-input right after a backslash; a non-hex digit (or missing
digit) inside `\u`, `\u{…}` or `\x`; an unterminated `\u{…}`. Any other
escaped character is copied through verbatim and the scan continues. -/
def specScanFailsClaim (src : Src) (quote : Char) : Nat → Nat → Option Bool
  | 0, _ => none
  | fuel + 1, p =>
    match charAt src p with
    | none => some true
    | some ch =>
      if ch = quote then some false
      else if ch = '\\' then
        match charAt src (p + 1) with
        | none => some true
        | some esc =>
          if esc = 'u' then
            if charAt src (p + 2) = some '{' then
              match specBrace src fuel (p + 3) 0 0 with
              | none => none
              | some (.inr b) => some b
              | some (.inl (_, _, q)) => specScanFailsClaim src quote fuel q
            else if specHexRun src (p + 2) 4 then specScanFailsClaim src quote fuel (p + 6)
            else some true
          else if esc = 'x' then
            if specHexRun src (p + 2) 2 then specScanFailsClaim src quote fuel (p + 4)
            else some true
          else specScanFailsClaim src quote fuel (p + 2)
      else specScanFailsClaim src quote fuel (p + 1)

/-- The amended condition list: the four conditions plus a terminated
`\u{…}` whose braces are empty or denote a code point above `0x10FFFF`
(the RangeError out of `String.fromCodePoint`). -/
def specScanFailsAmended (src : Src) (quote : Char) : Nat → Nat → Option Bool
  | 0, _ => none
  | fuel + 1, p =>
    match charAt src p with
    | none => some true
    | some ch =>
      if ch = quote then some false
      else if ch = '\\' then
        match charAt src (p + 1) with
        | none => some true
        | some esc =>
          if esc = 'u' then
            if charAt src (p + 2) = some '{' then
              match specBrace src fuel (p + 3) 0 0 with
              | none => none
              | some (.inr b) => some b
              | some (.inl (cnt, v, q)) =>
                if cnt = 0 || 0x10FFFF < v then some true
                else specScanFailsAmended src quote fuel q
            else if specHexRun src (p + 2) 4 then specScanFailsAmended src quote fuel (p + 6)
            else some true
          else if esc = 'x' then
            if specHexRun src (p + 2) 2 then specScanFailsAmended src quote fuel (p + 4)
            else some true
          else specScanFailsAmended src quote fuel (p + 2)
      else specScanFailsAmended src quote fuel (p + 1)

/-! ## Lexer -/

/-- Build a value-less token. -/
def mkTok (k : TokenKind) (a b : Nat) : Token := { kind := k, start := a, stop := b }

/-- The single-character punctuation/operator cases of the `token()`
switch (those without lookahead or delegation). -/
def simpleTok (c : Char) : Option TokenKind :=
  if c = ':' then some .colon
  else if c = ';' then some .semicolon
  else if c = ',' then some .comma
  else if c = '.' then some .dot
  else if c = '(' then some .lparen
  else if c = ')' then some .rparen
  else if c = '{' then some .lbrace
  else if c = '}' then some .rbrace
  else if c = '[' then some .lbracket
  else if c = ']' then some .rbracket
  else if c = '<' then some .langle
  else if c = '>' then some .rangle
  else if c = '+' then some .plus
  else if c = '-' then some .minus
  else if c = '*' then some .star
  else if c = '/' then some .slash
  else none

/-- `Lexer.token()`: try to recognise one fixed token at `p` (with
one-character lookahead for the two-character operators).  A quote
delegates to `scanString`, whose raised failures pass through; a bare `&`
or `|` not followed by its pair consumes one character and returns no
token; any other unrecognised character returns no token without
advancing.  Every use relevant to the claims constructs the lexer over the
full source, so the sub-range offset correction of `spanned` is the
identity. -/
def tokenFn (src : Src) (fuel : Nat) (p : Nat) :
    Option (Except ScanErr (Option Token × Nat)) :=
  match charAt src p with
  | none => some (.ok (none, p))
  | some c =>
    if c = '=' then
      if charAt src (p + 1) = some '=' then
        some (.ok (some (mkTok .equalsEquals p (p + 2)), p + 2))
      else if charAt src (p + 1) = some '>' then
        some (.ok (some (mkTok .arrow p (p + 2)), p + 2))
      else some (.ok (some (mkTok .equals p (p + 1)), p + 1))
    else if c = '!' then
      if charAt src (p + 1) = some '=' then
        some (.ok (some (mkTok .notEquals p (p + 2)), p + 2))
      else some (.ok (some (mkTok .exclaim p (p + 1)), p + 1))
    else if c = '&' then
      if charAt src (p + 1) = some '&' then
        some (.ok (some (mkTok .ampAmp p (p + 2)), p + 2))
      else some (.ok (none, p + 1))
    else if c = '|' then
      if charAt src (p + 1) = some '|' then
        some (.ok (some (mkTok .pipePipe p (p + 2)), p + 2))
      else some (.ok (none, p + 1))
    else if c = '\'' || c = '"' then
      match scanString src fuel p with
      | none => none
      | some (.error e) => some (.error e)
      | some (.ok (v, q)) =>
        some (.ok (some { kind := .stringK, start := p, stop := q, str := String.mk v }, q))
    else
      match simpleTok c with
      | some k => some (.ok (some (mkTok k p (p + 1)), p + 1))
      | none => some (.ok (none, p))

/-- `skipWhitespace`: advance past ASCII space/tab/CR/LF. -/
def skipWs (src : Src) : Nat → Nat → Option Nat
  | 0, _ => none
  | fuel + 1, p =>
    match charAt src p with
    | some c => if isLexWs c then skipWs src fuel (p + 1) else some p
    | none => some p

/-- The keyword table and classification of `processIdent`: keyword kinds
first, the literal `NaN` as a NaN-valued Number, then the host's lenient
string-to-number coercion, with Identifier exactly when that yields NaN. -/
def identKindVal (content : String) : TokenKind × NumValue :=
  if content = "actor" then (.actor, .nan)
  else if content = "await" then (.await, .nan)
  else if content = "command" then (.command, .nan)
  else if content = "const" then (.constK, .nan)
  else if content = "else" then (.elseK, .nan)
  else if content = "function" then (.functionK, .nan)
  else if content = "handle" then (.handle, .nan)
  else if content = "if" then (.ifK, .nan)
  else if content = "let" then (.letK, .nan)
  else if content = "query" then (.query, .nan)
  else if content = "read" then (.read, .nan)
  else if content = "return" then (.returnK, .nan)
  else if content = "struct" then (.structK, .nan)
  else if content = "this" then (.thisK, .nan)
  else if content = "unique" then (.unique, .nan)
  else if content = "NaN" then (.number, .nan)
  else
    match jsStringToNumber content with
    | .nan => (.identifier, .nan)
    | v => (.number, v)

/-- `processIdent`: classify the completed run `src.slice(start, stop)`. -/
def processIdent (src : Src) (start stop : Nat) : Token :=
  let kv := identKindVal (String.mk (sliceChars src start stop))
  { kind := kv.1, start := start, stop := stop, num := kv.2 }

theorem processIdent_start (src : Src) (a b : Nat) :
    (processIdent src a b).start = a := rfl

theorem processIdent_stop (src : Src) (a b : Nat) :
    (processIdent src a b).stop = b := rfl

/-- Prepend yielded tokens, and OR a local rejection flag, onto the result
of the rest of the run. -/
def consToks (pre : List Token) (rej : Bool)
    (r : Option (Except ScanErr (List Token × Bool))) :
    Option (Except ScanErr (List Token × Bool)) :=
  match r with
  | none => none
  | some (.error e) => some (.error e)
  | some (.ok (ts, b)) => some (.ok (pre ++ ts, rej || b))

mutual

/-- The outer `while (true)` of `Lexer.run`: skip whitespace, try a fixed
token (yield it and continue), and otherwise stop at end of input or enter
the identifier/number run.  Alongside the yielded tokens the result
carries a flag that records whether some `token()` attempt ever rejected
after consuming input (a bare `&` or `|`): the source has no record of
these, and such characters vanish without being whitespace or part of any
token's slice. -/
def runAux (src : Src) : Nat → Nat → Option (Except ScanErr (List Token × Bool))
  | 0, _ => none
  | fuel + 1, p0 =>
    match skipWs src (fuel + 1) p0 with
    | none => none
    | some p =>
      match tokenFn src (fuel + 1) p with
      | none => none
      | some (.error e) => some (.error e)
      | some (.ok (some t, q)) => consToks [t] false (runAux src fuel q)
      | some (.ok (none, q)) =>
        if q < src.length then consToks [] (q ≠ p) (identLoop src fuel q q true)
        else some (.ok ([], q ≠ p))

/-- The labelled `ident:` loop of `Lexer.run`: grow a maximal
identifier/number run from `start`, applying dot-disambiguation, and
yield the run (and any token that terminated it) before resuming the
outer loop. -/
def identLoop (src : Src) :
    Nat → Nat → Nat → Bool → Option (Except ScanErr (List Token × Bool))
  | 0, _, _, _ => none
  | fuel + 1, start, p, isNum =>
    match charAt src p with
    | none => consToks [processIdent src start p] false (runAux src fuel p)
    | some c =>
      if isLexWs c then consToks [processIdent src start p] false (runAux src fuel p)
      else if c = '.' then
        if isNum && (charAt src (p + 1)).any isDigitCh then
          identLoop src fuel start (p + 1) isNum
        else
          consToks [processIdent src start p, mkTok .dot p (p + 1)] false
            (runAux src fuel (p + 1))
      else
        let isNum2 := if isDigitCh c then isNum else false
        match tokenFn src (fuel + 1) p with
        | none => none
        | some (.error e) => some (.error e)
        | some (.ok (some t, q)) =>
          consToks [processIdent src start p, t] false (runAux src fuel q)
        | some (.ok (none, q)) =>
          consToks [] (q ≠ p) (identLoop src fuel start (q + 1) isNum2)

end

/-- `Lexer.run` over a whole source string, with adequate fuel. -/
def lexRun (s : String) : Option (Except ScanErr (List Token × Bool)) :=
  runAux s.data (4 * s.data.length + 8) 0

/-- Just the token list, for inputs that lex without a scan failure. -/
def lexTokens (s : String) : Option (List Token) :=
  match lexRun s with
  | some (.ok (ts, _)) => some ts
  | _ => none

/-! ## IslandScanner -/

/-- `IslandScanner.isIslandStart`. -/
def isIslandStart (k : TokenKind) : Bool :=
  k = .actor || k = .structK || k = .functionK || k = .query || k = .command

/-- `IslandScanner.findNextTopLevelBrace`: pull tokens tracking parenthesis
and angle depth (which the source lets go negative, hence `Int`) until a
`{` at both depths zero; `none` models the `expected body brace` throw at
end of input. -/
def findNextTopLevelBrace : List Token → Int → Int → Option (Nat × List Token)
  | [], _, _ => none
  | t :: rest, paren, angle =>
    let paren2 := paren + (if t.kind = .lparen then 1 else 0) -
      (if t.kind = .rparen then 1 else 0)
    let angle2 := angle + (if t.kind = .langle then 1 else 0) -
      (if t.kind = .rangle then 1 else 0)
    if t.kind = .lbrace && paren2 = 0 && angle2 = 0 then some (t.start, rest)
    else findNextTopLevelBrace rest paren2 angle2

/-- `IslandScanner.findMatchingBrace`: pull tokens tracking brace depth
(starting at 1); another island-start keyword, at any depth, ends the scan
at that keyword's start; `none` models the `unmatched brace` throw at end
of input. -/
def findMatchingBrace : List Token → Nat → Option (Nat × List Token)
  | [], _ => none
  | t :: rest, depth =>
    if isIslandStart t.kind then some (t.start, rest)
    else if t.kind = .lbrace then findMatchingBrace rest (depth + 1)
    else if t.kind = .rbrace then
      if depth = 1 then some (t.stop, rest) else findMatchingBrace rest (depth - 1)
    else findMatchingBrace rest depth

/-- The `for (const token of this.tokens)` loop of `IslandScanner.scan`,
over the shared token stream: a thrown (modelled `none`) sub-scan leaves
the generator exhausted, so the loop ends with the islands found so far. -/
def scanIslandsAux (src : Src) : Nat → List Token → List String
  | 0, _ => []
  | _, [] => []
  | fuel + 1, t :: rest =>
    if isIslandStart t.kind then
      match findNextTopLevelBrace rest 0 0 with
      | none => []
      | some (_, rest2) =>
        match findMatchingBrace rest2 1 with
        | none => []
        | some (e, rest3) =>
          String.mk (sliceChars src t.start e) :: scanIslandsAux src fuel rest3
    else scanIslandsAux src fuel rest

/-- `new IslandScanner(src).scan()`, for sources that lex without a scan
failure (a scan failure mid-stream kills the shared generator; no claim
below exercises that path). -/
def islandScan (s : String) : Option (List String) :=
  match lexRun s with
  | some (.ok (ts, _)) => some (scanIslandsAux s.data (ts.length + 1) ts)
  | _ => none


/-! ## AST -/

/-- Half-open absolute span of an AST node. -/
structure SpanI where
  start : Nat
  stop : Nat
deriving DecidableEq, Repr

/-- A diagnostic as the parser records it: message plus the absolute span
it was raised at (`Diagnostics.getRange` renders this to line/column; no
claim below inspects the rendered range). -/
structure Diag where
  message : String
  start : Nat
  stop : Nat
deriving DecidableEq, Repr

/-- An `Identifier` AST node. -/
structure Ident where
  name : String
  span : SpanI
deriving DecidableEq, Repr

/-- An `Error` AST node: the diagnostic it carries plus its span. -/
structure AstErr where
  diag : Diag
  span : SpanI
deriving DecidableEq, Repr

inductive UnaryOp where
  | minus
deriving DecidableEq, Repr

inductive BinaryOp where
  | plus | minus | multiply | divide | equals | notEquals | and | or
deriving DecidableEq, Repr

/-- `Expr` from `syntax.ts` (the `Error` variant included). -/
inductive Expr where
  | unary (op : UnaryOp) (right : Expr) (span : SpanI)
  | binary (left : Expr) (op : BinaryOp) (right : Expr) (span : SpanI)
  | ident (i : Ident)
  | numberLit (value : NumValue) (span : SpanI)
  | stringLit (value : String) (span : SpanI)
  | call (callee : Expr) (args : List Expr) (span : SpanI)
  | err (e : AstErr)

/-- `TypeExpr` from `syntax.ts`. -/
inductive TypeExpr where
  | ident (i : Ident)
  | handleType (uniq : Bool) (lifetimes : List Ident) (inner : TypeExpr) (span : SpanI)
  | err (e : AstErr)

/-- `Binding` from `syntax.ts`: a non-error binding has a name that is an
identifier or an error node, an optional type, and a span. -/
inductive Binding where
  | bind (name : Sum Ident AstErr) (type : Option TypeExpr) (span : SpanI)
  | err (e : AstErr)

/-- `Stmt` from `syntax.ts`. -/
inductive Stmt where
  | letS (binding : Binding) (init : Expr) (span : SpanI)
  | constS (binding : Binding) (init : Expr) (span : SpanI)
  | returnS (value : Option Expr) (span : SpanI)
  | exprS (e : Expr) (span : SpanI)
  | err (e : AstErr)

/-- `Decl` from `syntax.ts` (only function declarations exist). -/
inductive Decl where
  | functionDecl (name : Sum Ident AstErr) (params : List Binding)
      (returnType : Option TypeExpr) (body : Sum (List Stmt) AstErr) (span : SpanI)
  | err (e : AstErr)

/-! Debug printers (nested `List` fields defeat instance deriving). -/

mutual
def Expr.dump : Expr → String
  | .unary _ r sp => "unary(-, " ++ r.dump ++ ", " ++ reprStr sp ++ ")"
  | .binary l op r sp =>
    "binary(" ++ reprStr op ++ ", " ++ l.dump ++ ", " ++ r.dump ++ ", " ++ reprStr sp ++ ")"
  | .ident i => "ident(" ++ reprStr i.name ++ ", " ++ reprStr i.span ++ ")"
  | .numberLit v sp => "number(" ++ reprStr v ++ ", " ++ reprStr sp ++ ")"
  | .stringLit v sp => "string(" ++ reprStr v ++ ", " ++ reprStr sp ++ ")"
  | .call c args sp =>
    "call(" ++ c.dump ++ ", [" ++ Expr.dumpList args ++ "], " ++ reprStr sp ++ ")"
  | .err e => "error(" ++ reprStr e ++ ")"

def Expr.dumpList : List Expr → String
  | [] => ""
  | [e] => e.dump
  | e :: rest => e.dump ++ ", " ++ Expr.dumpList rest
end

instance : Repr Expr := ⟨fun e _ => .text e.dump⟩

def TypeExpr.dump : TypeExpr → String
  | .ident i => "ident(" ++ reprStr i.name ++ ")"
  | .handleType u lts inner sp =>
    "handle(" ++ reprStr u ++ ", " ++ reprStr (lts.map Ident.name) ++ ", " ++
      inner.dump ++ ", " ++ reprStr sp ++ ")"
  | .err e => "error(" ++ reprStr e ++ ")"

instance : Repr TypeExpr := ⟨fun t _ => .text t.dump⟩

def Binding.dump : Binding → String
  | .bind n ty sp =>
    "bind(" ++ (match n with | .inl i => reprStr i.name | .inr e => "error(" ++ reprStr e ++ ")") ++
      ", " ++ (match ty with | none => "_" | some t => t.dump) ++ ", " ++ reprStr sp ++ ")"
  | .err e => "error(" ++ reprStr e ++ ")"

instance : Repr Binding := ⟨fun b _ => .text b.dump⟩

def Stmt.dump : Stmt → String
  | .letS b i sp => "let(" ++ b.dump ++ ", " ++ i.dump ++ ", " ++ reprStr sp ++ ")"
  | .constS b i sp => "const(" ++ b.dump ++ ", " ++ i.dump ++ ", " ++ reprStr sp ++ ")"
  | .returnS v sp =>
    "return(" ++ (match v with | none => "_" | some e => e.dump) ++ ", " ++ reprStr sp ++ ")"
  | .exprS e sp => "exprStmt(" ++ e.dump ++ ", " ++ reprStr sp ++ ")"
  | .err e => "error(" ++ reprStr e ++ ")"

instance : Repr Stmt := ⟨fun x _ => .text x.dump⟩

def Decl.dump : Decl → String
  | .functionDecl n ps rt body sp =>
    "function(" ++
      (match n with | .inl i => reprStr i.name | .inr e => "error(" ++ reprStr e ++ ")") ++ ", [" ++
      String.intercalate ", " (ps.map Binding.dump) ++ "], " ++
      (match rt with | none => "_" | some t => t.dump) ++ ", " ++
      (match body with
       | .inl stmts => "[" ++ String.intercalate ", " (stmts.map Stmt.dump) ++ "]"
       | .inr e => "error(" ++ reprStr e ++ ")") ++ ", " ++ reprStr sp ++ ")"
  | .err e => "error(" ++ reprStr e ++ ")"

instance : Repr Decl := ⟨fun d _ => .text d.dump⟩

/-- `isError` per sort. -/
def Expr.isErr : Expr → Bool
  | .err _ => true
  | _ => false

def Stmt.isErr : Stmt → Bool
  | .err _ => true
  | _ => false

def TypeExpr.isErr : TypeExpr → Bool
  | .err _ => true
  | _ => false

def Binding.isErr : Binding → Bool
  | .err _ => true
  | _ => false

/-- `isError` on an `Identifier | ASTError` value. -/
def sumIsErr {α : Type} (x : Sum α AstErr) : Bool :=
  match x with
  | .inl _ => false
  | .inr _ => true

/-- Span getters, as used by `backwardExtendNodeSpan`. -/
def Expr.span : Expr → SpanI
  | .unary _ _ sp => sp
  | .binary _ _ _ sp => sp
  | .ident i => i.span
  | .numberLit _ sp => sp
  | .stringLit _ sp => sp
  | .call _ _ sp => sp
  | .err e => e.span

def TypeExpr.span : TypeExpr → SpanI
  | .ident i => i.span
  | .handleType _ _ _ sp => sp
  | .err e => e.span

def Binding.span : Binding → SpanI
  | .bind _ _ sp => sp
  | .err e => e.span

def sumSpan (x : Sum Ident AstErr) : SpanI :=
  match x with
  | .inl i => i.span
  | .inr e => e.span

/-! ## Parser state and primitives -/

/-- `ParserBase`'s mutable state: the not-yet-consumed token stream (its
head is `this.token`), the shared recovery set, the `inRecovery` flag, the
accumulated `allDiags`, and the source (for identifier text slicing and
the end-of-source span). -/
structure PState where
  toks : List Token
  recoverySet : List TokenKind
  inRecovery : Bool
  diags : List Diag
  src : Src
  endOfSrc : Nat
deriving DecidableEq, Repr

/-- Result of a parser production: a value and the updated state, an
internal-fault abort (a failed `assert`), or fuel exhaustion. -/
inductive PRes (α : Type) where
  | ok (a : α) (st : PState)
  | fault (msg : String)
  | noFuel
deriving Repr

/-- The message of the assert inside `inRecoveryFor`, as `assert` wraps it. -/
def recoveryFaultMsg : String :=
  "internal compiler error: inRecoveryFor must be called with error"

def peek (st : PState) : Option Token := st.toks.head?

/-- `next()`: pull the following token (the exhausted generator stays
exhausted). -/
def nextSt (st : PState) : PState := { st with toks := st.toks.tail }

def eofSpan (st : PState) : SpanI := ⟨st.endOfSrc, st.endOfSrc⟩

/-- `this.span`: the current token's span, or the end-of-source span. -/
def curSpan (st : PState) : SpanI :=
  match peek st with
  | some t => ⟨t.start, t.stop⟩
  | none => eofSpan st

def startOfSpan (st : PState) : Nat :=
  match peek st with
  | some t => t.start
  | none => st.endOfSrc

def endOfSpan (st : PState) : Nat :=
  match peek st with
  | some t => t.stop
  | none => st.endOfSrc

/-- `consume(kind)`. -/
def consume (k : TokenKind) (st : PState) : Bool × PState :=
  match peek st with
  | some t => if t.kind = k then (true, nextSt st) else (false, st)
  | none => (false, st)

/-- The token-discard loop of `recover()`: starting from the current
end-of-span, discard tokens until one whose kind is in the recovery set,
or end of input; returns the running span end and the remaining stream. -/
def recoverLoop (rset : List TokenKind) : Nat → List Token → Nat × List Token
  | e, [] => (e, [])
  | e, t :: rest =>
    if rset.contains t.kind then (e, t :: rest)
    else recoverLoop rset t.stop rest

/-- `recover()`: mark the parser recovering, discard tokens, and return the
span of the originating token plus everything discarded. -/
def recover (st : PState) : SpanI × PState :=
  let s := startOfSpan st
  let st1 := { st with inRecovery := true }
  let r := recoverLoop st1.recoverySet (endOfSpan st1) st1.toks
  (⟨s, r.1⟩, { st1 with toks := r.2 })

/-- `error(span, message)`: push one diagnostic, then recover; the Error
node's span covers the recovery. -/
def errorP (span : SpanI) (message : String) (st : PState) : AstErr × PState :=
  let d : Diag := ⟨message, span.start, span.stop⟩
  let st1 := { st with diags := st.diags ++ [d] }
  let r := recover st1
  (⟨d, r.1⟩, r.2)

/-- `expect(kind, forMsg)`. -/
def expect (k : TokenKind) (forMsg : String) (st : PState) :
    Sum Token AstErr × PState :=
  match peek st with
  | some t =>
    if t.kind = k then (.inl t, nextSt st)
    else
      let (e, st2) := errorP (curSpan st)
        ("expected " ++ tkName k ++ " " ++ forMsg ++ ", got " ++ tkName t.kind) st
      (.inr e, st2)
  | none =>
    let (e, st2) := errorP (curSpan st)
      ("expected " ++ tkName k ++ " " ++ forMsg ++ ", got <eof>") st
    (.inr e, st2)

/-- `expectIdentifier()`. -/
def expectIdentifier (st : PState) : Sum Ident AstErr × PState :=
  match peek st with
  | some t =>
    if t.kind = .identifier then
      (.inl ⟨String.mk (sliceChars st.src t.start t.stop), ⟨t.start, t.stop⟩⟩, nextSt st)
    else
      let (e, st2) := errorP (curSpan st)
        ("expected identifier, got " ++ tkName t.kind) st
      (.inr e, st2)
  | none =>
    let (e, st2) := errorP (curSpan st) "expected identifier, got <eof>" st
    (.inr e, st2)

/-- First half of `ParserBase.recovery(supported, f)`: add the supported
kinds not already present, remembering exactly which were added. -/
def enterRecovery (supported : List TokenKind) (st : PState) :
    List TokenKind × PState :=
  let toRemove := supported.filter (fun k => !st.recoverySet.contains k)
  (toRemove, { st with recoverySet := st.recoverySet ++ toRemove })

/-- Second half of `ParserBase.recovery`: remove exactly the added kinds,
then run `inRecoveryFor(out)` — whose assert is an internal fault
(modelled `none`) when the parser is recovering but `f` returned a
non-error node — and leave the Recovering state when the stopping token's
kind is one this scope supports. -/
def exitRecovery (isErrOut : Bool) (toRemove supported : List TokenKind)
    (st : PState) : Option PState :=
  let st1 := { st with recoverySet := st.recoverySet.filter (fun k => !toRemove.contains k) }
  if st1.inRecovery then
    if isErrOut then
      match peek st1 with
      | some t =>
        if supported.contains t.kind then some { st1 with inRecovery := false }
        else some st1
      | none => some st1
    else none
  else some st1

/-- `this.inRecovery = false`. -/
def clearRecovery (st : PState) : PState := { st with inRecovery := false }

def backwardExtendSpan (s : Nat) (sp : SpanI) : SpanI := ⟨s, sp.stop⟩

/-- `getBinaryOp`. -/
def getBinaryOp : TokenKind → Option BinaryOp
  | .plus => some .plus
  | .minus => some .minus
  | .star => some .multiply
  | .slash => some .divide
  | .equalsEquals => some .equals
  | .notEquals => some .notEquals
  | .ampAmp => some .and
  | .pipePipe => some .or
  | _ => none

/-- `getBinaryPrecedence`. -/
def getBinaryPrecedence : BinaryOp → Nat
  | .or => 1
  | .and => 2
  | .equals => 3
  | .notEquals => 3
  | .plus => 4
  | .minus => 4
  | .multiply => 5
  | .divide => 5

/-! ## The parser

All productions below are fuel-indexed (`noFuel` on exhaustion); each
recursive call passes the fuel's predecessor.  The `recovery(...)` scopes
of the source are expanded at each call site into `enterRecovery` /
`exitRecovery` plus the caller's own `inRecoveryFor` check (whose failed
assert is the `fault` outcome). -/

/-- Result sequencing: propagate internal faults and fuel exhaustion,
otherwise continue with the produced value and state (the host's implicit
exception plumbing). -/
def PRes.andThen {α β : Type} (x : PRes α) (f : α → PState → PRes β) : PRes β :=
  match x with
  | .ok v st => f v st
  | .fault m => .fault m
  | .noFuel => .noFuel

mutual

/-- `Parser.parseBinding`. -/
def parseBinding : Nat → PState → PRes Binding
  | 0, _ => .noFuel
  | fuel + 1, st =>
    let start := startOfSpan st
    let (tr, stA) := enterRecovery [.colon] st
    let (nameRes, st1) := expectIdentifier stA
    match exitRecovery (sumIsErr nameRes) tr [.colon] st1 with
    | none => .fault recoveryFaultMsg
    | some st2 =>
      if st2.inRecovery then
        match nameRes with
        | .inr e => .ok (.err e) st2
        | .inl _ => .fault recoveryFaultMsg
      else
        let (gotColon, st3) := consume .colon st2
        if gotColon then
          (parseTypeExpr fuel st3).andThen fun ty st4 =>
            .ok (.bind nameRes (some ty) (backwardExtendSpan start ty.span)) st4
        else .ok (.bind nameRes none (backwardExtendSpan start (sumSpan nameRes))) st3
termination_by structural fuel _ => fuel

/-- `Parser.parseLocal`. -/
def parseLocal : Nat → Bool → PState → PRes Stmt
  | 0, _, _ => .noFuel
  | fuel + 1, isConst, st =>
    let start := startOfSpan st
    let st1 := nextSt st
    let (tr, stA) := enterRecovery [.equals] st1
    (parseBinding fuel stA).andThen fun binding st2 =>
      match exitRecovery binding.isErr tr [.equals] st2 with
      | none => .fault recoveryFaultMsg
      | some st3 =>
        if st3.inRecovery then
          match binding with
          | .err e => .ok (.err e) st3
          | _ => .fault recoveryFaultMsg
        else
          let (eqRes, st4) := expect .equals "for let/const binding" st3
          match eqRes with
          | .inr e => .ok (.err e) st4
          | .inl _ =>
            (parseExpr fuel 0 st4).andThen fun init st5 =>
              let sp := backwardExtendSpan start init.span
              .ok (if isConst then .constS binding init sp else .letS binding init sp) st5
termination_by structural fuel _ _ => fuel

/-- `Parser.parseReturn`. -/
def parseReturn : Nat → PState → PRes Stmt
  | 0, _ => .noFuel
  | fuel + 1, st =>
    let start := startOfSpan st
    let st1 := nextSt st
    (parseExpr fuel 0 st1).andThen fun value st2 =>
      .ok (.returnS (some value) (backwardExtendSpan start value.span)) st2
termination_by structural fuel _ => fuel

/-- The `do`/`while` loop of `Parser.parseBlock`. -/
def blockLoop : Nat → List Stmt → PState → PRes (Sum (List Stmt) AstErr)
  | 0, _, _ => .noFuel
  | fuel + 1, acc, st =>
    let (tr, stA) := enterRecovery [.semicolon, .rbrace] st
    (parseStmt fuel stA).andThen fun stmt st1 =>
      match exitRecovery stmt.isErr tr [.semicolon, .rbrace] st1 with
      | none => .fault recoveryFaultMsg
      | some st2 =>
        if st2.inRecovery then
          match stmt with
          | .err e => .ok (.inr e) st2
          | _ => .fault recoveryFaultMsg
        else
          let acc2 := acc ++ [stmt]
          let (_, st3) := expect .semicolon "to close the statement" st2
          let st4 := clearRecovery st3
          match peek st4 with
          | some t =>
            if t.kind = .rbrace then .ok (.inl acc2) st4
            else blockLoop fuel acc2 st4
          | none => .ok (.inl acc2) st4
termination_by structural fuel _ _ => fuel

/-- `Parser.parseBlock`. -/
def parseBlock : Nat → PState → PRes (Sum (List Stmt × SpanI) AstErr)
  | 0, _ => .noFuel
  | fuel + 1, st =>
    let start := startOfSpan st
    let st1 := nextSt st
    (blockLoop fuel [] st1).andThen fun blk st2 =>
      match blk with
      | .inr e => .ok (.inr e) st2
      | .inl stmts =>
        let e := endOfSpan st2
        let (_, st3) := expect .rbrace "to terminate block" st2
        let st4 := clearRecovery st3
        .ok (.inl (stmts, ⟨start, e⟩)) st4
termination_by structural fuel _ => fuel

/-- The parameter `do`/`while` loop of `Parser.parseFunction`, including
the closing-parenthesis scope that follows it. -/
def paramLoop : Nat → List Binding → PState → PRes (Sum (List Binding) AstErr)
  | 0, _, _ => .noFuel
  | fuel + 1, acc, st =>
    let (tr, stA) := enterRecovery [.comma, .rparen, .colon, .lbrace] st
    (parseBinding fuel stA).andThen fun binding st1 =>
      match exitRecovery binding.isErr tr [.comma, .rparen, .colon, .lbrace] st1 with
      | none => .fault recoveryFaultMsg
      | some st2 =>
        if st2.inRecovery then
          match binding with
          | .err e => .ok (.inr e) st2
          | _ => .fault recoveryFaultMsg
        else
          let acc2 := acc ++ [binding]
          let (gotComma, st3) := consume .comma st2
          if gotComma then paramLoop fuel acc2 st3
          else
            let (tr2, stB) := enterRecovery [.colon, .lbrace] st3
            let (rp, st4) := expect .rparen "to close function parameters" stB
            match exitRecovery (sumIsErr rp) tr2 [.colon, .lbrace] st4 with
            | none => .fault recoveryFaultMsg
            | some st5 =>
              if st5.inRecovery then
                match rp with
                | .inr e => .ok (.inr e) st5
                | .inl _ => .fault recoveryFaultMsg
              else .ok (.inl acc2) st5
termination_by structural fuel _ _ => fuel

/-- `Parser.parseFunction`. -/
def parseFunction : Nat → PState → PRes Decl
  | 0, _ => .noFuel
  | fuel + 1, st =>
    let start := startOfSpan st
    let st1 := nextSt st
    let (tr1, stA) := enterRecovery [.lparen, .colon, .lbrace] st1
    let (nameRes, st2) := expectIdentifier stA
    match exitRecovery (sumIsErr nameRes) tr1 [.lparen, .colon, .lbrace] st2 with
    | none => .fault recoveryFaultMsg
    | some st3 =>
      if st3.inRecovery then
        match nameRes with
        | .inr e => .ok (.err e) st3
        | .inl _ => .fault recoveryFaultMsg
      else
        let (tr2, stB) := enterRecovery [.colon, .lbrace] st3
        let (lp, st4) := expect .lparen "for function parameters" stB
        match exitRecovery (sumIsErr lp) tr2 [.colon, .lbrace] st4 with
        | none => .fault recoveryFaultMsg
        | some st5 =>
          if st5.inRecovery then
            match lp with
            | .inr e => .ok (.err e) st5
            | .inl _ => .fault recoveryFaultMsg
          else
            let (gotRP, st6) := consume .rparen st5
            let paramsRes : PRes (Sum (List Binding) AstErr) :=
              if gotRP then .ok (.inl []) st6 else paramLoop fuel [] st6
            paramsRes.andThen fun params0 st7 =>
              match params0 with
              | .inr e => .ok (.err e) st7
              | .inl params =>
                let (gotColon, st8) := consume .colon st7
                let retRes : PRes (Sum (Option TypeExpr) AstErr) :=
                  if gotColon then
                    let (tr3, stC) := enterRecovery [.lbrace] st8
                    (parseTypeExpr fuel stC).andThen fun ty st9 =>
                      match exitRecovery ty.isErr tr3 [.lbrace] st9 with
                      | none => .fault recoveryFaultMsg
                      | some st10 =>
                        if st10.inRecovery then
                          match ty with
                          | .err e => .ok (.inr e) st10
                          | _ => .fault recoveryFaultMsg
                        else .ok (.inl (some ty)) st10
                  else .ok (.inl none) st8
                retRes.andThen fun ret0 st11 =>
                  match ret0 with
                  | .inr e => .ok (.err e) st11
                  | .inl retTy =>
                    (parseBlock fuel st11).andThen fun blk st12 =>
                      match blk with
                      | .inr e => .ok (.err e) st12
                      | .inl (stmts, blockSpan) =>
                        .ok (.functionDecl nameRes params retTy (.inl stmts)
                          (backwardExtendSpan start blockSpan)) st12
termination_by structural fuel _ => fuel

/-- The lifetime-list `do`/`while` loop of `Parser.parseTypeExpr`. -/
def lifetimeLoop : Nat → List Ident → PState → PRes (Sum (List Ident) AstErr)
  | 0, _, _ => .noFuel
  | fuel + 1, acc, st =>
    let (r, st1) := expectIdentifier st
    match r with
    | .inr e => .ok (.inr e) st1
    | .inl i =>
      let acc2 := acc ++ [i]
      let (gotComma, st2) := consume .comma st1
      if gotComma then lifetimeLoop fuel acc2 st2 else .ok (.inl acc2) st2
termination_by structural fuel _ _ => fuel

/-- `Parser.parseTypeExpr`. -/
def parseTypeExpr : Nat → PState → PRes TypeExpr
  | 0, _ => .noFuel
  | fuel + 1, st =>
    let start := startOfSpan st
    match peek st with
    | none =>
      let (e, st1) := errorP (curSpan st) "expected type expression, got <eof>" st
      .ok (.err e) st1
    | some t =>
      if t.kind = .unique || t.kind = .handle then
        let uniq := t.kind = .unique
        let st1 := nextSt st
        let st2 :=
          if uniq then
            let (_, stH) := expect .handle "after unique" st1
            clearRecovery stH
          else st1
        let (gotLA, st3) := consume .langle st2
        let ltsRes : PRes (Sum (List Ident) AstErr) :=
          if gotLA then
            (lifetimeLoop fuel [] st3).andThen fun lts0 st4 =>
              match lts0 with
              | .inr e => .ok (.inr e) st4
              | .inl lts =>
                let (rres, st5) := expect .rangle "to close lifetime list" st4
                match rres with
                | .inr e => .ok (.inr e) st5
                | .inl _ => .ok (.inl lts) st5
          else .ok (.inl []) st3
        ltsRes.andThen fun lts0 st6 =>
          match lts0 with
          | .inr e => .ok (.err e) st6
          | .inl lts =>
            (parseTypeExpr fuel st6).andThen fun inner st7 =>
              .ok (.handleType uniq lts inner (backwardExtendSpan start inner.span)) st7
      else if t.kind = .identifier then
        let (r, st1) := expectIdentifier st
        match r with
        | .inl i => .ok (.ident i) st1
        | .inr e => .ok (.err e) st1
      else
        let (e, st1) := errorP (curSpan st)
          ("expected type expression, got " ++ tkName t.kind) st
        .ok (.err e) st1
termination_by structural fuel _ => fuel

/-- `Parser.parseExpr`: precedence climbing. -/
def parseExpr : Nat → Nat → PState → PRes Expr
  | 0, _, _ => .noFuel
  | fuel + 1, minPrec, st =>
    let start := startOfSpan st
    (parsePrimaryExpr fuel st).andThen fun left st1 =>
      climbLoop fuel minPrec start left st1
termination_by structural fuel _ _ => fuel

/-- The climbing `while` loop of `Parser.parseExpr`. -/
def climbLoop : Nat → Nat → Nat → Expr → PState → PRes Expr
  | 0, _, _, _, _ => .noFuel
  | fuel + 1, minPrec, start, left, st =>
    match peek st with
    | none => .ok left st
    | some t =>
      match getBinaryOp t.kind with
      | none => .ok left st
      | some op =>
        let prec := getBinaryPrecedence op
        if prec < minPrec then .ok left st
        else
          let st1 := nextSt st
          (parseExpr fuel (prec + 1) st1).andThen fun right st2 =>
            climbLoop fuel minPrec start
              (.binary left op right (backwardExtendSpan start right.span)) st2
termination_by structural fuel _ _ _ _ => fuel

/-- `Parser.parsePrimaryExpr`. -/
def parsePrimaryExpr : Nat → PState → PRes Expr
  | 0, _ => .noFuel
  | fuel + 1, st =>
    let start := startOfSpan st
    match peek st with
    | none =>
      let (e, st1) := errorP (curSpan st) "expected expression, got <eof>" st
      .ok (.err e) st1
    | some t =>
      match t.kind with
      | .minus =>
        let st1 := nextSt st
        (parsePrimaryExpr fuel st1).andThen fun right st2 =>
          .ok (.unary .minus right (backwardExtendSpan start right.span)) st2
      | .number => .ok (.numberLit t.num ⟨t.start, t.stop⟩) (nextSt st)
      | .stringK => .ok (.stringLit t.str ⟨t.start, t.stop⟩) (nextSt st)
      | .lparen =>
        let st1 := nextSt st
        (parseExpr fuel 0 st1).andThen fun e st2 =>
          let (_, st3) := expect .rparen "to close parenthesized expression" st2
          .ok e st3
      | .identifier =>
        let name := String.mk (sliceChars st.src t.start t.stop)
        let st1 := nextSt st
        parsePostfixExpr fuel (.ident ⟨name, ⟨t.start, t.stop⟩⟩) start st1
      | .thisK => .ok (.ident ⟨"this", ⟨t.start, t.stop⟩⟩) (nextSt st)
      | k =>
        let (e, st1) := errorP (curSpan st) ("expected expression, got " ++ tkName k) st
        .ok (.err e) st1
termination_by structural fuel _ => fuel

/-- The comma-separated argument list shared by the call and method-call
branches (identical in the source up to the closing message). -/
def argsLoop : Nat → List Expr → PState → PRes (List Expr)
  | 0, _, _ => .noFuel
  | fuel + 1, acc, st =>
    (parseExpr fuel 0 st).andThen fun a st1 =>
      let acc2 := acc ++ [a]
      let (gotComma, st2) := consume .comma st1
      if gotComma then argsLoop fuel acc2 st2 else .ok acc2 st2
termination_by structural fuel _ _ => fuel

/-- Arguments plus the span end captured before the closing parenthesis,
exactly as both call sites in `parsePostfixExpr` compute it. -/
def parseCallArgs : Nat → String → PState → PRes (List Expr × Nat)
  | 0, _, _ => .noFuel
  | fuel + 1, closeMsg, st =>
    let e0 := endOfSpan st
    let (gotRP, st1) := consume .rparen st
    if gotRP then .ok ([], e0) st1
    else
      (argsLoop fuel [] st1).andThen fun args st2 =>
        let e1 := endOfSpan st2
        let (_, st3) := expect .rparen closeMsg st2
        .ok (args, e1) st3
termination_by structural fuel _ _ => fuel

/-- `Parser.parsePostfixExpr` (the UFCS desugaring lives in the `.` arm). -/
def parsePostfixExpr : Nat → Expr → Nat → PState → PRes Expr
  | 0, _, _, _ => .noFuel
  | fuel + 1, expr, start, st =>
    match peek st with
    | none => .ok expr st
    | some t =>
      if t.kind = .lparen then
        let st1 := nextSt st
        (parseCallArgs fuel "to close function call" st1).andThen fun ae st2 =>
          parsePostfixExpr fuel (.call expr ae.1 ⟨start, ae.2⟩) start st2
      else if t.kind = .dot then
        let st1 := nextSt st
        let (mres, st2) := expectIdentifier st1
        match mres with
        | .inr e => .ok (.err e) st2
        | .inl mi =>
          match peek st2 with
          | some t2 =>
            if t2.kind = .lparen then
              let st3 := nextSt st2
              (parseCallArgs fuel "to close method call" st3).andThen fun ae st4 =>
                parsePostfixExpr fuel (.call (.ident mi) (expr :: ae.1) ⟨start, ae.2⟩) start st4
            else
              let (e, st3) := errorP (curSpan st2) "member access not yet implemented" st2
              .ok (.err e) st3
          | none =>
            let (e, st3) := errorP (curSpan st2) "member access not yet implemented" st2
            .ok (.err e) st3
      else .ok expr st
termination_by structural fuel _ _ _ => fuel

/-- `Parser.parseStmt`. -/
def parseStmt : Nat → PState → PRes Stmt
  | 0, _ => .noFuel
  | fuel + 1, st =>
    match peek st with
    | none =>
      let (e, st1) := errorP (curSpan st) "expected statement, got <eof>" st
      .ok (.err e) st1
    | some t =>
      match t.kind with
      | .constK => parseLocal fuel true st
      | .letK => parseLocal fuel false st
      | .returnK => parseReturn fuel st
      | _ =>
        let start := startOfSpan st
        (parseExpr fuel 0 st).andThen fun e st1 =>
          .ok (.exprS e (backwardExtendSpan start e.span)) st1
termination_by structural fuel _ => fuel

/-- `Parser.parseDeclaration`. -/
def parseDeclaration : Nat → PState → PRes Decl
  | 0, _ => .noFuel
  | fuel + 1, st =>
    match peek st with
    | none =>
      let (e, st1) := errorP (curSpan st) "expected declaration, got <eof>" st
      .ok (.err e) st1
    | some t =>
      if t.kind = .functionK then parseFunction fuel st
      else
        let (e, st1) := errorP (curSpan st)
          ("expected declaration, got " ++ tkName t.kind) st
        .ok (.err e) st1
termination_by structural fuel _ => fuel

end

/-! ## End-to-end pipelines -/

/-- The state the `Parser` constructor builds over a lexed source. -/
def initPState (s : String) (toks : List Token) : PState :=
  { toks := toks, recoverySet := [], inRecovery := false, diags := [],
    src := s.data, endOfSrc := s.data.length }

/-- Parser fuel provably adequate for a token stream (see the
fuel-sufficiency theorems below). -/
def parserFuel (toks : List Token) : Nat := 16 * toks.length + 16

/-- Outcome of lexing-then-parsing a source text. -/
inductive PipelineOut where
  | lexFail (e : ScanErr)
  | parsed (r : PRes Decl)
deriving Repr

/-- `parseDeclaration` over a source string: lex (a string-scan failure
raised during lexing propagates to the parser's consumer), then parse. -/
def parsePipeline (s : String) : Option PipelineOut :=
  match lexRun s with
  | none => none
  | some (.error e) => some (.lexFail e)
  | some (.ok (toks, _)) =>
    some (.parsed (parseDeclaration (parserFuel toks) (initPState s toks)))

/-- `parseExpr(0)` over a source string that lexes without scan failure. -/
def parseExprPipeline (s : String) : Option (PRes Expr) :=
  match lexRun s with
  | some (.ok (toks, _)) => some (parseExpr (parserFuel toks) 0 (initPState s toks))
  | _ => none

/-- Observation: the diagnostics accumulated by a completed declaration
parse. -/
def pipelineDiags (s : String) : Option (List Diag) :=
  match parsePipeline s with
  | some (.parsed (.ok _ st)) => some st.diags
  | _ => none

/-- Observation: the declaration node a completed parse returns. -/
def pipelineDecl (s : String) : Option Decl :=
  match parsePipeline s with
  | some (.parsed (.ok d _)) => some d
  | _ => none

/-- Observation: the expression node a completed expression parse
returns. -/
def exprPipelineExpr (s : String) : Option Expr :=
  match parseExprPipeline s with
  | some (.ok e _) => some e
  | _ => none


/-! ## Lexer: termination and span bounds -/

theorem charAt_some_lt {src : Src} {p : Nat} {c : Char}
    (h : charAt src p = some c) : p < src.length := by
  by_contra hlt
  rw [charAt, List.get?_eq_none.mpr (by omega)] at h
  exact Option.noConfusion h

theorem charAt_none {src : Src} {p : Nat} (h : src.length ≤ p) :
    charAt src p = none := by
  rw [charAt, List.get?_eq_none.mpr h]

theorem readHexDigits_ok {src : Src} : ∀ n p l q,
    readHexDigits src p n = .ok (l, q) →
    q = p + n ∧ (0 < n → q ≤ src.length) := by
  intro n
  induction n with
  | zero =>
    intro p l q h
    simp only [readHexDigits] at h
    cases h
    omega
  | succ m ih =>
    intro p l q h
    simp only [readHexDigits] at h
    cases hc : charAt src p with
    | none => rw [hc] at h; exact absurd h (by simp)
    | some c =>
      rw [hc] at h
      by_cases hx : isHexCh c
      · simp only [hx, if_true] at h
        cases hr : readHexDigits src (p + 1) m with
        | error e => rw [hr] at h; exact absurd h (by simp)
        | ok lq =>
          obtain ⟨l2, q2⟩ := lq
          rw [hr] at h
          cases h
          have hb := ih _ _ _ hr
          have hp := charAt_some_lt hc
          constructor
          · omega
          · intro _
            rcases Nat.eq_zero_or_pos m with hm | hm
            · omega
            · have := hb.2 hm; omega
      · simp only [hx, if_false] at h
        exact absurd h (by simp)

theorem uniBraceLoop_spec (src : Src) : ∀ fuel p acc,
    src.length - p < fuel →
    (uniBraceLoop src fuel p acc).isSome ∧
    ∀ l q, uniBraceLoop src fuel p acc = some (.ok (l, q)) →
      p < q ∧ q ≤ src.length := by
  intro fuel
  induction fuel with
  | zero => intro p acc h; omega
  | succ m ih =>
    intro p acc h
    simp only [uniBraceLoop]
    cases hc : charAt src p with
    | none => simp
    | some c =>
      have hp := charAt_some_lt hc
      by_cases hbr : c = '}'
      · simp only [hbr, if_true]
        refine ⟨by simp, ?_⟩
        intro l q hq
        cases hq
        omega
      · simp only [hbr, if_false]
        by_cases hx : isHexCh c
        · simp only [hx, if_true]
          have ih2 := ih (p + 1) (acc ++ [c]) (by omega)
          refine ⟨ih2.1, ?_⟩
          intro l q hq
          have := ih2.2 l q hq
          omega
        · simp only [hx, if_false]
          simp

theorem readUnicodeEscape_spec (src : Src) (fuel p : Nat)
    (h : src.length - p < fuel) :
    (readUnicodeEscape src fuel p).isSome ∧
    ∀ c q, readUnicodeEscape src fuel p = some (.ok (c, q)) →
      p + 1 < q ∧ q ≤ src.length := by
  simp only [readUnicodeEscape]
  by_cases hbr : charAt src (p + 1) = some '{'
  · simp only [hbr, if_pos rfl]
    have hu := uniBraceLoop_spec src fuel (p + 2) [] (by omega)
    cases hub : uniBraceLoop src fuel (p + 2) [] with
    | none => rw [hub] at hu; exact absurd hu.1 (by simp)
    | some r =>
      cases r with
      | error e => simp
      | ok lq =>
        obtain ⟨hex, q2⟩ := lq
        have hb := hu.2 hex q2 hub
        by_cases he : hex.isEmpty
        · simp only [he, if_true]; simp
        · simp only [he, if_false]
          by_cases hn : hexToNat hex ≤ 0x10FFFF
          · simp only [hn, if_true]
            refine ⟨by simp, ?_⟩
            intro c q hq
            cases hq
            omega
          · simp only [hn, if_false]; simp
  · rw [if_neg hbr]
    cases hr : readHexDigits src (p + 1) 4 with
    | error e => simp
    | ok lq =>
      obtain ⟨hex, q2⟩ := lq
      have hb := readHexDigits_ok 4 (p + 1) hex q2 hr
      refine ⟨by simp, ?_⟩
      intro c q hq
      cases hq
      have := hb.2 (by omega)
      omega


theorem scanLoop_spec (src : Src) (quote : Char) : ∀ fuel p acc,
    src.length - p < fuel →
    (scanLoop src quote fuel p acc).isSome ∧
    ∀ v q, scanLoop src quote fuel p acc = some (.ok (v, q)) →
      p < q ∧ q ≤ src.length := by
  intro fuel
  induction fuel with
  | zero => intro p acc h; omega
  | succ m ih =>
    intro p acc h
    have step : ∀ p2 acc2, p < p2 → src.length - p2 < m →
        (scanLoop src quote m p2 acc2).isSome ∧
        ∀ v q, scanLoop src quote m p2 acc2 = some (.ok (v, q)) →
          p < q ∧ q ≤ src.length := by
      intro p2 acc2 hlt hf
      have ihx := ih p2 acc2 hf
      exact ⟨ihx.1, fun v q hq => by have := ihx.2 v q hq; omega⟩
    simp only [scanLoop]
    cases hc : charAt src p with
    | none => simp
    | some ch =>
      dsimp only
      have hp := charAt_some_lt hc
      by_cases hq0 : ch = quote
      · rw [if_pos hq0]
        refine ⟨by simp, ?_⟩
        intro v q hq
        cases hq
        omega
      · rw [if_neg hq0]
        by_cases hbs : ch = '\\'
        · rw [if_pos hbs]
          cases hc2 : charAt src (p + 1) with
          | none => simp
          | some esc =>
            dsimp only
            have hp2 := charAt_some_lt hc2
            by_cases h1 : esc = 'n'
            · rw [if_pos h1]; exact step (p + 2) _ (by omega) (by omega)
            · rw [if_neg h1]
              by_cases h2 : esc = 'r'
              · rw [if_pos h2]; exact step (p + 2) _ (by omega) (by omega)
              · rw [if_neg h2]
                by_cases h3 : esc = 't'
                · rw [if_pos h3]; exact step (p + 2) _ (by omega) (by omega)
                · rw [if_neg h3]
                  by_cases h4 : esc = '\\'
                  · rw [if_pos h4]; exact step (p + 2) _ (by omega) (by omega)
                  · rw [if_neg h4]
                    by_cases h5 : esc = '"'
                    · rw [if_pos h5]; exact step (p + 2) _ (by omega) (by omega)
                    · rw [if_neg h5]
                      by_cases h6 : esc = '\''
                      · rw [if_pos h6]; exact step (p + 2) _ (by omega) (by omega)
                      · rw [if_neg h6]
                        by_cases h7 : esc = 'u'
                        · rw [if_pos h7]
                          have hru := readUnicodeEscape_spec src m (p + 1) (by omega)
                          cases hrue : readUnicodeEscape src m (p + 1) with
                          | none => rw [hrue] at hru; exact absurd hru.1 (by simp)
                          | some r =>
                            cases r with
                            | error e => simp
                            | ok cq =>
                              obtain ⟨c2, q2⟩ := cq
                              have hb := hru.2 _ _ hrue
                              exact step q2 _ (by omega) (by omega)
                        · rw [if_neg h7]
                          by_cases h8 : esc = 'x'
                          · rw [if_pos h8]
                            cases hrx : readHexEscape src (p + 1) with
                            | error e => simp
                            | ok cq =>
                              obtain ⟨c2, q2⟩ := cq
                              simp only [readHexEscape] at hrx
                              cases hrh : readHexDigits src (p + 1 + 1) 2 with
                              | error e => rw [hrh] at hrx; exact absurd hrx (by simp)
                              | ok lq =>
                                rw [hrh] at hrx
                                obtain ⟨hex, q3⟩ := lq
                                cases hrx
                                have hb := readHexDigits_ok _ _ _ _ hrh
                                have := hb.2 (by omega)
                                exact step q2 _ (by omega) (by omega)
                          · rw [if_neg h8]
                            exact step (p + 2) _ (by omega) (by omega)
        · rw [if_neg hbs]
          exact step (p + 1) _ (by omega) (by omega)

theorem scanString_spec (src : Src) (fuel p : Nat) (h : src.length - p < fuel) :
    (scanString src fuel p).isSome ∧
    ∀ v q, scanString src fuel p = some (.ok (v, q)) →
      p < q ∧ q ≤ src.length := by
  simp only [scanString]
  cases hc : charAt src p with
  | none => simp
  | some c =>
    dsimp only
    have hp := charAt_some_lt hc
    by_cases hq0 : c = '"' || c = '\''
    · rw [if_pos hq0]
      have hs := scanLoop_spec src c fuel (p + 1) [] (by omega)
      exact ⟨hs.1, fun v q hq => by have := hs.2 v q hq; omega⟩
    · rw [if_neg hq0]
      simp

/-- Helper: the three `tokenFn` facts for a yielded-token result. -/
theorem tok_arm {src : Src} (tok : Token) (p e : Nat)
    (h1 : tok.start = p) (h2 : tok.stop = e) (hlt : p < e) (he : e ≤ src.length) :
    ((some (.ok (some tok, e)) : Option (Except ScanErr (Option Token × Nat))).isSome) ∧
    (∀ t q, (some (.ok (some tok, e)) : Option (Except ScanErr (Option Token × Nat))) =
        some (.ok (some t, q)) → t.start = p ∧ t.stop = q ∧ p < q ∧ q ≤ src.length) ∧
    (∀ q, (some (.ok (some tok, e)) : Option (Except ScanErr (Option Token × Nat))) =
        some (.ok (none, q)) → q = p ∨ (q = p + 1 ∧ p < src.length)) := by
  refine ⟨by simp, ?_, ?_⟩
  · intro t q hq
    simp only [Option.some.injEq, Except.ok.injEq, Prod.mk.injEq] at hq
    obtain ⟨hq1, hq2⟩ := hq
    subst hq1
    subst hq2
    exact ⟨h1, h2, by omega, by omega⟩
  · intro q hq
    simp at hq

/-- Helper: the three `tokenFn` facts for a rejected/no-token result. -/
theorem tokNone_arm {src : Src} (p e : Nat)
    (he : e = p ∨ (e = p + 1 ∧ p < src.length)) :
    ((some (.ok (none, e)) : Option (Except ScanErr (Option Token × Nat))).isSome) ∧
    (∀ t q, (some (.ok ((none : Option Token), e)) : Option (Except ScanErr (Option Token × Nat))) =
        some (.ok (some t, q)) → t.start = p ∧ t.stop = q ∧ p < q ∧ q ≤ src.length) ∧
    (∀ q, (some (.ok ((none : Option Token), e)) : Option (Except ScanErr (Option Token × Nat))) =
        some (.ok (none, q)) → q = p ∨ (q = p + 1 ∧ p < src.length)) := by
  refine ⟨by simp, ?_, ?_⟩
  · intro t q hq
    simp at hq
  · intro q hq
    simp only [Option.some.injEq, Except.ok.injEq, Prod.mk.injEq] at hq
    obtain ⟨-, hq2⟩ := hq
    subst hq2
    exact he

theorem tokenFn_spec (src : Src) (fuel p : Nat) (h : src.length - p < fuel) :
    (tokenFn src fuel p).isSome ∧
    (∀ t q, tokenFn src fuel p = some (.ok (some t, q)) →
        t.start = p ∧ t.stop = q ∧ p < q ∧ q ≤ src.length) ∧
    (∀ q, tokenFn src fuel p = some (.ok (none, q)) →
        q = p ∨ (q = p + 1 ∧ p < src.length)) := by
  unfold tokenFn
  cases hc : charAt src p with
  | none => exact tokNone_arm p p (Or.inl rfl)
  | some c =>
    dsimp only
    have hp := charAt_some_lt hc
    by_cases h1 : c = '='
    · rw [if_pos h1]
      by_cases h1a : charAt src (p + 1) = some '='
      · rw [if_pos h1a]
        have hp2 := charAt_some_lt h1a
        apply tok_arm <;> first | rfl | omega
      · rw [if_neg h1a]
        by_cases h1b : charAt src (p + 1) = some '>'
        · rw [if_pos h1b]
          have hp2 := charAt_some_lt h1b
          apply tok_arm <;> first | rfl | omega
        · rw [if_neg h1b]
          apply tok_arm <;> first | rfl | omega
    · rw [if_neg h1]
      by_cases h2 : c = '!'
      · rw [if_pos h2]
        by_cases h2a : charAt src (p + 1) = some '='
        · rw [if_pos h2a]
          have hp2 := charAt_some_lt h2a
          apply tok_arm <;> first | rfl | omega
        · rw [if_neg h2a]
          apply tok_arm <;> first | rfl | omega
      · rw [if_neg h2]
        by_cases h3 : c = '&'
        · rw [if_pos h3]
          by_cases h3a : charAt src (p + 1) = some '&'
          · rw [if_pos h3a]
            have hp2 := charAt_some_lt h3a
            apply tok_arm <;> first | rfl | omega
          · rw [if_neg h3a]
            exact tokNone_arm p (p + 1) (Or.inr ⟨rfl, hp⟩)
        · rw [if_neg h3]
          by_cases h4 : c = '|'
          · rw [if_pos h4]
            by_cases h4a : charAt src (p + 1) = some '|'
            · rw [if_pos h4a]
              have hp2 := charAt_some_lt h4a
              apply tok_arm <;> first | rfl | omega
            · rw [if_neg h4a]
              exact tokNone_arm p (p + 1) (Or.inr ⟨rfl, hp⟩)
          · rw [if_neg h4]
            by_cases h5 : c = '\'' || c = '"'
            · rw [if_pos h5]
              have hs := scanString_spec src fuel p h
              cases hss : scanString src fuel p with
              | none => rw [hss] at hs; exact absurd hs.1 (by simp)
              | some r =>
                cases r with
                | error e =>
                  exact ⟨by simp, fun t q hq => by simp at hq, fun q hq => by simp at hq⟩
                | ok vq =>
                  obtain ⟨v, q2⟩ := vq
                  have hb := hs.2 _ _ hss
                  apply tok_arm <;> first | rfl | omega
            · rw [if_neg h5]
              cases hst : simpleTok c with
              | some k => apply tok_arm <;> first | rfl | omega
              | none => exact tokNone_arm p p (Or.inl rfl)

theorem skipWs_spec (src : Src) : ∀ fuel p, src.length - p < fuel →
    ∃ q, skipWs src fuel p = some q ∧ p ≤ q ∧
      (p ≤ src.length → q ≤ src.length) ∧
      (∀ c, charAt src q = some c → isLexWs c = false) ∧
      (∀ i, p ≤ i → i < q → ∃ c, charAt src i = some c ∧ isLexWs c = true) := by
  intro fuel
  induction fuel with
  | zero => intro p h; omega
  | succ m ih =>
    intro p h
    simp only [skipWs]
    cases hc : charAt src p with
    | none =>
      refine ⟨p, rfl, le_refl _, fun h2 => h2, ?_, fun i h1 h2 => by omega⟩
      intro c hcq
      rw [hc] at hcq
      cases hcq
    | some c =>
      dsimp only
      have hp := charAt_some_lt hc
      by_cases hw : isLexWs c
      · rw [if_pos hw]
        obtain ⟨q, hq, hpq, hbd, hstop, hws⟩ := ih (p + 1) (by omega)
        refine ⟨q, hq, by omega, fun _ => hbd (by omega), hstop, ?_⟩
        intro i hi1 hi2
        rcases Nat.eq_or_lt_of_le hi1 with he | hlt
        · subst he
          exact ⟨c, hc, hw⟩
        · exact hws i (by omega) hi2
      · rw [if_neg hw]
        refine ⟨p, rfl, le_refl _, fun h2 => h2, ?_, fun i h1 h2 => by omega⟩
        intro c2 hcq
        rw [hc] at hcq
        cases hcq
        simpa using hw

theorem isLexWs_digit {c : Char} (hd : isDigitCh c = true) : isLexWs c = false := by
  by_contra hw
  rw [Bool.not_eq_false] at hw
  simp only [isLexWs, Bool.or_eq_true, decide_eq_true_eq] at hw
  have hc4 : c = ' ' ∨ c = '\t' ∨ c = '\r' ∨ c = '\n' := by tauto
  rcases hc4 with h | h | h | h <;> subst h <;> exact absurd hd (by decide)

theorem consToks_isSome (pre : List Token) (rej : Bool)
    (r : Option (Except ScanErr (List Token × Bool))) :
    (consToks pre rej r).isSome = r.isSome := by
  cases r with
  | none => rfl
  | some e =>
    cases e with
    | error e2 => rfl
    | ok tb => obtain ⟨ts, b⟩ := tb; rfl

/-- Fuel sufficiency for the lexer's two mutually recursive loops: every
loop either yields strictly later in the source or stops, so a linear
fuel budget can never run out. -/
theorem lexAux_suff (src : Src) : ∀ fuel,
    (∀ p, 4 * (src.length - p) + 4 ≤ fuel → (runAux src fuel p).isSome) ∧
    (∀ start p isNum,
      ((4 * (src.length - p) + 3 ≤ fuel ∧ p < src.length ∧
        (∀ c, charAt src p = some c → isLexWs c = false)) ∨
       4 * (src.length - p) + 5 ≤ fuel) →
      (identLoop src fuel start p isNum).isSome) := by
  intro fuel
  induction fuel with
  | zero =>
    constructor
    · intro p hf; omega
    · intro start p isNum hf
      rcases hf with ⟨hf, -, -⟩ | hf <;> omega
  | succ m ih =>
    obtain ⟨ihRun, ihIdent⟩ := ih
    constructor
    · intro p0 hf
      simp only [runAux]
      obtain ⟨p, hskip, hp0p, hbd, hstop, hws⟩ := skipWs_spec src (m + 1) p0 (by omega)
      rw [hskip]
      try dsimp only
      have hLp : src.length - p ≤ src.length - p0 := by omega
      have htf := tokenFn_spec src (m + 1) p (by omega)
      cases htok : tokenFn src (m + 1) p with
      | none => rw [htok] at htf; exact absurd htf.1 (by simp)
      | some r =>
        cases r with
        | error e => simp
        | ok otq =>
          obtain ⟨ot, q⟩ := otq
          cases ot with
          | some t =>
            have hb := htf.2.1 t q htok
            rw [consToks_isSome]
            exact ihRun q (by omega)
          | none =>
            have hb := htf.2.2 q htok
            try dsimp only
            by_cases hq : q < src.length
            · rw [if_pos hq, consToks_isSome]
              apply ihIdent q q true
              rcases hb with he | ⟨he, hpL⟩
              · subst he
                exact Or.inl ⟨by omega, hq, hstop⟩
              · subst he
                exact Or.inr (by omega)
            · rw [if_neg hq]
              simp
    · intro start p isNum H
      have hf3 : 4 * (src.length - p) + 3 ≤ m + 1 := by
        rcases H with ⟨h1, -, -⟩ | h1 <;> omega
      simp only [identLoop]
      cases hc : charAt src p with
      | none =>
        have hL : src.length ≤ p := by
          by_contra hx
          rcases List.get?_eq_get (by omega : p < src.length) with hg
          rw [charAt, hg] at hc
          exact Option.noConfusion hc
        have h5 : 4 * (src.length - p) + 5 ≤ m + 1 := by
          rcases H with ⟨-, hpL, -⟩ | h1
          · omega
          · exact h1
        rw [consToks_isSome]
        exact ihRun p (by omega)
      | some c =>
        try dsimp only
        have hp := charAt_some_lt hc
        by_cases hw : isLexWs c
        · rw [if_pos hw]
          have h5 : 4 * (src.length - p) + 5 ≤ m + 1 := by
            rcases H with ⟨-, -, hnws⟩ | h1
            · rw [hnws c hc] at hw
              exact absurd hw (by simp)
            · exact h1
          rw [consToks_isSome]
          exact ihRun p (by omega)
        · rw [if_neg hw]
          by_cases hdot : c = '.'
          · rw [if_pos hdot]
            by_cases hcont : (isNum && (charAt src (p + 1)).any isDigitCh) = true
            · rw [if_pos hcont]
              rw [Bool.and_eq_true] at hcont
              have hd : ∃ c2, charAt src (p + 1) = some c2 ∧ isDigitCh c2 = true := by
                cases hc2 : charAt src (p + 1) with
                | none => rw [hc2] at hcont; exact absurd hcont.2 (by simp [Option.any])
                | some c2 =>
                  rw [hc2] at hcont
                  exact ⟨c2, rfl, by simpa [Option.any] using hcont.2⟩
              obtain ⟨c2, hc2, hd2⟩ := hd
              apply ihIdent start (p + 1) isNum
              refine Or.inl ⟨by omega, charAt_some_lt hc2, ?_⟩
              intro c3 hc3
              rw [hc2] at hc3
              cases hc3
              exact isLexWs_digit hd2
            · rw [if_neg hcont]
              rw [consToks_isSome]
              exact ihRun (p + 1) (by omega)
          · rw [if_neg hdot]
            try dsimp only
            have htf := tokenFn_spec src (m + 1) p (by omega)
            cases htok : tokenFn src (m + 1) p with
            | none => rw [htok] at htf; exact absurd htf.1 (by simp)
            | some r =>
              cases r with
              | error e => simp
              | ok otq =>
                obtain ⟨ot, q⟩ := otq
                cases ot with
                | some t =>
                  have hb := htf.2.1 t q htok
                  rw [consToks_isSome]
                  exact ihRun q (by omega)
                | none =>
                  have hb := htf.2.2 q htok
                  rw [consToks_isSome]
                  apply ihIdent start (q + 1)
                  rcases hb with he | ⟨he, -⟩ <;> subst he <;> exact Or.inr (by omega)

/-- The lexer, with the fuel `lexRun` supplies, always terminates. -/
theorem lexRun_total (s : String) : (lexRun s).isSome :=
  (lexAux_suff s.data (4 * s.data.length + 8)).1 0 (by omega)

/-! Result-conditioned bounds (no fuel hypotheses): whenever a lexer
helper returns a value, that value respects positions and source bounds. -/

theorem skipWs_ok (src : Src) : ∀ fuel p q, skipWs src fuel p = some q →
    p ≤ q ∧ (p ≤ src.length → q ≤ src.length) ∧
    (∀ c, charAt src q = some c → isLexWs c = false) ∧
    (∀ i, p ≤ i → i < q → ∃ c, charAt src i = some c ∧ isLexWs c = true) := by
  intro fuel
  induction fuel with
  | zero => intro p q h; exact absurd h (by simp [skipWs])
  | succ m ih =>
    intro p q h
    simp only [skipWs] at h
    cases hc : charAt src p with
    | none =>
      rw [hc] at h
      cases h
      refine ⟨le_refl _, fun h2 => h2, ?_, fun i h1 h2 => by omega⟩
      intro c hcq
      rw [hc] at hcq
      cases hcq
    | some c =>
      rw [hc] at h
      dsimp only at h
      have hp := charAt_some_lt hc
      by_cases hw : isLexWs c
      · rw [if_pos hw] at h
        obtain ⟨h1, h2, h3, h4⟩ := ih (p + 1) q h
        refine ⟨by omega, fun _ => h2 (by omega), h3, ?_⟩
        intro i hi1 hi2
        rcases Nat.eq_or_lt_of_le hi1 with he | hlt
        · subst he
          exact ⟨c, hc, hw⟩
        · exact h4 i (by omega) hi2
      · rw [if_neg hw] at h
        cases h
        refine ⟨le_refl _, fun h2 => h2, ?_, fun i h1 h2 => by omega⟩
        intro c2 hcq
        rw [hc] at hcq
        cases hcq
        simpa using hw

theorem uniBraceLoop_ok (src : Src) : ∀ fuel p acc l q,
    uniBraceLoop src fuel p acc = some (.ok (l, q)) →
    p < q ∧ q ≤ src.length := by
  intro fuel
  induction fuel with
  | zero => intro p acc l q h; exact absurd h (by simp [uniBraceLoop])
  | succ m ih =>
    intro p acc l q h
    simp only [uniBraceLoop] at h
    cases hc : charAt src p with
    | none => rw [hc] at h; exact absurd h (by simp)
    | some c =>
      rw [hc] at h
      dsimp only at h
      have hp := charAt_some_lt hc
      by_cases hbr : c = '}'
      · rw [if_pos hbr] at h
        cases h
        omega
      · rw [if_neg hbr] at h
        by_cases hx : isHexCh c
        · rw [if_pos hx] at h
          have := ih _ _ _ _ h
          omega
        · rw [if_neg hx] at h
          exact absurd h (by simp)

theorem readUnicodeEscape_ok (src : Src) (fuel p : Nat) :
    ∀ c q, readUnicodeEscape src fuel p = some (.ok (c, q)) →
      p + 1 < q ∧ q ≤ src.length := by
  intro c q h
  simp only [readUnicodeEscape] at h
  by_cases hbr : charAt src (p + 1) = some '{'
  · rw [if_pos hbr] at h
    cases hub : uniBraceLoop src fuel (p + 2) [] with
    | none => rw [hub] at h; exact absurd h (by simp)
    | some r =>
      rw [hub] at h
      cases r with
      | error e => exact absurd h (by simp)
      | ok lq =>
        obtain ⟨hex, q2⟩ := lq
        have hb := uniBraceLoop_ok src fuel _ _ _ _ hub
        dsimp only at h
        by_cases he : hex.isEmpty
        · rw [if_pos he] at h; exact absurd h (by simp)
        · rw [if_neg he] at h
          by_cases hn : hexToNat hex ≤ 0x10FFFF
          · rw [if_pos hn] at h
            cases h
            omega
          · rw [if_neg hn] at h; exact absurd h (by simp)
  · rw [if_neg hbr] at h
    cases hr : readHexDigits src (p + 1) 4 with
    | error e => rw [hr] at h; exact absurd h (by simp)
    | ok lq =>
      rw [hr] at h
      obtain ⟨hex, q2⟩ := lq
      cases h
      have hb := readHexDigits_ok _ _ _ _ hr
      have := hb.2 (by omega)
      omega

theorem scanLoop_ok (src : Src) (quote : Char) : ∀ fuel p acc v q,
    scanLoop src quote fuel p acc = some (.ok (v, q)) →
    p < q ∧ q ≤ src.length := by
  intro fuel
  induction fuel with
  | zero => intro p acc v q h; exact absurd h (by simp [scanLoop])
  | succ m ih =>
    intro p acc v q h
    simp only [scanLoop] at h
    cases hc : charAt src p with
    | none => rw [hc] at h; exact absurd h (by simp)
    | some ch =>
      rw [hc] at h
      dsimp only at h
      have hp := charAt_some_lt hc
      by_cases hq0 : ch = quote
      · rw [if_pos hq0] at h
        cases h
        omega
      · rw [if_neg hq0] at h
        by_cases hbs : ch = '\\'
        · rw [if_pos hbs] at h
          cases hc2 : charAt src (p + 1) with
          | none => rw [hc2] at h; exact absurd h (by simp)
          | some esc =>
            rw [hc2] at h
            dsimp only at h
            have hp2 := charAt_some_lt hc2
            by_cases h1 : esc = 'n'
            · rw [if_pos h1] at h; have := ih _ _ _ _ h; omega
            · rw [if_neg h1] at h
              by_cases h2 : esc = 'r'
              · rw [if_pos h2] at h; have := ih _ _ _ _ h; omega
              · rw [if_neg h2] at h
                by_cases h3 : esc = 't'
                · rw [if_pos h3] at h; have := ih _ _ _ _ h; omega
                · rw [if_neg h3] at h
                  by_cases h4 : esc = '\\'
                  · rw [if_pos h4] at h; have := ih _ _ _ _ h; omega
                  · rw [if_neg h4] at h
                    by_cases h5 : esc = '"'
                    · rw [if_pos h5] at h; have := ih _ _ _ _ h; omega
                    · rw [if_neg h5] at h
                      by_cases h6 : esc = '\''
                      · rw [if_pos h6] at h; have := ih _ _ _ _ h; omega
                      · rw [if_neg h6] at h
                        by_cases h7 : esc = 'u'
                        · rw [if_pos h7] at h
                          cases hrue : readUnicodeEscape src m (p + 1) with
                          | none => rw [hrue] at h; exact absurd h (by simp)
                          | some r =>
                            rw [hrue] at h
                            cases r with
                            | error e => exact absurd h (by simp)
                            | ok cq =>
                              obtain ⟨c2, q2⟩ := cq
                              have hb := readUnicodeEscape_ok src m (p + 1) _ _ hrue
                              have := ih _ _ _ _ h
                              omega
                        · rw [if_neg h7] at h
                          by_cases h8 : esc = 'x'
                          · rw [if_pos h8] at h
                            cases hrx : readHexEscape src (p + 1) with
                            | error e => rw [hrx] at h; exact absurd h (by simp)
                            | ok cq =>
                              rw [hrx] at h
                              obtain ⟨c2, q2⟩ := cq
                              simp only [readHexEscape] at hrx
                              cases hrh : readHexDigits src (p + 1 + 1) 2 with
                              | error e => rw [hrh] at hrx; exact absurd hrx (by simp)
                              | ok lq =>
                                rw [hrh] at hrx
                                obtain ⟨hex, q3⟩ := lq
                                cases hrx
                                have hb := readHexDigits_ok _ _ _ _ hrh
                                have h9 := hb.2 (by omega)
                                have := ih _ _ _ _ h
                                omega
                          · rw [if_neg h8] at h
                            have := ih _ _ _ _ h
                            omega
        · rw [if_neg hbs] at h
          have := ih _ _ _ _ h
          omega

theorem scanString_ok (src : Src) (fuel p : Nat) :
    ∀ v q, scanString src fuel p = some (.ok (v, q)) →
      p < q ∧ q ≤ src.length := by
  intro v q h
  simp only [scanString] at h
  cases hc : charAt src p with
  | none => rw [hc] at h; exact absurd h (by simp)
  | some c =>
    rw [hc] at h
    dsimp only at h
    by_cases hq0 : c = '"' || c = '\''
    · rw [if_pos hq0] at h
      have := scanLoop_ok src c fuel (p + 1) [] v q h
      omega
    · rw [if_neg hq0] at h
      exact absurd h (by simp)

theorem tokenFn_ok_some (src : Src) (fuel p : Nat) :
    ∀ t q, tokenFn src fuel p = some (.ok (some t, q)) →
      t.start = p ∧ t.stop = q ∧ p < q ∧ q ≤ src.length := by
  intro t q h
  unfold tokenFn at h
  cases hc : charAt src p with
  | none => rw [hc] at h; exact absurd h (by simp)
  | some c =>
    rw [hc] at h
    dsimp only at h
    have hp := charAt_some_lt hc
    by_cases h1 : c = '='
    · rw [if_pos h1] at h
      by_cases h1a : charAt src (p + 1) = some '='
      · rw [if_pos h1a] at h
        have hp2 := charAt_some_lt h1a
        cases h
        exact ⟨rfl, rfl, by omega, by omega⟩
      · rw [if_neg h1a] at h
        by_cases h1b : charAt src (p + 1) = some '>'
        · rw [if_pos h1b] at h
          have hp2 := charAt_some_lt h1b
          cases h
          exact ⟨rfl, rfl, by omega, by omega⟩
        · rw [if_neg h1b] at h
          cases h
          exact ⟨rfl, rfl, by omega, by omega⟩
    · rw [if_neg h1] at h
      by_cases h2 : c = '!'
      · rw [if_pos h2] at h
        by_cases h2a : charAt src (p + 1) = some '='
        · rw [if_pos h2a] at h
          have hp2 := charAt_some_lt h2a
          cases h
          exact ⟨rfl, rfl, by omega, by omega⟩
        · rw [if_neg h2a] at h
          cases h
          exact ⟨rfl, rfl, by omega, by omega⟩
      · rw [if_neg h2] at h
        by_cases h3 : c = '&'
        · rw [if_pos h3] at h
          by_cases h3a : charAt src (p + 1) = some '&'
          · rw [if_pos h3a] at h
            have hp2 := charAt_some_lt h3a
            cases h
            exact ⟨rfl, rfl, by omega, by omega⟩
          · rw [if_neg h3a] at h
            exact absurd h (by simp)
        · rw [if_neg h3] at h
          by_cases h4 : c = '|'
          · rw [if_pos h4] at h
            by_cases h4a : charAt src (p + 1) = some '|'
            · rw [if_pos h4a] at h
              have hp2 := charAt_some_lt h4a
              cases h
              exact ⟨rfl, rfl, by omega, by omega⟩
            · rw [if_neg h4a] at h
              exact absurd h (by simp)
          · rw [if_neg h4] at h
            by_cases h5 : c = '\'' || c = '"'
            · rw [if_pos h5] at h
              cases hss : scanString src fuel p with
              | none => rw [hss] at h; exact absurd h (by simp)
              | some r =>
                rw [hss] at h
                cases r with
                | error e => exact absurd h (by simp)
                | ok vq =>
                  obtain ⟨v, q2⟩ := vq
                  have hb := scanString_ok src fuel p _ _ hss
                  cases h
                  exact ⟨rfl, rfl, by omega, by omega⟩
            · rw [if_neg h5] at h
              cases hst : simpleTok c with
              | some k =>
                rw [hst] at h
                cases h
                exact ⟨rfl, rfl, by omega, by omega⟩
              | none => rw [hst] at h; exact absurd h (by simp)

theorem tokenFn_ok_none (src : Src) (fuel p : Nat) :
    ∀ q, tokenFn src fuel p = some (.ok (none, q)) →
      q = p ∨ (q = p + 1 ∧ p < src.length) := by
  intro q h
  unfold tokenFn at h
  cases hc : charAt src p with
  | none => rw [hc] at h; cases h; exact Or.inl rfl
  | some c =>
    rw [hc] at h
    dsimp only at h
    have hp := charAt_some_lt hc
    by_cases h1 : c = '='
    · rw [if_pos h1] at h
      by_cases h1a : charAt src (p + 1) = some '='
      · rw [if_pos h1a] at h; exact absurd h (by simp)
      · rw [if_neg h1a] at h
        by_cases h1b : charAt src (p + 1) = some '>'
        · rw [if_pos h1b] at h; exact absurd h (by simp)
        · rw [if_neg h1b] at h; exact absurd h (by simp)
    · rw [if_neg h1] at h
      by_cases h2 : c = '!'
      · rw [if_pos h2] at h
        by_cases h2a : charAt src (p + 1) = some '='
        · rw [if_pos h2a] at h; exact absurd h (by simp)
        · rw [if_neg h2a] at h; exact absurd h (by simp)
      · rw [if_neg h2] at h
        by_cases h3 : c = '&'
        · rw [if_pos h3] at h
          by_cases h3a : charAt src (p + 1) = some '&'
          · rw [if_pos h3a] at h; exact absurd h (by simp)
          · rw [if_neg h3a] at h
            cases h
            exact Or.inr ⟨rfl, hp⟩
        · rw [if_neg h3] at h
          by_cases h4 : c = '|'
          · rw [if_pos h4] at h
            by_cases h4a : charAt src (p + 1) = some '|'
            · rw [if_pos h4a] at h; exact absurd h (by simp)
            · rw [if_neg h4a] at h
              cases h
              exact Or.inr ⟨rfl, hp⟩
          · rw [if_neg h4] at h
            by_cases h5 : c = '\'' || c = '"'
            · rw [if_pos h5] at h
              cases hss : scanString src fuel p with
              | none => rw [hss] at h; exact absurd h (by simp)
              | some r =>
                rw [hss] at h
                cases r with
                | error e => exact absurd h (by simp)
                | ok vq =>
                  obtain ⟨v, q2⟩ := vq
                  exact absurd h (by simp)
            · rw [if_neg h5] at h
              cases hst : simpleTok c with
              | some k => rw [hst] at h; exact absurd h (by simp)
              | none =>
                rw [hst] at h
                cases h
                exact Or.inl rfl

/-! ## Span coverage -/

/-- The chain property behind span coverage, from position `p` on: each
token starts at or after the previous stop, with only whitespace in the
gap before it and an in-bounds span, and only whitespace follows the last
token. -/
def coversFrom (src : Src) : Nat → List Token → Prop
  | p, [] => ∀ i, p ≤ i → i < src.length → ∃ c, charAt src i = some c ∧ isLexWs c = true
  | p, t :: ts =>
    p ≤ t.start ∧ t.start ≤ t.stop ∧ t.stop ≤ src.length ∧
    (∀ i, p ≤ i → i < t.start → ∃ c, charAt src i = some c ∧ isLexWs c = true) ∧
    coversFrom src t.stop ts

/-- The claim's concatenation, from `p` on: for each token the source
between the previous stop and its start (the skipped whitespace) followed
by the token's slice, and after the last token the trailing whitespace. -/
def reconstructFrom (src : Src) : Nat → List Token → List Char
  | p, [] => sliceChars src p src.length
  | p, t :: ts =>
    sliceChars src p t.start ++ sliceChars src t.start t.stop ++
      reconstructFrom src t.stop ts

theorem slice_append {src : Src} {a b c : Nat} (h1 : a ≤ b) (h2 : b ≤ c) :
    sliceChars src a b ++ sliceChars src b c = sliceChars src a c := by
  simp only [sliceChars]
  rw [show c - a = (b - a) + (c - b) by omega, List.take_add, List.drop_drop,
    show a + (b - a) = b by omega]

theorem coversFrom_reconstruct (src : Src) : ∀ toks p, coversFrom src p toks →
    reconstructFrom src p toks = sliceChars src p src.length := by
  intro toks
  induction toks with
  | nil => intro p h; rfl
  | cons t ts ih =>
    intro p h
    obtain ⟨h1, h2, h3, h4, h5⟩ := h
    simp only [reconstructFrom]
    rw [slice_append h1 h2, ih t.stop h5, slice_append (by omega : p ≤ t.stop) h3]

theorem consToks_false {pre : List Token} {rej : Bool}
    {r : Option (Except ScanErr (List Token × Bool))} {toks : List Token}
    (h : consToks pre rej r = some (.ok (toks, false))) :
    rej = false ∧ ∃ ts, r = some (.ok (ts, false)) ∧ toks = pre ++ ts := by
  cases r with
  | none => exact absurd h (by simp [consToks])
  | some e =>
    cases e with
    | error e2 => exact absurd h (by simp [consToks])
    | ok tb =>
      obtain ⟨ts, b⟩ := tb
      simp only [consToks, Option.some.injEq, Except.ok.injEq, Prod.mk.injEq] at h
      obtain ⟨h1, h2⟩ := h
      cases rej with
      | true => exact absurd h2 (by simp)
      | false =>
        cases b with
        | true => exact absurd h2 (by simp)
        | false => exact ⟨rfl, ts, rfl, h1.symm⟩

theorem charAt_none_ge {src : Src} {p : Nat} (h : charAt src p = none) :
    src.length ≤ p := by
  rw [charAt] at h
  exact List.get?_eq_none.mp h

/-- The rejection-free run is gapless: every yielded token follows the
previous one after whitespace only, spans stay inside the source, and only
whitespace trails the last token. -/
theorem lexAux_covers (src : Src) : ∀ fuel,
    (∀ p toks, runAux src fuel p = some (.ok (toks, false)) → p ≤ src.length →
        coversFrom src p toks) ∧
    (∀ start p isNum toks,
        identLoop src fuel start p isNum = some (.ok (toks, false)) →
        p ≤ src.length →
        ∃ e rest, toks = processIdent src start e :: rest ∧ p ≤ e ∧
          e ≤ src.length ∧ coversFrom src e rest) := by
  intro fuel
  induction fuel with
  | zero =>
    constructor
    · intro p toks h; exact absurd h (by simp [runAux])
    · intro start p isNum toks h; exact absurd h (by simp [identLoop])
  | succ m ih =>
    obtain ⟨ihRun, ihIdent⟩ := ih
    constructor
    · intro p0 toks h hp0
      simp only [runAux] at h
      cases hskip : skipWs src (m + 1) p0 with
      | none => rw [hskip] at h; exact absurd h (by simp)
      | some p =>
        rw [hskip] at h
        try dsimp only at h
        obtain ⟨hp0p, hbd, hstop, hws⟩ := skipWs_ok src (m + 1) p0 p hskip
        have hpL := hbd hp0
        cases htok : tokenFn src (m + 1) p with
        | none => rw [htok] at h; exact absurd h (by simp)
        | some r =>
          rw [htok] at h
          cases r with
          | error e => exact absurd h (by simp)
          | ok otq =>
            obtain ⟨ot, q⟩ := otq
            try dsimp only at h
            cases ot with
            | some t =>
              obtain ⟨-, ts, hr, htoks⟩ := consToks_false h
              simp only [List.cons_append, List.nil_append] at htoks
              subst htoks
              obtain ⟨hbs, hbe, hblt, hbL⟩ := tokenFn_ok_some src (m + 1) p t q htok
              have hcov := ihRun q ts hr (by omega)
              refine ⟨by omega, by omega, by omega, ?_, ?_⟩
              · intro i hi1 hi2
                exact hws i hi1 (by omega)
              · rw [hbe]
                exact hcov
            | none =>
              have hb := tokenFn_ok_none src (m + 1) p q htok
              replace h : (if q < src.length then
                    consToks [] (decide (q ≠ p)) (identLoop src m q q true)
                  else some (.ok ([], decide (q ≠ p)))) = some (.ok (toks, false)) := h
              by_cases hq : q < src.length
              · rw [if_pos hq] at h
                obtain ⟨hrej, ts, hr, htoks⟩ := consToks_false h
                simp only [List.nil_append] at htoks
                subst htoks
                have hqp : q = p := by simpa using hrej
                subst hqp
                obtain ⟨e, rest, hlist, hpe, heL, hcov⟩ := ihIdent q q true _ hr (by omega)
                rw [hlist]
                simp only [coversFrom, processIdent_start, processIdent_stop]
                exact ⟨by omega, hpe, heL, fun i h1 h2 => hws i h1 (by omega), hcov⟩
              · rw [if_neg hq] at h
                simp only [Option.some.injEq, Except.ok.injEq, Prod.mk.injEq] at h
                obtain ⟨h1, h2⟩ := h
                have hqp : q = p := by simpa using h2
                subst h1
                intro i hi1 hiL
                exact hws i hi1 (by omega)
    · intro start p isNum toks h hpL
      simp only [identLoop] at h
      cases hc : charAt src p with
      | none =>
        rw [hc] at h
        obtain ⟨-, ts, hr, htoks⟩ := consToks_false h
        simp only [List.cons_append, List.nil_append] at htoks
        subst htoks
        exact ⟨p, ts, rfl, le_refl _, hpL, ihRun p ts hr hpL⟩
      | some c =>
        rw [hc] at h
        try dsimp only at h
        have hp := charAt_some_lt hc
        by_cases hw : isLexWs c
        · rw [if_pos hw] at h
          obtain ⟨-, ts, hr, htoks⟩ := consToks_false h
          simp only [List.cons_append, List.nil_append] at htoks
          subst htoks
          exact ⟨p, ts, rfl, le_refl _, hpL, ihRun p ts hr hpL⟩
        · rw [if_neg hw] at h
          by_cases hdot : c = '.'
          · rw [if_pos hdot] at h
            by_cases hcont : (isNum && (charAt src (p + 1)).any isDigitCh) = true
            · rw [if_pos hcont] at h
              rw [Bool.and_eq_true] at hcont
              have hc2e : ∃ c2, charAt src (p + 1) = some c2 := by
                cases hc2 : charAt src (p + 1) with
                | none =>
                  rw [hc2] at hcont
                  exact absurd hcont.2 (by simp [Option.any])
                | some c2 => exact ⟨c2, rfl⟩
              obtain ⟨c2, hc2⟩ := hc2e
              have hp2 := charAt_some_lt hc2
              obtain ⟨e, rest, hl, hpe, heL, hcov⟩ :=
                ihIdent start (p + 1) isNum toks h (by omega)
              exact ⟨e, rest, hl, by omega, heL, hcov⟩
            · rw [if_neg hcont] at h
              obtain ⟨-, ts, hr, htoks⟩ := consToks_false h
              simp only [List.cons_append, List.nil_append] at htoks
              subst htoks
              refine ⟨p, mkTok .dot p (p + 1) :: ts, rfl, le_refl _, hpL, ?_⟩
              simp only [coversFrom, mkTok]
              exact ⟨le_refl _, by omega, by omega,
                fun i h1 h2 => absurd h2 (by omega),
                ihRun (p + 1) ts hr (by omega)⟩
          · rw [if_neg hdot] at h
            try dsimp only at h
            cases htok : tokenFn src (m + 1) p with
            | none => rw [htok] at h; exact absurd h (by simp)
            | some r =>
              rw [htok] at h
              cases r with
              | error e2 => exact absurd h (by simp)
              | ok otq =>
                obtain ⟨ot, q⟩ := otq
                try dsimp only at h
                cases ot with
                | some t =>
                  obtain ⟨-, ts, hr, htoks⟩ := consToks_false h
                  simp only [List.cons_append, List.nil_append] at htoks
                  subst htoks
                  obtain ⟨hbs, hbe, hblt, hbL⟩ := tokenFn_ok_some src (m + 1) p t q htok
                  refine ⟨p, t :: ts, rfl, le_refl _, hpL, ?_⟩
                  simp only [coversFrom]
                  exact ⟨by omega, by omega, by omega,
                    fun i h1 h2 => absurd h2 (by omega),
                    by rw [hbe]; exact ihRun q ts hr (by omega)⟩
                | none =>
                  obtain ⟨hrej, ts, hr, htoks⟩ := consToks_false h
                  simp only [List.nil_append] at htoks
                  subst htoks
                  have hqp : q = p := by simpa using hrej
                  subst hqp
                  obtain ⟨e, rest, hl, hpe, heL, hcov⟩ :=
                    ihIdent start (q + 1) _ _ hr (by omega)
                  exact ⟨e, rest, hl, by omega, heL, hcov⟩

/-- Amended span coverage over a whole source: a lex that completes
without scan failure and never rejects a bare `&`/`|` is gapless, and the
claim's concatenation reconstructs the source exactly. -/
theorem lexRun_coverage (s : String) (toks : List Token)
    (h : lexRun s = some (.ok (toks, false))) :
    coversFrom s.data 0 toks ∧ reconstructFrom s.data 0 toks = s.data := by
  have hcov := (lexAux_covers s.data (4 * s.data.length + 8)).1 0 toks h (by omega)
  refine ⟨hcov, ?_⟩
  rw [coversFrom_reconstruct s.data toks 0 hcov]
  simp [sliceChars]

/-! ## Parser: state-effect lemmas for the primitive operations -/

theorem andThen_ok {α β : Type} {x : PRes α} {f : α → PState → PRes β} {b : β}
    {st' : PState} (h : x.andThen f = .ok b st') :
    ∃ v st1, x = .ok v st1 ∧ f v st1 = .ok b st' := by
  cases x with
  | ok v st => exact ⟨v, st, rfl, h⟩
  | fault m => exact absurd h (by simp [PRes.andThen])
  | noFuel => exact absurd h (by simp [PRes.andThen])

theorem andThen_ne_noFuel {α β : Type} {x : PRes α} {f : α → PState → PRes β}
    (h1 : x ≠ .noFuel) (h2 : ∀ v st1, x = .ok v st1 → f v st1 ≠ .noFuel) :
    x.andThen f ≠ .noFuel := by
  cases x with
  | ok v st => exact h2 v st rfl
  | fault m => simp [PRes.andThen]
  | noFuel => exact absurd rfl h1

theorem recoverLoop_len (rset : List TokenKind) :
    ∀ e toks, ((recoverLoop rset e toks).2).length ≤ toks.length := by
  intro e toks
  induction toks generalizing e with
  | nil => simp [recoverLoop]
  | cons t rest ih =>
    simp only [recoverLoop]
    by_cases hk : rset.contains t.kind
    · rw [if_pos hk]
    · rw [if_neg hk]
      have := ih t.stop
      simp only [List.length_cons]
      omega

/-- `recover` discards tokens and flips the parser into Recovering; it
touches nothing else. -/
theorem recover_spec (st : PState) :
    ((recover st).2).toks.length ≤ st.toks.length ∧
    ((recover st).2).inRecovery = true ∧
    ((recover st).2).recoverySet = st.recoverySet ∧
    ((recover st).2).src = st.src ∧
    ((recover st).2).endOfSrc = st.endOfSrc := by
  exact ⟨recoverLoop_len _ _ _, rfl, rfl, rfl, rfl⟩

theorem errorP_spec (sp : SpanI) (msg : String) (st : PState) :
    ((errorP sp msg st).2).toks.length ≤ st.toks.length ∧
    ((errorP sp msg st).2).inRecovery = true ∧
    ((errorP sp msg st).2).recoverySet = st.recoverySet ∧
    ((errorP sp msg st).2).src = st.src ∧
    ((errorP sp msg st).2).endOfSrc = st.endOfSrc := by
  exact recover_spec _

theorem nextSt_toks (st : PState) : (nextSt st).toks.length ≤ st.toks.length := by
  simp only [nextSt, List.length_tail]
  omega

theorem consume_spec (k : TokenKind) (st : PState) :
    ((consume k st).2).toks.length ≤ st.toks.length ∧
    ((consume k st).2).inRecovery = st.inRecovery ∧
    ((consume k st).2).recoverySet = st.recoverySet ∧
    ((consume k st).2).src = st.src ∧
    ((consume k st).2).endOfSrc = st.endOfSrc ∧
    ((consume k st).1 = true → (consume k st).2.toks.length + 1 = st.toks.length) := by
  unfold consume
  cases hp : peek st with
  | none => exact ⟨le_refl _, rfl, rfl, rfl, rfl, by simp⟩
  | some t =>
    dsimp only
    by_cases hk : t.kind = k
    · rw [if_pos hk]
      have : st.toks ≠ [] := by
        intro hnil
        rw [peek, hnil] at hp
        exact Option.noConfusion hp
      have hlen : 0 < st.toks.length := List.length_pos.mpr this
      refine ⟨?_, rfl, rfl, rfl, rfl, fun _ => ?_⟩ <;>
        simp only [nextSt, List.length_tail] <;> omega
    · rw [if_neg hk]
      exact ⟨le_refl _, rfl, rfl, rfl, rfl, by simp⟩

theorem expect_spec (k : TokenKind) (msg : String) (st : PState) :
    ((expect k msg st).2).toks.length ≤ st.toks.length ∧
    ((expect k msg st).2).recoverySet = st.recoverySet ∧
    ((expect k msg st).2).src = st.src ∧
    ((expect k msg st).2).endOfSrc = st.endOfSrc ∧
    (∀ t, (expect k msg st).1 = .inl t →
      (expect k msg st).2.toks.length + 1 = st.toks.length ∧
      (expect k msg st).2.inRecovery = st.inRecovery) ∧
    (∀ e, (expect k msg st).1 = .inr e → (expect k msg st).2.inRecovery = true) := by
  unfold expect
  cases hp : peek st with
  | none =>
    try dsimp only
    have he := errorP_spec (curSpan st) ("expected " ++ tkName k ++ " " ++ msg ++ ", got <eof>") st
    exact ⟨he.1, he.2.2.1, he.2.2.2.1, he.2.2.2.2, fun t ht => by simp at ht,
      fun e hee => he.2.1⟩
  | some t =>
    try dsimp only
    by_cases hk : t.kind = k
    · rw [if_pos hk]
      have : st.toks ≠ [] := by
        intro hnil
        rw [peek, hnil] at hp
        exact Option.noConfusion hp
      have hlen : 0 < st.toks.length := List.length_pos.mpr this
      refine ⟨nextSt_toks st, rfl, rfl, rfl, fun t2 ht => ?_, fun e hee => by simp at hee⟩
      refine ⟨by simp only [nextSt, List.length_tail]; omega, rfl⟩
    · rw [if_neg hk]
      have he := errorP_spec (curSpan st)
        ("expected " ++ tkName k ++ " " ++ msg ++ ", got " ++ tkName t.kind) st
      exact ⟨he.1, he.2.2.1, he.2.2.2.1, he.2.2.2.2, fun t2 ht => by simp at ht,
        fun e hee => he.2.1⟩

theorem expectIdentifier_spec (st : PState) :
    ((expectIdentifier st).2).toks.length ≤ st.toks.length ∧
    ((expectIdentifier st).2).recoverySet = st.recoverySet ∧
    ((expectIdentifier st).2).src = st.src ∧
    ((expectIdentifier st).2).endOfSrc = st.endOfSrc ∧
    (∀ i, (expectIdentifier st).1 = .inl i →
      (expectIdentifier st).2.toks.length + 1 = st.toks.length ∧
      (expectIdentifier st).2.inRecovery = st.inRecovery) ∧
    (∀ e, (expectIdentifier st).1 = .inr e → (expectIdentifier st).2.inRecovery = true) := by
  unfold expectIdentifier
  cases hp : peek st with
  | none =>
    try dsimp only
    have he := errorP_spec (curSpan st) "expected identifier, got <eof>" st
    exact ⟨he.1, he.2.2.1, he.2.2.2.1, he.2.2.2.2, fun t ht => by simp at ht,
      fun e hee => he.2.1⟩
  | some t =>
    try dsimp only
    by_cases hk : t.kind = TokenKind.identifier
    · rw [if_pos hk]
      have : st.toks ≠ [] := by
        intro hnil
        rw [peek, hnil] at hp
        exact Option.noConfusion hp
      have hlen : 0 < st.toks.length := List.length_pos.mpr this
      refine ⟨nextSt_toks st, rfl, rfl, rfl, fun i hi => ?_, fun e hee => by simp at hee⟩
      refine ⟨by simp only [nextSt, List.length_tail]; omega, rfl⟩
    · rw [if_neg hk]
      have he := errorP_spec (curSpan st) ("expected identifier, got " ++ tkName t.kind) st
      exact ⟨he.1, he.2.2.1, he.2.2.2.1, he.2.2.2.2, fun i hi => by simp at hi,
        fun e hee => he.2.1⟩

theorem enterRecovery_toks (S : List TokenKind) (st : PState) :
    ((enterRecovery S st).2).toks = st.toks ∧
    ((enterRecovery S st).2).inRecovery = st.inRecovery ∧
    ((enterRecovery S st).2).src = st.src ∧
    ((enterRecovery S st).2).endOfSrc = st.endOfSrc := ⟨rfl, rfl, rfl, rfl⟩

theorem exitRecovery_spec {b : Bool} {tr S : List TokenKind} {st st' : PState}
    (h : exitRecovery b tr S st = some st') :
    st'.toks = st.toks ∧ (st'.inRecovery = true → st.inRecovery = true) ∧
    (st.inRecovery = false → st'.inRecovery = false) ∧
    st'.src = st.src ∧ st'.endOfSrc = st.endOfSrc := by
  unfold exitRecovery at h
  try dsimp only at h
  by_cases hr : st.inRecovery
  · rw [if_pos hr] at h
    cases b with
    | false => exact absurd h (by simp)
    | true =>
      try dsimp only at h
      cases hp : peek { st with recoverySet := st.recoverySet.filter (fun k => !tr.contains k) } with
      | none =>
        rw [hp] at h
        cases h
        exact ⟨rfl, fun _ => hr, fun hf => by rw [hf] at hr; exact absurd hr (by simp), rfl, rfl⟩
      | some t =>
        rw [hp] at h
        try dsimp only at h
        by_cases hs : S.contains t.kind
        · rw [if_pos hs] at h
          cases h
          exact ⟨rfl, fun hx => by simp at hx, fun _ => rfl, rfl, rfl⟩
        · rw [if_neg hs] at h
          cases h
          exact ⟨rfl, fun _ => hr, fun hf => by rw [hf] at hr; exact absurd hr (by simp), rfl, rfl⟩
  · rw [if_neg hr] at h
    cases h
    simp only [Bool.not_eq_true] at hr
    exact ⟨rfl, fun hx => by rw [hr] at hx; exact absurd hx (by simp), fun _ => hr, rfl, rfl⟩

/-- Removing exactly the kinds a recovery scope added restores the
recovery set it entered with. -/
theorem rset_filter_roundtrip (S R : List TokenKind) :
    (R ++ S.filter (fun k => !R.contains k)).filter
      (fun k => !(S.filter (fun k => !R.contains k)).contains k) = R := by
  rw [List.filter_append]
  have h1 : R.filter
      (fun k => !(S.filter (fun k => !R.contains k)).contains k) = R := by
    rw [List.filter_eq_self]
    intro a ha
    simp only [Bool.not_eq_true', ← Bool.not_eq_true, List.elem_iff, List.mem_filter]
    intro hmem
    exact absurd ha (by simpa using hmem.2)
  have h2 : (S.filter (fun k => !R.contains k)).filter
      (fun k => !(S.filter (fun k => !R.contains k)).contains k) = [] := by
    rw [List.filter_eq_nil_iff]
    intro a ha
    simp only [Bool.not_eq_true', ← Bool.not_eq_true, not_not, List.elem_iff]
    exact ha
  rw [h1, h2, List.append_nil]

/-- A balanced `recovery(...)` scope leaves the recovery set as it found
it: if the scope body preserved the set, `exitRecovery` restores the
pre-`enterRecovery` set. -/
theorem exitRecovery_rset {b : Bool} {S : List TokenKind} {stY stX st3 : PState}
    (h : exitRecovery b (enterRecovery S stY).1 S stX = some st3)
    (hr : stX.recoverySet = ((enterRecovery S stY).2).recoverySet) :
    st3.recoverySet = stY.recoverySet := by
  have hq : stX.recoverySet.filter
      (fun k => !((enterRecovery S stY).1).contains k) = stY.recoverySet := by
    rw [hr]
    exact rset_filter_roundtrip S stY.recoverySet
  unfold exitRecovery at h
  try dsimp only at h
  by_cases hrec : stX.inRecovery
  · rw [if_pos hrec] at h
    cases b with
    | false => exact absurd h (by simp)
    | true =>
      try dsimp only at h
      cases hp : peek { stX with recoverySet := stX.recoverySet.filter (fun k => !((enterRecovery S stY).1).contains k) } with
      | none =>
        rw [hp] at h
        cases h
        exact hq
      | some t =>
        rw [hp] at h
        try dsimp only at h
        by_cases hs : S.contains t.kind
        · rw [if_pos hs] at h
          cases h
          exact hq
        · rw [if_neg hs] at h
          cases h
          exact hq
  · rw [if_neg hrec] at h
    cases h
    exact hq

/-- The recovery discard loop under an empty recovery set reaches
end-of-input. -/
theorem recoverLoop_nil (e : Nat) (ts : List Token) :
    (recoverLoop [] e ts).2 = [] := by
  induction ts generalizing e with
  | nil => rfl
  | cons t rest ih => exact ih t.stop

/-- `error()` under an empty recovery set discards every remaining
token. -/
theorem errorP_nil_toks (sp : SpanI) (msg : String) (st : PState)
    (h : st.recoverySet = []) : ((errorP sp msg st).2).toks = [] := by
  simp only [errorP, recover]
  try dsimp only
  rw [h]
  exact recoverLoop_nil _ _

/-- A failing `expect` under an empty recovery set leaves no tokens. -/
theorem expect_fail_nil_toks (k : TokenKind) (msg : String) (st : PState)
    (h : st.recoverySet = []) (e : AstErr) (hfail : (expect k msg st).1 = .inr e) :
    ((expect k msg st).2).toks = [] := by
  unfold expect at hfail ⊢
  cases hp : peek st with
  | none =>
    try dsimp only at hfail ⊢
    exact errorP_nil_toks _ _ _ h
  | some t =>
    try rw [hp] at hfail
    try dsimp only at hfail ⊢
    by_cases hk : t.kind = k
    · rw [if_pos hk] at hfail
      simp at hfail
    · rw [if_neg hk]
      exact errorP_nil_toks _ _ _ h

/-! ## Parser: token-stream monotonicity

No production ever grows the remaining token stream. -/

def MonoAll (fuel : Nat) : Prop :=
  (∀ st a st', parseBinding fuel st = .ok a st' → st'.toks.length ≤ st.toks.length) ∧
  (∀ b st a st', parseLocal fuel b st = .ok a st' → st'.toks.length ≤ st.toks.length) ∧
  (∀ st a st', parseReturn fuel st = .ok a st' → st'.toks.length ≤ st.toks.length) ∧
  (∀ acc st a st', blockLoop fuel acc st = .ok a st' → st'.toks.length ≤ st.toks.length) ∧
  (∀ st a st', parseBlock fuel st = .ok a st' → st'.toks.length ≤ st.toks.length) ∧
  (∀ acc st a st', paramLoop fuel acc st = .ok a st' → st'.toks.length ≤ st.toks.length) ∧
  (∀ st a st', parseFunction fuel st = .ok a st' → st'.toks.length ≤ st.toks.length) ∧
  (∀ acc st a st', lifetimeLoop fuel acc st = .ok a st' → st'.toks.length ≤ st.toks.length) ∧
  (∀ st a st', parseTypeExpr fuel st = .ok a st' → st'.toks.length ≤ st.toks.length) ∧
  (∀ mp st a st', parseExpr fuel mp st = .ok a st' → st'.toks.length ≤ st.toks.length) ∧
  (∀ mp b l st a st', climbLoop fuel mp b l st = .ok a st' → st'.toks.length ≤ st.toks.length) ∧
  (∀ st a st', parsePrimaryExpr fuel st = .ok a st' → st'.toks.length ≤ st.toks.length) ∧
  (∀ acc st a st', argsLoop fuel acc st = .ok a st' → st'.toks.length ≤ st.toks.length) ∧
  (∀ m st a st', parseCallArgs fuel m st = .ok a st' → st'.toks.length ≤ st.toks.length) ∧
  (∀ e b st a st', parsePostfixExpr fuel e b st = .ok a st' → st'.toks.length ≤ st.toks.length) ∧
  (∀ st a st', parseStmt fuel st = .ok a st' → st'.toks.length ≤ st.toks.length) ∧
  (∀ st a st', parseDeclaration fuel st = .ok a st' → st'.toks.length ≤ st.toks.length)

theorem monoAll : ∀ fuel, MonoAll fuel := by
  intro fuel
  induction fuel with
  | zero =>
    refine ⟨?_, ?_, ?_, ?_, ?_, ?_, ?_, ?_, ?_, ?_, ?_, ?_, ?_, ?_, ?_, ?_, ?_⟩ <;>
      intros <;> simp_all [parseBinding, parseLocal, parseReturn, blockLoop, parseBlock,
        paramLoop, parseFunction, lifetimeLoop, parseTypeExpr, parseExpr, climbLoop,
        parsePrimaryExpr, argsLoop, parseCallArgs, parsePostfixExpr, parseStmt,
        parseDeclaration]
  | succ m ih =>
    obtain ⟨ihBind, ihLocal, ihRet, ihBlkL, ihBlk, ihParam, ihFun, ihLife, ihTyp,
      ihExpr, ihClimb, ihPrim, ihArgs, ihCall, ihPost, ihStmt, ihDecl⟩ := ih
    refine ⟨?_, ?_, ?_, ?_, ?_, ?_, ?_, ?_, ?_, ?_, ?_, ?_, ?_, ?_, ?_, ?_, ?_⟩
    · -- parseBinding
      intro st a st' h
      simp only [parseBinding] at h
      have hA : ((enterRecovery [TokenKind.colon] st).2).toks.length = st.toks.length := rfl
      have hB := (expectIdentifier_spec (enterRecovery [TokenKind.colon] st).2).1
      split at h
      · simp at h
      · rename_i st2 hex
        have hC := congrArg List.length (exitRecovery_spec hex).1
        split at h
        · split at h
          · cases h
            omega
          · simp at h
        · split at h
          · obtain ⟨ty, st4, hty, h2⟩ := andThen_ok h
            cases h2
            have hD := ihTyp _ _ _ hty
            have hE := (consume_spec TokenKind.colon st2).1
            omega
          · cases h
            have hE := (consume_spec TokenKind.colon st2).1
            omega
    · -- parseLocal
      intro b st a st' h
      simp only [parseLocal] at h
      obtain ⟨binding, st2, hb, h⟩ := andThen_ok h
      have hA : ((enterRecovery [TokenKind.equals] (nextSt st)).2).toks.length =
        (nextSt st).toks.length := rfl
      have hB := ihBind _ _ _ hb
      have hN := nextSt_toks st
      split at h
      · simp at h
      · rename_i st3 hex
        have hC := congrArg List.length (exitRecovery_spec hex).1
        split at h
        · split at h
          · cases h
            omega
          · simp at h
        · split at h
          · cases h
            have hD := (expect_spec TokenKind.equals "for let/const binding" st3).1
            omega
          · obtain ⟨init, st5, hinit, h2⟩ := andThen_ok h
            cases h2
            have hD := (expect_spec TokenKind.equals "for let/const binding" st3).1
            have hE := ihExpr _ _ _ _ hinit
            omega
    · -- parseReturn
      intro st a st' h
      simp only [parseReturn] at h
      obtain ⟨value, st2, hv, h2⟩ := andThen_ok h
      cases h2
      have hA := ihExpr _ _ _ _ hv
      have hN := nextSt_toks st
      omega
    · -- blockLoop
      intro acc st a st' h
      simp only [blockLoop] at h
      obtain ⟨stmt, st1, hs, h⟩ := andThen_ok h
      have hA : ((enterRecovery [TokenKind.semicolon, TokenKind.rbrace] st).2).toks.length =
        st.toks.length := rfl
      have hB := ihStmt _ _ _ hs
      split at h
      · simp at h
      · rename_i st2 hex
        have hC := congrArg List.length (exitRecovery_spec hex).1
        split at h
        · split at h
          · cases h
            omega
          · simp at h
        · have hD := (expect_spec TokenKind.semicolon "to close the statement" st2).1
          have hD2 : (clearRecovery
              (expect TokenKind.semicolon "to close the statement" st2).2).toks.length =
              ((expect TokenKind.semicolon "to close the statement" st2).2).toks.length := rfl
          split at h
          · split at h
            · cases h
              try dsimp only
              omega
            · have hE := ihBlkL _ _ _ _ h
              try dsimp only at hE
              omega
          · cases h
            try dsimp only
            omega
    · -- parseBlock
      intro st a st' h
      simp only [parseBlock] at h
      obtain ⟨blk, st2, hb, h⟩ := andThen_ok h
      have hB := ihBlkL _ _ _ _ hb
      have hN := nextSt_toks st
      split at h
      · cases h
        omega
      · cases h
        try dsimp only
        have hD := (expect_spec TokenKind.rbrace "to terminate block" st2).1
        have hD2 : (clearRecovery
            (expect TokenKind.rbrace "to terminate block" st2).2).toks.length =
            ((expect TokenKind.rbrace "to terminate block" st2).2).toks.length := rfl
        omega
    · -- paramLoop
      intro acc st a st' h
      simp only [paramLoop] at h
      obtain ⟨binding, st1, hb, h⟩ := andThen_ok h
      have hA : ((enterRecovery [TokenKind.comma, TokenKind.rparen, TokenKind.colon,
        TokenKind.lbrace] st).2).toks.length = st.toks.length := rfl
      have hB := ihBind _ _ _ hb
      split at h
      · simp at h
      · rename_i st2 hex
        have hC := congrArg List.length (exitRecovery_spec hex).1
        split at h
        · split at h
          · cases h
            omega
          · simp at h
        · have hD := (consume_spec TokenKind.comma st2).1
          split at h
          · have hE := ihParam _ _ _ _ h
            omega
          · have hG := (expect_spec TokenKind.rparen "to close function parameters"
              (enterRecovery [TokenKind.colon, TokenKind.lbrace] (consume TokenKind.comma st2).2).2).1
            have hF : ((enterRecovery [TokenKind.colon, TokenKind.lbrace]
              (consume TokenKind.comma st2).2).2).toks.length =
              ((consume TokenKind.comma st2).2).toks.length := rfl
            split at h
            · simp at h
            · rename_i st5 hex2
              have hH := congrArg List.length (exitRecovery_spec hex2).1
              split at h
              · split at h
                · cases h
                  omega
                · simp at h
              · cases h
                omega
    · -- parseFunction
      intro st a st' h
      simp only [parseFunction] at h
      have hN := nextSt_toks st
      have hA1 : ((enterRecovery [TokenKind.lparen, TokenKind.colon, TokenKind.lbrace]
          (nextSt st)).2).toks.length = (nextSt st).toks.length := rfl
      have hB1 := (expectIdentifier_spec
        (enterRecovery [TokenKind.lparen, TokenKind.colon, TokenKind.lbrace] (nextSt st)).2).1
      split at h
      · simp at h
      · rename_i st3 hex1
        have hC1 := congrArg List.length (exitRecovery_spec hex1).1
        split at h
        · split at h
          · cases h
            omega
          · simp at h
        · have hA2 : ((enterRecovery [TokenKind.colon, TokenKind.lbrace] st3).2).toks.length =
            st3.toks.length := rfl
          have hB2 := (expect_spec TokenKind.lparen "for function parameters"
            (enterRecovery [TokenKind.colon, TokenKind.lbrace] st3).2).1
          split at h
          · simp at h
          · rename_i st5 hex2
            have hC2 := congrArg List.length (exitRecovery_spec hex2).1
            split at h
            · split at h
              · cases h
                omega
              · simp at h
            · have hD1 := (consume_spec TokenKind.rparen st5).1
              obtain ⟨params0, st7, hp0, h⟩ := andThen_ok h
              have hP : st7.toks.length ≤ ((consume TokenKind.rparen st5).2).toks.length := by
                split at hp0
                · cases hp0
                  exact le_refl _
                · exact ihParam _ _ _ _ hp0
              split at h
              · cases h
                omega
              · have hD2 := (consume_spec TokenKind.colon st7).1
                obtain ⟨ret0, st11, hr0, h⟩ := andThen_ok h
                have hR : st11.toks.length ≤
                    ((consume TokenKind.colon st7).2).toks.length := by
                  split at hr0
                  · obtain ⟨ty, st9, hty, h2⟩ := andThen_ok hr0
                    have hT := ihTyp _ _ _ hty
                    have hA3 : ((enterRecovery [TokenKind.lbrace]
                        (consume TokenKind.colon st7).2).2).toks.length =
                        ((consume TokenKind.colon st7).2).toks.length := rfl
                    split at h2
                    · simp at h2
                    · rename_i st10 hex3
                      have hC3 := congrArg List.length (exitRecovery_spec hex3).1
                      split at h2
                      · split at h2
                        · cases h2
                          omega
                        · simp at h2
                      · cases h2
                        omega
                  · cases hr0
                    exact le_refl _
                split at h
                · cases h
                  omega
                · obtain ⟨blk, st12, hbk, h2⟩ := andThen_ok h
                  have hK := ihBlk _ _ _ hbk
                  split at h2
                  · cases h2
                    omega
                  · cases h2
                    omega
    · -- lifetimeLoop
      intro acc st a st' h
      simp only [lifetimeLoop] at h
      have hB := (expectIdentifier_spec st).1
      split at h
      · cases h
        omega
      · have hD := (consume_spec TokenKind.comma (expectIdentifier st).2).1
        split at h
        · have hE := ihLife _ _ _ _ h
          omega
        · cases h
          omega
    · -- parseTypeExpr
      intro st a st' h
      simp only [parseTypeExpr] at h
      split at h
      · cases h
        exact (errorP_spec _ _ _).1
      · rename_i t hpeek
        split at h
        · generalize hg : (if t.kind = TokenKind.unique then
              clearRecovery (expect TokenKind.handle "after unique" (nextSt st)).2
            else nextSt st) = st2 at h
          have hst2 : st2.toks.length ≤ st.toks.length := by
            rw [← hg]
            split
            · have h1 := (expect_spec TokenKind.handle "after unique" (nextSt st)).1
              have h2 := nextSt_toks st
              simp only [clearRecovery]
              omega
            · exact nextSt_toks st
          have hD := (consume_spec TokenKind.langle st2).1
          obtain ⟨lts0, st6, hl0, h⟩ := andThen_ok h
          have hL : st6.toks.length ≤ ((consume TokenKind.langle st2).2).toks.length := by
            split at hl0
            · obtain ⟨lts1, st4, hl1, h2⟩ := andThen_ok hl0
              have hLa := ihLife _ _ _ _ hl1
              split at h2
              · cases h2
                omega
              · split at h2
                · cases h2
                  have h3 := (expect_spec TokenKind.rangle "to close lifetime list" st4).1
                  omega
                · cases h2
                  have h3 := (expect_spec TokenKind.rangle "to close lifetime list" st4).1
                  omega
            · cases hl0
              exact le_refl _
          split at h
          · cases h
            omega
          · obtain ⟨inner, st7, hin, h2⟩ := andThen_ok h
            have hI := ihTyp _ _ _ hin
            cases h2
            omega
        · split at h
          · split at h
            · cases h
              exact (expectIdentifier_spec st).1
            · cases h
              exact (expectIdentifier_spec st).1
          · cases h
            exact (errorP_spec _ _ _).1
    · -- parseExpr
      intro mp st a st' h
      simp only [parseExpr] at h
      obtain ⟨left, st1, hl, h2⟩ := andThen_ok h
      have h1 := ihPrim _ _ _ hl
      have h3 := ihClimb _ _ _ _ _ _ h2
      omega
    · -- climbLoop
      intro mp b l st a st' h
      simp only [climbLoop] at h
      split at h
      · cases h
        exact le_refl _
      · split at h
        · cases h
          exact le_refl _
        · split at h
          · cases h
            exact le_refl _
          · obtain ⟨right, st2, hr, h2⟩ := andThen_ok h
            have h1 := ihExpr _ _ _ _ hr
            have h3 := ihClimb _ _ _ _ _ _ h2
            have hN := nextSt_toks st
            omega
    · -- parsePrimaryExpr
      intro st a st' h
      simp only [parsePrimaryExpr] at h
      split at h
      · cases h
        exact (errorP_spec _ _ _).1
      · split at h
        · obtain ⟨right, st2, hr, h2⟩ := andThen_ok h
          have h1 := ihPrim _ _ _ hr
          cases h2
          have hN := nextSt_toks st
          omega
        · cases h
          exact nextSt_toks st
        · cases h
          exact nextSt_toks st
        · obtain ⟨e2, st2, he, h2⟩ := andThen_ok h
          have h1 := ihExpr _ _ _ _ he
          cases h2
          have h3 := (expect_spec TokenKind.rparen "to close parenthesized expression" st2).1
          have hN := nextSt_toks st
          omega
        · have h1 := ihPost _ _ _ _ _ h
          have hN := nextSt_toks st
          omega
        · cases h
          exact nextSt_toks st
        · cases h
          exact (errorP_spec _ _ _).1
    · -- argsLoop
      intro acc st a st' h
      simp only [argsLoop] at h
      obtain ⟨a1, st1, ha, h2⟩ := andThen_ok h
      have h1 := ihExpr _ _ _ _ ha
      have hD := (consume_spec TokenKind.comma st1).1
      split at h2
      · have h3 := ihArgs _ _ _ _ h2
        omega
      · cases h2
        omega
    · -- parseCallArgs
      intro cm st a st' h
      simp only [parseCallArgs] at h
      have hD := (consume_spec TokenKind.rparen st).1
      split at h
      · cases h
        omega
      · obtain ⟨args, st2, ha, h2⟩ := andThen_ok h
        have h1 := ihArgs _ _ _ _ ha
        cases h2
        have h3 := (expect_spec TokenKind.rparen cm st2).1
        omega
    · -- parsePostfixExpr
      intro e b st a st' h
      simp only [parsePostfixExpr] at h
      split at h
      · cases h
        exact le_refl _
      · rename_i t hpeek
        split at h
        · obtain ⟨ae, st2, ha, h2⟩ := andThen_ok h
          have h1 := ihCall _ _ _ _ ha
          have h3 := ihPost _ _ _ _ _ h2
          have hN := nextSt_toks st
          omega
        · split at h
          · have hE := (expectIdentifier_spec (nextSt st)).1
            have hN := nextSt_toks st
            split at h
            · cases h
              omega
            · split at h
              · split at h
                · obtain ⟨ae, st4, ha, h2⟩ := andThen_ok h
                  have h1 := ihCall _ _ _ _ ha
                  have h3 := ihPost _ _ _ _ _ h2
                  have hN2 := nextSt_toks (expectIdentifier (nextSt st)).2
                  omega
                · cases h
                  exact le_trans (errorP_spec _ _ _).1 (by omega)
              · cases h
                exact le_trans (errorP_spec _ _ _).1 (by omega)
          · cases h
            exact le_refl _
    · -- parseStmt
      intro st a st' h
      simp only [parseStmt] at h
      split at h
      · cases h
        exact (errorP_spec _ _ _).1
      · split at h
        · exact ihLocal _ _ _ _ h
        · exact ihLocal _ _ _ _ h
        · exact ihRet _ _ _ h
        · obtain ⟨e2, st1, he, h2⟩ := andThen_ok h
          have h1 := ihExpr _ _ _ _ he
          cases h2
          omega
    · -- parseDeclaration
      intro st a st' h
      simp only [parseDeclaration] at h
      split at h
      · cases h
        exact (errorP_spec _ _ _).1
      · split at h
        · exact ihFun _ _ _ h
        · cases h
          exact (errorP_spec _ _ _).1

theorem parseBinding_mono {fuel : Nat} {st : PState} {a : Binding} {st' : PState}
    (h : parseBinding fuel st = .ok a st') : st'.toks.length ≤ st.toks.length :=
  (monoAll fuel).1 _ _ _ h

theorem parseStmt_mono {fuel : Nat} {st : PState} {a : Stmt} {st' : PState}
    (h : parseStmt fuel st = .ok a st') : st'.toks.length ≤ st.toks.length :=
  (monoAll fuel).2.2.2.2.2.2.2.2.2.2.2.2.2.2.2.1 _ _ _ h

theorem parseExpr_mono {fuel mp : Nat} {st : PState} {a : Expr} {st' : PState}
    (h : parseExpr fuel mp st = .ok a st') : st'.toks.length ≤ st.toks.length :=
  (monoAll fuel).2.2.2.2.2.2.2.2.2.1 _ _ _ _ h

theorem parseTypeExpr_mono {fuel : Nat} {st : PState} {a : TypeExpr} {st' : PState}
    (h : parseTypeExpr fuel st = .ok a st') : st'.toks.length ≤ st.toks.length :=
  (monoAll fuel).2.2.2.2.2.2.2.2.1 _ _ _ h

theorem paramLoop_mono {fuel : Nat} {acc : List Binding} {st : PState}
    {a : Sum (List Binding) AstErr} {st' : PState}
    (h : paramLoop fuel acc st = .ok a st') : st'.toks.length ≤ st.toks.length :=
  (monoAll fuel).2.2.2.2.2.1 _ _ _ _ h

theorem parseBlock_mono {fuel : Nat} {st : PState}
    {a : Sum (List Stmt × SpanI) AstErr} {st' : PState}
    (h : parseBlock fuel st = .ok a st') : st'.toks.length ≤ st.toks.length :=
  (monoAll fuel).2.2.2.2.1 _ _ _ h

theorem parsePrimaryExpr_mono {fuel : Nat} {st : PState} {a : Expr} {st' : PState}
    (h : parsePrimaryExpr fuel st = .ok a st') : st'.toks.length ≤ st.toks.length :=
  (monoAll fuel).2.2.2.2.2.2.2.2.2.2.2.1 _ _ _ h

theorem parseCallArgs_mono {fuel : Nat} {cm : String} {st : PState}
    {a : List Expr × Nat} {st' : PState}
    (h : parseCallArgs fuel cm st = .ok a st') : st'.toks.length ≤ st.toks.length :=
  (monoAll fuel).2.2.2.2.2.2.2.2.2.2.2.2.2.1 _ _ _ _ h

theorem argsLoop_mono {fuel : Nat} {acc : List Expr} {st : PState}
    {a : List Expr} {st' : PState}
    (h : argsLoop fuel acc st = .ok a st') : st'.toks.length ≤ st.toks.length :=
  (monoAll fuel).2.2.2.2.2.2.2.2.2.2.2.2.1 _ _ _ _ h

theorem lifetimeLoop_mono {fuel : Nat} {acc : List Ident} {st : PState}
    {a : Sum (List Ident) AstErr} {st' : PState}
    (h : lifetimeLoop fuel acc st = .ok a st') : st'.toks.length ≤ st.toks.length :=
  (monoAll fuel).2.2.2.2.2.2.2.1 _ _ _ _ h

/-! ## Parser: recovery-set preservation

Every production leaves the recovery set exactly as it found it (each
`recovery(...)` scope is balanced). Stated for the productions reachable
from statement and expression parsing. -/

def RsetAll (fuel : Nat) : Prop :=
  (∀ st a st', parseBinding fuel st = .ok a st' → st'.recoverySet = st.recoverySet) ∧
  (∀ b st a st', parseLocal fuel b st = .ok a st' → st'.recoverySet = st.recoverySet) ∧
  (∀ st a st', parseReturn fuel st = .ok a st' → st'.recoverySet = st.recoverySet) ∧
  (∀ acc st a st', paramLoop fuel acc st = .ok a st' → st'.recoverySet = st.recoverySet) ∧
  (∀ acc st a st', lifetimeLoop fuel acc st = .ok a st' → st'.recoverySet = st.recoverySet) ∧
  (∀ st a st', parseTypeExpr fuel st = .ok a st' → st'.recoverySet = st.recoverySet) ∧
  (∀ mp st a st', parseExpr fuel mp st = .ok a st' → st'.recoverySet = st.recoverySet) ∧
  (∀ mp b l st a st', climbLoop fuel mp b l st = .ok a st' → st'.recoverySet = st.recoverySet) ∧
  (∀ st a st', parsePrimaryExpr fuel st = .ok a st' → st'.recoverySet = st.recoverySet) ∧
  (∀ acc st a st', argsLoop fuel acc st = .ok a st' → st'.recoverySet = st.recoverySet) ∧
  (∀ m st a st', parseCallArgs fuel m st = .ok a st' → st'.recoverySet = st.recoverySet) ∧
  (∀ e b st a st', parsePostfixExpr fuel e b st = .ok a st' → st'.recoverySet = st.recoverySet) ∧
  (∀ st a st', parseStmt fuel st = .ok a st' → st'.recoverySet = st.recoverySet)

theorem rsetAll : ∀ fuel, RsetAll fuel := by
  intro fuel
  induction fuel with
  | zero =>
    refine ⟨?_, ?_, ?_, ?_, ?_, ?_, ?_, ?_, ?_, ?_, ?_, ?_, ?_⟩ <;>
      intros <;> simp_all [parseBinding, parseLocal, parseReturn, paramLoop,
        lifetimeLoop, parseTypeExpr, parseExpr, climbLoop, parsePrimaryExpr,
        argsLoop, parseCallArgs, parsePostfixExpr, parseStmt]
  | succ m ih =>
    obtain ⟨ihBind, ihLocal, ihRet, ihParam, ihLife, ihTyp, ihExpr, ihClimb,
      ihPrim, ihArgs, ihCall, ihPost, ihStmt⟩ := ih
    refine ⟨?_, ?_, ?_, ?_, ?_, ?_, ?_, ?_, ?_, ?_, ?_, ?_, ?_⟩
    · -- parseBinding
      intro st a st' h
      simp only [parseBinding] at h
      have hB := (expectIdentifier_spec (enterRecovery [TokenKind.colon] st).2).2.1
      split at h
      · simp at h
      · rename_i st2 hex
        have hC := exitRecovery_rset hex hB
        split at h
        · split at h
          · cases h
            exact hC
          · simp at h
        · split at h
          · obtain ⟨ty, st4, hty, h2⟩ := andThen_ok h
            cases h2
            have hD := ihTyp _ _ _ hty
            have hE := (consume_spec TokenKind.colon st2).2.2.1
            rw [hD, hE, hC]
          · cases h
            have hE := (consume_spec TokenKind.colon st2).2.2.1
            rw [hE, hC]
    · -- parseLocal
      intro b st a st' h
      simp only [parseLocal] at h
      obtain ⟨binding, st2, hb, h⟩ := andThen_ok h
      have hB := ihBind _ _ _ hb
      have hN : (nextSt st).recoverySet = st.recoverySet := rfl
      split at h
      · simp at h
      · rename_i st3 hex
        have hC := exitRecovery_rset hex hB
        split at h
        · split at h
          · cases h
            rw [hC, hN]
          · simp at h
        · have hD := (expect_spec TokenKind.equals "for let/const binding" st3).2.1
          split at h
          · cases h
            rw [hD, hC, hN]
          · obtain ⟨init, st5, hinit, h2⟩ := andThen_ok h
            cases h2
            have hE := ihExpr _ _ _ _ hinit
            rw [hE, hD, hC, hN]
    · -- parseReturn
      intro st a st' h
      simp only [parseReturn] at h
      obtain ⟨v, st2, hv, h2⟩ := andThen_ok h
      cases h2
      have hE := ihExpr _ _ _ _ hv
      have hN : (nextSt st).recoverySet = st.recoverySet := rfl
      rw [hE, hN]
    · -- paramLoop
      intro acc st a st' h
      simp only [paramLoop] at h
      obtain ⟨binding, st1, hb, h⟩ := andThen_ok h
      have hB := ihBind _ _ _ hb
      split at h
      · simp at h
      · rename_i st2 hex
        have hC := exitRecovery_rset hex hB
        split at h
        · split at h
          · cases h
            exact hC
          · simp at h
        · have hD := (consume_spec TokenKind.comma st2).2.2.1
          split at h
          · have hE := ihParam _ _ _ _ h
            rw [hE, hD, hC]
          · have hF := (expect_spec TokenKind.rparen "to close function parameters"
              (enterRecovery [TokenKind.colon, TokenKind.lbrace]
                (consume TokenKind.comma st2).2).2).2.1
            split at h
            · simp at h
            · rename_i st5 hex2
              have hG := exitRecovery_rset hex2 hF
              split at h
              · split at h
                · cases h
                  rw [hG, hD, hC]
                · simp at h
              · cases h
                rw [hG, hD, hC]
    · -- lifetimeLoop
      intro acc st a st' h
      simp only [lifetimeLoop] at h
      have hB := (expectIdentifier_spec st).2.1
      split at h
      · cases h
        exact hB
      · have hD := (consume_spec TokenKind.comma (expectIdentifier st).2).2.2.1
        split at h
        · have hE := ihLife _ _ _ _ h
          rw [hE, hD, hB]
        · cases h
          rw [hD, hB]
    · -- parseTypeExpr
      intro st a st' h
      simp only [parseTypeExpr] at h
      split at h
      · cases h
        exact (errorP_spec _ _ _).2.2.1
      · rename_i t hpeek
        split at h
        · generalize hg : (if t.kind = TokenKind.unique then
              clearRecovery (expect TokenKind.handle "after unique" (nextSt st)).2
            else nextSt st) = st2 at h
          have hst2 : st2.recoverySet = st.recoverySet := by
            rw [← hg]
            split
            · exact (expect_spec TokenKind.handle "after unique" (nextSt st)).2.1
            · rfl
          have hD := (consume_spec TokenKind.langle st2).2.2.1
          obtain ⟨lts0, st6, hl0, h⟩ := andThen_ok h
          have hL : st6.recoverySet = ((consume TokenKind.langle st2).2).recoverySet := by
            split at hl0
            · obtain ⟨lts1, st4, hl1, h2⟩ := andThen_ok hl0
              have hLa := ihLife _ _ _ _ hl1
              split at h2
              · cases h2
                exact hLa
              · split at h2
                · cases h2
                  have h3 := (expect_spec TokenKind.rangle "to close lifetime list" st4).2.1
                  rw [h3, hLa]
                · cases h2
                  have h3 := (expect_spec TokenKind.rangle "to close lifetime list" st4).2.1
                  rw [h3, hLa]
            · cases hl0
              rfl
          split at h
          · cases h
            rw [hL, hD, hst2]
          · obtain ⟨inner, st7, hin, h2⟩ := andThen_ok h
            have hI := ihTyp _ _ _ hin
            cases h2
            rw [hI, hL, hD, hst2]
        · split at h
          · split at h
            · cases h
              exact (expectIdentifier_spec st).2.1
            · cases h
              exact (expectIdentifier_spec st).2.1
          · cases h
            exact (errorP_spec _ _ _).2.2.1
    · -- parseExpr
      intro mp st a st' h
      simp only [parseExpr] at h
      obtain ⟨left, st1, hl, h2⟩ := andThen_ok h
      have h1 := ihPrim _ _ _ hl
      have h3 := ihClimb _ _ _ _ _ _ h2
      rw [h3, h1]
    · -- climbLoop
      intro mp b l st a st' h
      simp only [climbLoop] at h
      split at h
      · cases h
        rfl
      · split at h
        · cases h
          rfl
        · split at h
          · cases h
            rfl
          · obtain ⟨right, st2, hr, h2⟩ := andThen_ok h
            have h1 := ihExpr _ _ _ _ hr
            have h3 := ihClimb _ _ _ _ _ _ h2
            have hN : (nextSt st).recoverySet = st.recoverySet := rfl
            rw [h3, h1, hN]
    · -- parsePrimaryExpr
      intro st a st' h
      simp only [parsePrimaryExpr] at h
      split at h
      · cases h
        exact (errorP_spec _ _ _).2.2.1
      · split at h
        · obtain ⟨right, st2, hr, h2⟩ := andThen_ok h
          have h1 := ihPrim _ _ _ hr
          cases h2
          have hN : (nextSt st).recoverySet = st.recoverySet := rfl
          rw [h1, hN]
        · cases h
          rfl
        · cases h
          rfl
        · obtain ⟨e2, st2, he, h2⟩ := andThen_ok h
          have h1 := ihExpr _ _ _ _ he
          cases h2
          have h3 := (expect_spec TokenKind.rparen "to close parenthesized expression" st2).2.1
          have hN : (nextSt st).recoverySet = st.recoverySet := rfl
          rw [h3, h1, hN]
        · have h1 := ihPost _ _ _ _ _ h
          have hN : (nextSt st).recoverySet = st.recoverySet := rfl
          rw [h1, hN]
        · cases h
          rfl
        · cases h
          exact (errorP_spec _ _ _).2.2.1
    · -- argsLoop
      intro acc st a st' h
      simp only [argsLoop] at h
      obtain ⟨a1, st1, ha, h2⟩ := andThen_ok h
      have h1 := ihExpr _ _ _ _ ha
      have hD := (consume_spec TokenKind.comma st1).2.2.1
      split at h2
      · have h3 := ihArgs _ _ _ _ h2
        rw [h3, hD, h1]
      · cases h2
        rw [hD, h1]
    · -- parseCallArgs
      intro cm st a st' h
      simp only [parseCallArgs] at h
      have hD := (consume_spec TokenKind.rparen st).2.2.1
      split at h
      · cases h
        exact hD
      · obtain ⟨args, st2, ha, h2⟩ := andThen_ok h
        have h1 := ihArgs _ _ _ _ ha
        cases h2
        have h3 := (expect_spec TokenKind.rparen cm st2).2.1
        rw [h3, h1, hD]
    · -- parsePostfixExpr
      intro e b st a st' h
      simp only [parsePostfixExpr] at h
      split at h
      · cases h
        rfl
      · rename_i t hpeek
        split at h
        · obtain ⟨ae, st2, ha, h2⟩ := andThen_ok h
          have h1 := ihCall _ _ _ _ ha
          have h3 := ihPost _ _ _ _ _ h2
          have hN : (nextSt st).recoverySet = st.recoverySet := rfl
          rw [h3, h1, hN]
        · split at h
          · have hE := (expectIdentifier_spec (nextSt st)).2.1
            have hN : (nextSt st).recoverySet = st.recoverySet := rfl
            split at h
            · cases h
              rw [hE, hN]
            · split at h
              · split at h
                · obtain ⟨ae, st4, ha, h2⟩ := andThen_ok h
                  have h1 := ihCall _ _ _ _ ha
                  have h3 := ihPost _ _ _ _ _ h2
                  have hN2 : (nextSt (expectIdentifier (nextSt st)).2).recoverySet =
                    ((expectIdentifier (nextSt st)).2).recoverySet := rfl
                  rw [h3, h1, hN2, hE, hN]
                · cases h
                  exact ((errorP_spec _ _ _).2.2.1).trans (hE.trans hN)
              · cases h
                exact ((errorP_spec _ _ _).2.2.1).trans (hE.trans hN)
          · cases h
            rfl
    · -- parseStmt
      intro st a st' h
      simp only [parseStmt] at h
      split at h
      · cases h
        exact (errorP_spec _ _ _).2.2.1
      · split at h
        · exact ihLocal _ _ _ _ h
        · exact ihLocal _ _ _ _ h
        · exact ihRet _ _ _ h
        · obtain ⟨e2, st1, he, h2⟩ := andThen_ok h
          have h1 := ihExpr _ _ _ _ he
          cases h2
          exact h1

theorem parseStmt_rset {fuel : Nat} {st : PState} {a : Stmt} {st' : PState}
    (h : parseStmt fuel st = .ok a st') : st'.recoverySet = st.recoverySet :=
  (rsetAll fuel).2.2.2.2.2.2.2.2.2.2.2.2 _ _ _ h

theorem paramLoop_rset {fuel : Nat} {acc : List Binding} {st : PState}
    {a : Sum (List Binding) AstErr} {st' : PState}
    (h : paramLoop fuel acc st = .ok a st') : st'.recoverySet = st.recoverySet :=
  (rsetAll fuel).2.2.2.1 _ _ _ _ h

theorem parseTypeExpr_rset {fuel : Nat} {st : PState} {a : TypeExpr} {st' : PState}
    (h : parseTypeExpr fuel st = .ok a st') : st'.recoverySet = st.recoverySet :=
  (rsetAll fuel).2.2.2.2.2.1 _ _ _ h

/-! ## Parser: fuel sufficiency

With fuel at least `16 * tokens + rank` no production runs out: the
measure `16 * remaining-tokens + rank` strictly decreases along every
recursive path. The block loop additionally needs an empty ambient
recovery set (as holds in every run started from `initPState`): a failed
statement-closing `expect` then discards to end-of-input, so the loop
cannot repeat without consuming. -/

def SuffAll (fuel : Nat) : Prop :=
  (∀ st, 16 * st.toks.length + 2 ≤ fuel → parseBinding fuel st ≠ .noFuel) ∧
  (∀ b st, 16 * st.toks.length + 4 ≤ fuel → parseLocal fuel b st ≠ .noFuel) ∧
  (∀ st, 16 * st.toks.length + 4 ≤ fuel → parseReturn fuel st ≠ .noFuel) ∧
  (∀ acc st, 16 * st.toks.length + 6 ≤ fuel → st.recoverySet = [] →
    blockLoop fuel acc st ≠ .noFuel) ∧
  (∀ st, 16 * st.toks.length + 7 ≤ fuel → st.recoverySet = [] →
    parseBlock fuel st ≠ .noFuel) ∧
  (∀ acc st, 16 * st.toks.length + 3 ≤ fuel → paramLoop fuel acc st ≠ .noFuel) ∧
  (∀ st, 16 * st.toks.length + 8 ≤ fuel → st.recoverySet = [] →
    parseFunction fuel st ≠ .noFuel) ∧
  (∀ acc st, 16 * st.toks.length + 2 ≤ fuel → lifetimeLoop fuel acc st ≠ .noFuel) ∧
  (∀ st, 16 * st.toks.length + 2 ≤ fuel → parseTypeExpr fuel st ≠ .noFuel) ∧
  (∀ mp st, 16 * st.toks.length + 3 ≤ fuel → parseExpr fuel mp st ≠ .noFuel) ∧
  (∀ mp b l st, 16 * st.toks.length + 2 ≤ fuel → climbLoop fuel mp b l st ≠ .noFuel) ∧
  (∀ st, 16 * st.toks.length + 2 ≤ fuel → parsePrimaryExpr fuel st ≠ .noFuel) ∧
  (∀ acc st, 16 * st.toks.length + 4 ≤ fuel → argsLoop fuel acc st ≠ .noFuel) ∧
  (∀ m st, 16 * st.toks.length + 5 ≤ fuel → parseCallArgs fuel m st ≠ .noFuel) ∧
  (∀ e b st, 16 * st.toks.length + 2 ≤ fuel → parsePostfixExpr fuel e b st ≠ .noFuel) ∧
  (∀ st, 16 * st.toks.length + 5 ≤ fuel → parseStmt fuel st ≠ .noFuel) ∧
  (∀ st, 16 * st.toks.length + 9 ≤ fuel → st.recoverySet = [] →
    parseDeclaration fuel st ≠ .noFuel)

theorem suffAll : ∀ fuel, SuffAll fuel := by
  intro fuel
  induction fuel with
  | zero =>
    refine ⟨?_, ?_, ?_, ?_, ?_, ?_, ?_, ?_, ?_, ?_, ?_, ?_, ?_, ?_, ?_, ?_, ?_⟩ <;>
      intros <;> exfalso <;> omega
  | succ m ih =>
    obtain ⟨ihBind, ihLocal, ihRet, ihBlkL, ihBlk, ihParam, ihFun, ihLife, ihTyp,
      ihExpr, ihClimb, ihPrim, ihArgs, ihCall, ihPost, ihStmt, ihDecl⟩ := ih
    refine ⟨?_, ?_, ?_, ?_, ?_, ?_, ?_, ?_, ?_, ?_, ?_, ?_, ?_, ?_, ?_, ?_, ?_⟩
    · -- parseBinding
      intro st hb
      simp only [parseBinding]
      split
      · simp
      · rename_i st2 hex
        split
        · split
          · simp
          · simp
        · have hA : ((enterRecovery [TokenKind.colon] st).2).toks.length =
            st.toks.length := rfl
          have hB := (expectIdentifier_spec (enterRecovery [TokenKind.colon] st).2).1
          have hC := congrArg List.length (exitRecovery_spec hex).1
          split
          · rename_i hcol
            have hD := (consume_spec TokenKind.colon st2).2.2.2.2.2 hcol
            apply andThen_ne_noFuel
            · apply ihTyp
              omega
            · intro v st4 hv
              simp
          · simp
    · -- parseLocal
      intro b st hb
      simp only [parseLocal]
      have hA : ((enterRecovery [TokenKind.equals] (nextSt st)).2).toks.length =
        (nextSt st).toks.length := rfl
      have hN := nextSt_toks st
      apply andThen_ne_noFuel
      · apply ihBind
        omega
      · intro binding st2 hbind
        have hMB := parseBinding_mono hbind
        split
        · simp
        · rename_i st3 hex
          have hC := congrArg List.length (exitRecovery_spec hex).1
          split
          · split
            · simp
            · simp
          · split
            · simp
            · rename_i tok heq
              have hD2 := ((expect_spec TokenKind.equals "for let/const binding"
                st3).2.2.2.2.1 tok heq).1
              apply andThen_ne_noFuel
              · apply ihExpr
                omega
              · intro v st5 hval
                simp
    · -- parseReturn
      intro st hb
      simp only [parseReturn]
      have hN := nextSt_toks st
      apply andThen_ne_noFuel
      · apply ihExpr
        omega
      · intro v st2 hv
        simp
    · -- blockLoop
      intro acc st hb hrs
      simp only [blockLoop]
      have hA : ((enterRecovery [TokenKind.semicolon, TokenKind.rbrace] st).2).toks.length =
        st.toks.length := rfl
      apply andThen_ne_noFuel
      · apply ihStmt
        omega
      · intro stmt st1 hstmt
        have hMS := parseStmt_mono hstmt
        have hRS := parseStmt_rset hstmt
        split
        · simp
        · rename_i st2 hex
          have hC := congrArg List.length (exitRecovery_spec hex).1
          have hR2 : st2.recoverySet = st.recoverySet := exitRecovery_rset hex hRS
          split
          · split
            · simp
            · simp
          · split
            · rename_i t hpk
              split
              · simp
              · apply ihBlkL
                · cases hsem : (expect TokenKind.semicolon "to close the statement" st2).1 with
                  | inl tok =>
                    have hD := ((expect_spec TokenKind.semicolon "to close the statement"
                      st2).2.2.2.2.1 tok hsem).1
                    have hcl : (clearRecovery (expect TokenKind.semicolon
                        "to close the statement" st2).2).toks.length =
                        ((expect TokenKind.semicolon "to close the statement"
                        st2).2).toks.length := rfl
                    omega
                  | inr e =>
                    have hT := expect_fail_nil_toks TokenKind.semicolon
                      "to close the statement" st2 (by rw [hR2, hrs]) e hsem
                    exfalso
                    have hpn : peek (clearRecovery (expect TokenKind.semicolon
                        "to close the statement" st2).2) = none := by
                      show (((expect TokenKind.semicolon "to close the statement"
                        st2).2).toks).head? = none
                      rw [hT]
                      rfl
                    rw [hpn] at hpk
                    exact Option.noConfusion hpk
                · show ((expect TokenKind.semicolon "to close the statement"
                    st2).2).recoverySet = []
                  have hD2 := (expect_spec TokenKind.semicolon
                    "to close the statement" st2).2.1
                  rw [hD2, hR2, hrs]
            · simp
    · -- parseBlock
      intro st hb hrs
      simp only [parseBlock]
      have hN := nextSt_toks st
      apply andThen_ne_noFuel
      · apply ihBlkL
        · omega
        · exact hrs
      · intro blk st2 hblk
        split
        · simp
        · simp
    · -- paramLoop
      intro acc st hb
      simp only [paramLoop]
      have hA : ((enterRecovery [TokenKind.comma, TokenKind.rparen, TokenKind.colon,
        TokenKind.lbrace] st).2).toks.length = st.toks.length := rfl
      apply andThen_ne_noFuel
      · apply ihBind
        omega
      · intro binding st1 hbind
        have hMB := parseBinding_mono hbind
        split
        · simp
        · rename_i st2 hex
          have hC := congrArg List.length (exitRecovery_spec hex).1
          split
          · split
            · simp
            · simp
          · split
            · rename_i hcomma
              have hD := (consume_spec TokenKind.comma st2).2.2.2.2.2 hcomma
              apply ihParam
              omega
            · split
              · simp
              · rename_i st5 hex2
                split
                · split
                  · simp
                  · simp
                · simp
    · -- parseFunction
      intro st hb hrs
      simp only [parseFunction]
      have hN := nextSt_toks st
      have hA1 : ((enterRecovery [TokenKind.lparen, TokenKind.colon, TokenKind.lbrace]
        (nextSt st)).2).toks.length = (nextSt st).toks.length := rfl
      have hB1 := (expectIdentifier_spec (enterRecovery [TokenKind.lparen, TokenKind.colon,
        TokenKind.lbrace] (nextSt st)).2).1
      have hB1r := (expectIdentifier_spec (enterRecovery [TokenKind.lparen, TokenKind.colon,
        TokenKind.lbrace] (nextSt st)).2).2.1
      split
      · simp
      · rename_i st3 hex1
        have hC1 := congrArg List.length (exitRecovery_spec hex1).1
        have hR1 : st3.recoverySet = (nextSt st).recoverySet := exitRecovery_rset hex1 hB1r
        split
        · split
          · simp
          · simp
        · have hA2 : ((enterRecovery [TokenKind.colon, TokenKind.lbrace] st3).2).toks.length =
            st3.toks.length := rfl
          have hB2 := (expect_spec TokenKind.lparen "for function parameters"
            (enterRecovery [TokenKind.colon, TokenKind.lbrace] st3).2).1
          have hB2r := (expect_spec TokenKind.lparen "for function parameters"
            (enterRecovery [TokenKind.colon, TokenKind.lbrace] st3).2).2.1
          split
          · simp
          · rename_i st5 hex2
            have hC2 := congrArg List.length (exitRecovery_spec hex2).1
            have hR2 : st5.recoverySet = st3.recoverySet := exitRecovery_rset hex2 hB2r
            split
            · split
              · simp
              · simp
            · have hD1 := (consume_spec TokenKind.rparen st5).1
              have hD1r := (consume_spec TokenKind.rparen st5).2.2.1
              apply andThen_ne_noFuel
              · split
                · simp
                · apply ihParam
                  omega
              · intro params0 st7 hp0
                have hP : st7.toks.length ≤
                    ((consume TokenKind.rparen st5).2).toks.length := by
                  split at hp0
                  · cases hp0
                    exact le_refl _
                  · exact paramLoop_mono hp0
                have hPr : st7.recoverySet =
                    ((consume TokenKind.rparen st5).2).recoverySet := by
                  split at hp0
                  · cases hp0
                    rfl
                  · exact paramLoop_rset hp0
                split
                · simp
                · have hD2 := (consume_spec TokenKind.colon st7).1
                  have hD2r := (consume_spec TokenKind.colon st7).2.2.1
                  apply andThen_ne_noFuel
                  · split
                    · apply andThen_ne_noFuel
                      · apply ihTyp
                        have hA3 : ((enterRecovery [TokenKind.lbrace]
                          (consume TokenKind.colon st7).2).2).toks.length =
                          ((consume TokenKind.colon st7).2).toks.length := rfl
                        omega
                      · intro ty st9 hty
                        split
                        · simp
                        · split
                          · split
                            · simp
                            · simp
                          · simp
                    · simp
                  · intro ret0 st11 hr0
                    have hRlen : st11.toks.length ≤
                        ((consume TokenKind.colon st7).2).toks.length := by
                      split at hr0
                      · obtain ⟨ty, st9, hty, h2⟩ := andThen_ok hr0
                        have hT := parseTypeExpr_mono hty
                        have hA3 : ((enterRecovery [TokenKind.lbrace]
                          (consume TokenKind.colon st7).2).2).toks.length =
                          ((consume TokenKind.colon st7).2).toks.length := rfl
                        split at h2
                        · simp at h2
                        · rename_i st10 hex3
                          have hC3 := congrArg List.length (exitRecovery_spec hex3).1
                          split at h2
                          · split at h2
                            · cases h2
                              omega
                            · simp at h2
                          · cases h2
                            omega
                      · cases hr0
                        exact le_refl _
                    have hRr : st11.recoverySet =
                        ((consume TokenKind.colon st7).2).recoverySet := by
                      split at hr0
                      · obtain ⟨ty, st9, hty, h2⟩ := andThen_ok hr0
                        have hTr := parseTypeExpr_rset hty
                        split at h2
                        · simp at h2
                        · rename_i st10 hex3
                          have hR3 : st10.recoverySet =
                            ((consume TokenKind.colon st7).2).recoverySet :=
                            exitRecovery_rset hex3 hTr
                          split at h2
                          · split at h2
                            · cases h2
                              exact hR3
                            · simp at h2
                          · cases h2
                            exact hR3
                      · cases hr0
                        rfl
                    split
                    · simp
                    · apply andThen_ne_noFuel
                      · apply ihBlk
                        · omega
                        · rw [hRr, hD2r, hPr, hD1r, hR2, hR1]
                          exact hrs
                      · intro blk st12 hblk
                        split
                        · simp
                        · simp
    · -- lifetimeLoop
      intro acc st hb
      simp only [lifetimeLoop]
      have hB := (expectIdentifier_spec st).1
      split
      · simp
      · rename_i i hid
        have hB2 := ((expectIdentifier_spec st).2.2.2.2.1 i hid).1
        split
        · rename_i hcomma
          have hD := (consume_spec TokenKind.comma
            (expectIdentifier st).2).2.2.2.2.2 hcomma
          apply ihLife
          omega
        · simp
    · -- parseTypeExpr
      intro st hb
      simp only [parseTypeExpr]
      split
      · simp
      · rename_i t hpeek
        have hne : st.toks ≠ [] := by
          intro hnil
          rw [peek, hnil] at hpeek
          exact Option.noConfusion hpeek
        have hpl := List.length_pos.mpr hne
        split
        · generalize hg : (if t.kind = TokenKind.unique then
              clearRecovery (expect TokenKind.handle "after unique" (nextSt st)).2
            else nextSt st) = st2
          have hst2 : st2.toks.length ≤ st.toks.length - 1 := by
            rw [← hg]
            split
            · show ((expect TokenKind.handle "after unique" (nextSt st)).2).toks.length ≤
                st.toks.length - 1
              have h1 := (expect_spec TokenKind.handle "after unique" (nextSt st)).1
              have h2 : (nextSt st).toks.length = st.toks.length - 1 := by
                simp [nextSt]
              omega
            · show (nextSt st).toks.length ≤ st.toks.length - 1
              simp [nextSt]
          have hD := (consume_spec TokenKind.langle st2).1
          apply andThen_ne_noFuel
          · split
            · apply andThen_ne_noFuel
              · apply ihLife
                omega
              · intro lts0 st4 hl
                split
                · simp
                · split
                  · simp
                  · simp
            · simp
          · intro lts0 st6 hl0
            have hL : st6.toks.length ≤ ((consume TokenKind.langle st2).2).toks.length := by
              split at hl0
              · obtain ⟨lts1, st4, hl1, h2⟩ := andThen_ok hl0
                have hLa := lifetimeLoop_mono hl1
                split at h2
                · cases h2
                  omega
                · split at h2
                  · cases h2
                    have h3 := (expect_spec TokenKind.rangle "to close lifetime list" st4).1
                    omega
                  · cases h2
                    have h3 := (expect_spec TokenKind.rangle "to close lifetime list" st4).1
                    omega
              · cases hl0
                exact le_refl _
            split
            · simp
            · apply andThen_ne_noFuel
              · apply ihTyp
                omega
              · intro inner st7 hin
                simp
        · split
          · split
            · simp
            · simp
          · simp
    · -- parseExpr
      intro mp st hb
      simp only [parseExpr]
      apply andThen_ne_noFuel
      · apply ihPrim
        omega
      · intro left st1 hl
        have hM := parsePrimaryExpr_mono hl
        apply ihClimb
        omega
    · -- climbLoop
      intro mp b l st hb
      simp only [climbLoop]
      split
      · simp
      · rename_i t hpeek
        split
        · simp
        · rename_i op hop
          split
          · simp
          · have hne : st.toks ≠ [] := by
              intro hnil
              rw [peek, hnil] at hpeek
              exact Option.noConfusion hpeek
            have hpl := List.length_pos.mpr hne
            have hN : (nextSt st).toks.length = st.toks.length - 1 := by
              simp [nextSt]
            apply andThen_ne_noFuel
            · apply ihExpr
              omega
            · intro right st2 hr
              have hM := parseExpr_mono hr
              apply ihClimb
              omega
    · -- parsePrimaryExpr
      intro st hb
      simp only [parsePrimaryExpr]
      split
      · simp
      · rename_i t hpeek
        have hne : st.toks ≠ [] := by
          intro hnil
          rw [peek, hnil] at hpeek
          exact Option.noConfusion hpeek
        have hpl := List.length_pos.mpr hne
        have hN : (nextSt st).toks.length = st.toks.length - 1 := by
          simp [nextSt]
        split
        · apply andThen_ne_noFuel
          · apply ihPrim
            omega
          · intro right st2 hr
            simp
        · simp
        · simp
        · apply andThen_ne_noFuel
          · apply ihExpr
            omega
          · intro e2 st2 he
            simp
        · apply ihPost
          omega
        · simp
        · simp
    · -- argsLoop
      intro acc st hb
      simp only [argsLoop]
      apply andThen_ne_noFuel
      · apply ihExpr
        omega
      · intro a1 st1 ha
        have hM := parseExpr_mono ha
        split
        · rename_i hcomma
          have hD := (consume_spec TokenKind.comma st1).2.2.2.2.2 hcomma
          apply ihArgs
          omega
        · simp
    · -- parseCallArgs
      intro cm st hb
      simp only [parseCallArgs]
      have hD := (consume_spec TokenKind.rparen st).1
      split
      · simp
      · apply andThen_ne_noFuel
        · apply ihArgs
          omega
        · intro args st2 ha
          simp
    · -- parsePostfixExpr
      intro e b st hb
      simp only [parsePostfixExpr]
      split
      · simp
      · rename_i t hpeek
        have hne : st.toks ≠ [] := by
          intro hnil
          rw [peek, hnil] at hpeek
          exact Option.noConfusion hpeek
        have hpl := List.length_pos.mpr hne
        have hN : (nextSt st).toks.length = st.toks.length - 1 := by
          simp [nextSt]
        split
        · apply andThen_ne_noFuel
          · apply ihCall
            omega
          · intro ae st2 ha
            have hM := parseCallArgs_mono ha
            apply ihPost
            omega
        · split
          · have hE := (expectIdentifier_spec (nextSt st)).1
            split
            · simp
            · rename_i mi hmi
              have hE2 := ((expectIdentifier_spec (nextSt st)).2.2.2.2.1 mi hmi).1
              split
              · rename_i t2 hpk2
                split
                · have hne2 : ((expectIdentifier (nextSt st)).2).toks ≠ [] := by
                    intro hnil
                    rw [peek, hnil] at hpk2
                    exact Option.noConfusion hpk2
                  have hpl2 := List.length_pos.mpr hne2
                  have hN2 : (nextSt (expectIdentifier (nextSt st)).2).toks.length =
                      ((expectIdentifier (nextSt st)).2).toks.length - 1 := by
                    simp [nextSt]
                  apply andThen_ne_noFuel
                  · apply ihCall
                    omega
                  · intro ae st4 ha
                    have hM := parseCallArgs_mono ha
                    apply ihPost
                    omega
                · simp
              · simp
          · simp
    · -- parseStmt
      intro st hb
      simp only [parseStmt]
      split
      · simp
      · split
        · apply ihLocal
          omega
        · apply ihLocal
          omega
        · apply ihRet
          omega
        · apply andThen_ne_noFuel
          · apply ihExpr
            omega
          · intro e2 st1 he
            simp
    · -- parseDeclaration
      intro st hb hrs
      simp only [parseDeclaration]
      split
      · simp
      · split
        · apply ihFun
          · omega
          · exact hrs
        · simp

/-- Over `initPState` (empty recovery set) the declaration parser never
exhausts `parserFuel`. -/
theorem parseDeclaration_noFuel (s : String) (toks : List Token) :
    parseDeclaration (parserFuel toks) (initPState s toks) ≠ .noFuel := by
  apply (suffAll (parserFuel toks)).2.2.2.2.2.2.2.2.2.2.2.2.2.2.2.2
  · show 16 * toks.length + 9 ≤ 16 * toks.length + 16
    omega
  · rfl

/-- Expression parsing from `initPState` never exhausts `parserFuel`. -/
theorem parseExpr_noFuel (s : String) (toks : List Token) :
    parseExpr (parserFuel toks) 0 (initPState s toks) ≠ .noFuel := by
  apply (suffAll (parserFuel toks)).2.2.2.2.2.2.2.2.2.1
  show 16 * toks.length + 3 ≤ 16 * toks.length + 16
  omega

/-! ## String scanning against the spec-side failure conditions -/

theorem hexToNat_snoc (acc : List Char) (c : Char) :
    hexToNat (acc ++ [c]) = hexToNat acc * 16 + hexVal c := by
  have hfold : ∀ l : List Char, hexToNat l = l.foldl (fun a d => a * 16 + hexVal d) 0 := by
    intro l
    cases l with
    | nil => rfl
    | cons x xs => rfl
  rw [hfold, hfold, List.foldl_append]
  rfl

/-- `specBrace` tracks exactly what `uniBraceLoop` collects: digit count,
denoted value and stopping position agree, and both fail together. -/
theorem specBrace_eq (src : Src) : ∀ fuel p acc,
    specBrace src fuel p acc.length (hexToNat acc) =
      match uniBraceLoop src fuel p acc with
      | some (.ok (hex, q)) => some (.inl (hex.length, hexToNat hex, q))
      | some (.error _) => some (.inr true)
      | none => none := by
  intro fuel
  induction fuel with
  | zero =>
    intro p acc
    rfl
  | succ m ih =>
    intro p acc
    simp only [specBrace, uniBraceLoop]
    cases hc : charAt src p with
    | none => rfl
    | some c =>
      dsimp only
      by_cases hbrace : c = '}'
      · rw [if_pos hbrace, if_pos hbrace]
      · rw [if_neg hbrace, if_neg hbrace]
        by_cases hhex : isHexCh c
        · rw [if_pos hhex, if_pos hhex]
          have := ih (p + 1) (acc ++ [c])
          simp only [List.length_append, List.length_singleton, hexToNat_snoc] at this
          exact this
        · rw [if_neg hhex, if_neg hhex]

/-- `specHexRun` says exactly when `readHexDigits` succeeds. -/
theorem specHexRun_readHex (src : Src) : ∀ n p,
    (specHexRun src p n = true → ∃ l, readHexDigits src p n = .ok (l, p + n)) ∧
    (specHexRun src p n = false → ∃ e, readHexDigits src p n = .error e) := by
  intro n
  induction n with
  | zero =>
    intro p
    constructor
    · intro _
      exact ⟨[], rfl⟩
    · intro hf
      simp [specHexRun] at hf
  | succ m ih =>
    intro p
    constructor
    · intro ht
      simp only [specHexRun] at ht
      cases hc : charAt src p with
      | none =>
        rw [hc] at ht
        simp at ht
      | some c =>
        rw [hc] at ht
        simp only [Bool.and_eq_true] at ht
        obtain ⟨l, hl⟩ := (ih (p + 1)).1 ht.2
        refine ⟨c :: l, ?_⟩
        simp only [readHexDigits, hc]
        rw [if_pos ht.1, hl]
        have hq : p + 1 + m = p + (m + 1) := by omega
        rw [hq]
    · intro hf
      simp only [specHexRun] at hf
      cases hc : charAt src p with
      | none =>
        refine ⟨.invalidHexEscape p, ?_⟩
        simp [readHexDigits, hc]
      | some c =>
        rw [hc] at hf
        dsimp only at hf
        by_cases hx : isHexCh c
        · have h2 : specHexRun src (p + 1) m = false := by
            cases hsr : specHexRun src (p + 1) m
            · rfl
            · rw [hx, hsr] at hf
              simp at hf
          obtain ⟨e, he⟩ := (ih (p + 1)).2 h2
          refine ⟨e, ?_⟩
          simp only [readHexDigits, hc]
          rw [if_pos hx, he]
        · refine ⟨.invalidHexEscape p, ?_⟩
          simp only [readHexDigits, hc]
          rw [if_neg hx]

/-- The scan loop raises exactly when the amended condition list holds. -/
theorem scanLoop_err_iff (src : Src) (quote : Char) : ∀ fuel p acc,
    src.length - p < fuel →
    ((∃ e, scanLoop src quote fuel p acc = some (.error e)) ↔
      specScanFailsAmended src quote fuel p = some true) := by
  intro fuel
  induction fuel with
  | zero =>
    intro p acc h
    exact absurd h (by omega)
  | succ m ih =>
    intro p acc h
    simp only [scanLoop, specScanFailsAmended]
    cases hc : charAt src p with
    | none => simp
    | some ch =>
      dsimp only
      have hp := charAt_some_lt hc
      by_cases hq : ch = quote
      · rw [if_pos hq, if_pos hq]
        simp
      · rw [if_neg hq, if_neg hq]
        by_cases hbs : ch = '\\'
        · rw [if_pos hbs, if_pos hbs]
          cases hc2 : charAt src (p + 1) with
          | none => simp
          | some esc =>
            dsimp only
            have hp2 := charAt_some_lt hc2
            by_cases hn : esc = 'n'
            · rw [if_pos hn, if_neg (show ¬esc = 'u' by subst hn; decide),
                if_neg (show ¬esc = 'x' by subst hn; decide)]
              exact ih (p + 2) _ (by omega)
            · rw [if_neg hn]
              by_cases hr : esc = 'r'
              · rw [if_pos hr, if_neg (show ¬esc = 'u' by subst hr; decide),
                  if_neg (show ¬esc = 'x' by subst hr; decide)]
                exact ih (p + 2) _ (by omega)
              · rw [if_neg hr]
                by_cases ht : esc = 't'
                · rw [if_pos ht, if_neg (show ¬esc = 'u' by subst ht; decide),
                    if_neg (show ¬esc = 'x' by subst ht; decide)]
                  exact ih (p + 2) _ (by omega)
                · rw [if_neg ht]
                  by_cases hb2 : esc = '\\'
                  · rw [if_pos hb2, if_neg (show ¬esc = 'u' by subst hb2; decide),
                      if_neg (show ¬esc = 'x' by subst hb2; decide)]
                    exact ih (p + 2) _ (by omega)
                  · rw [if_neg hb2]
                    by_cases hdq : esc = '"'
                    · rw [if_pos hdq, if_neg (show ¬esc = 'u' by subst hdq; decide),
                        if_neg (show ¬esc = 'x' by subst hdq; decide)]
                      exact ih (p + 2) _ (by omega)
                    · rw [if_neg hdq]
                      by_cases hsq : esc = '\''
                      · rw [if_pos hsq, if_neg (show ¬esc = 'u' by subst hsq; decide),
                          if_neg (show ¬esc = 'x' by subst hsq; decide)]
                        exact ih (p + 2) _ (by omega)
                      · rw [if_neg hsq]
                        by_cases hu : esc = 'u'
                        · rw [if_pos hu, if_pos hu]
                          simp only [readUnicodeEscape]
                          rw [show p + 1 + 1 = p + 2 by omega,
                            show p + 1 + 2 = p + 3 by omega]
                          by_cases hbr : charAt src (p + 2) = some '{'
                          · rw [if_pos hbr, if_pos hbr]
                            have hsb := specBrace_eq src m (p + 3) []
                            simp only [List.length_nil] at hsb
                            rw [show hexToNat [] = 0 from rfl] at hsb
                            rw [hsb]
                            cases hub : uniBraceLoop src m (p + 3) [] with
                            | none => simp
                            | some r =>
                              cases r with
                              | error e0 => simp
                              | ok hexq =>
                                obtain ⟨hex, q2⟩ := hexq
                                dsimp only
                                have hbnd := uniBraceLoop_ok src m (p + 3) [] hex q2 hub
                                by_cases hemp : hex.isEmpty
                                · rw [if_pos hemp]
                                  have hlen : hex.length = 0 := by
                                    cases hex
                                    · rfl
                                    · simp [List.isEmpty] at hemp
                                  simp [hlen]
                                · rw [if_neg hemp]
                                  have hlen : hex.length ≠ 0 := by
                                    cases hex
                                    · simp [List.isEmpty] at hemp
                                    · simp
                                  by_cases hle : hexToNat hex ≤ 0x10FFFF
                                  · rw [if_pos hle]
                                    have hcond : (decide (hex.length = 0) ||
                                        decide (0x10FFFF < hexToNat hex)) = false := by
                                      simp [hlen]
                                      omega
                                    rw [if_neg (by rw [hcond]; simp)]
                                    exact ih q2 _ (by omega)
                                  · rw [if_neg hle]
                                    have hcond : (decide (hex.length = 0) ||
                                        decide (0x10FFFF < hexToNat hex)) = true := by
                                      simp
                                      omega
                                    rw [if_pos hcond]
                                    simp
                          · rw [if_neg hbr, if_neg hbr]
                            by_cases hhr : specHexRun src (p + 2) 4 = true
                            · obtain ⟨l, hl⟩ := (specHexRun_readHex src 4 (p + 2)).1 hhr
                              rw [hl, if_pos hhr, show p + 2 + 4 = p + 6 by omega]
                              dsimp only
                              exact ih (p + 6) _ (by omega)
                            · have hhf : specHexRun src (p + 2) 4 = false := by
                                simpa using hhr
                              obtain ⟨e0, he⟩ := (specHexRun_readHex src 4 (p + 2)).2 hhf
                              rw [he, if_neg hhr]
                              simp
                        · rw [if_neg hu, if_neg hu]
                          by_cases hx : esc = 'x'
                          · rw [if_pos hx, if_pos hx]
                            simp only [readHexEscape]
                            rw [show p + 1 + 1 = p + 2 by omega]
                            by_cases hhr : specHexRun src (p + 2) 2 = true
                            · obtain ⟨l, hl⟩ := (specHexRun_readHex src 2 (p + 2)).1 hhr
                              rw [hl, if_pos hhr, show p + 2 + 2 = p + 4 by omega]
                              dsimp only
                              exact ih (p + 4) _ (by omega)
                            · have hhf : specHexRun src (p + 2) 2 = false := by
                                simpa using hhr
                              obtain ⟨e0, he⟩ := (specHexRun_readHex src 2 (p + 2)).2 hhf
                              rw [he, if_neg hhr]
                              simp
                          · rw [if_neg hx, if_neg hx]
                            exact ih (p + 2) _ (by omega)
        · rw [if_neg hbs, if_neg hbs]
          exact ih (p + 1) _ (by omega)

/-! ## Observation constants for the unclosed-parameter-list parse -/

def c2Src : Src := "function foo( { return 1; }".data

def c2Toks : List Token :=
  [{ kind := .functionK, start := 0, stop := 8 },
   { kind := .identifier, start := 9, stop := 12 },
   { kind := .lparen, start := 12, stop := 13 },
   { kind := .lbrace, start := 14, stop := 15 },
   { kind := .returnK, start := 16, stop := 22 },
   { kind := .number, start := 23, stop := 24, num := jsStringToNumber "1" },
   { kind := .semicolon, start := 24, stop := 25 },
   { kind := .rbrace, start := 26, stop := 27 }]

def c2TailToks : List Token :=
  [{ kind := .lbrace, start := 14, stop := 15 },
   { kind := .returnK, start := 16, stop := 22 },
   { kind := .number, start := 23, stop := 24, num := jsStringToNumber "1" },
   { kind := .semicolon, start := 24, stop := 25 },
   { kind := .rbrace, start := 26, stop := 27 }]

def c2St0 : PState :=
  { toks := c2Toks, recoverySet := [], inRecovery := false, diags := [],
    src := c2Src, endOfSrc := 27 }

def c2St1 : PState :=
  { toks := [{ kind := .identifier, start := 9, stop := 12 },
     { kind := .lparen, start := 12, stop := 13 }] ++ c2TailToks,
    recoverySet := [.lparen, .colon, .lbrace], inRecovery := false, diags := [],
    src := c2Src, endOfSrc := 27 }

def c2St2 : PState :=
  { toks := { kind := .lparen, start := 12, stop := 13 } :: c2TailToks,
    recoverySet := [.lparen, .colon, .lbrace], inRecovery := false, diags := [],
    src := c2Src, endOfSrc := 27 }

def c2St3 : PState :=
  { toks := { kind := .lparen, start := 12, stop := 13 } :: c2TailToks,
    recoverySet := [], inRecovery := false, diags := [], src := c2Src, endOfSrc := 27 }

def c2St4 : PState :=
  { toks := { kind := .lparen, start := 12, stop := 13 } :: c2TailToks,
    recoverySet := [.colon, .lbrace], inRecovery := false, diags := [],
    src := c2Src, endOfSrc := 27 }

def c2St5 : PState :=
  { toks := c2TailToks, recoverySet := [.colon, .lbrace], inRecovery := false,
    diags := [], src := c2Src, endOfSrc := 27 }

def c2St6 : PState :=
  { toks := c2TailToks, recoverySet := [], inRecovery := false, diags := [],
    src := c2Src, endOfSrc := 27 }

def c2Diag1 : Diag := ⟨"expected identifier, got LBrace", 14, 15⟩

def c2Diag2 : Diag :=
  ⟨"expected RParen to close function parameters, got LBrace", 14, 15⟩

def c2Err : AstErr := ⟨c2Diag1, ⟨14, 15⟩⟩

def c2St7 : PState :=
  { toks := c2TailToks, recoverySet := [], inRecovery := false,
    diags := [c2Diag1, c2Diag2], src := c2Src, endOfSrc := 27 }

def c2Stmt : Stmt :=
  .returnS (some (.numberLit (jsStringToNumber "1") ⟨23, 24⟩)) ⟨16, 24⟩

def c2StF : PState :=
  { toks := [], recoverySet := [], inRecovery := false,
    diags := [c2Diag1, c2Diag2], src := c2Src, endOfSrc := 27 }

def c2Decl : Decl :=
  .functionDecl (.inl ⟨"foo", ⟨9, 12⟩⟩) [.err c2Err] none (.inl [c2Stmt]) ⟨0, 27⟩

theorem c2_parse_eval :
    parsePipeline "function foo( { return 1; }" = some (.parsed (.ok c2Decl c2StF)) := by
  have hlex : lexRun "function foo( { return 1; }" = some (.ok (c2Toks, false)) := rfl
  simp only [parsePipeline, hlex]
  have h0 : parseDeclaration (parserFuel c2Toks)
      (initPState "function foo( { return 1; }" c2Toks) = parseFunction (142 + 1) c2St0 := rfl
  rw [h0]
  simp only [parseFunction]
  have e1 : enterRecovery [TokenKind.lparen, TokenKind.colon, TokenKind.lbrace]
      (nextSt c2St0) = ([.lparen, .colon, .lbrace], c2St1) := rfl
  rw [e1]
  dsimp only
  have e2 : expectIdentifier c2St1 =
      (Sum.inl ⟨"foo", ⟨9, 12⟩⟩, c2St2) := rfl
  rw [e2]
  dsimp only
  have e3 : exitRecovery (sumIsErr (Sum.inl (⟨"foo", ⟨9, 12⟩⟩ : Ident)))
      [TokenKind.lparen, TokenKind.colon, TokenKind.lbrace]
      [TokenKind.lparen, TokenKind.colon, TokenKind.lbrace] c2St2 = some c2St3 := rfl
  rw [e3]
  dsimp only
  rw [show c2St3.inRecovery = false from rfl, if_neg Bool.false_ne_true]
  have e4 : enterRecovery [TokenKind.colon, TokenKind.lbrace] c2St3 =
      ([.colon, .lbrace], c2St4) := rfl
  rw [e4]
  dsimp only
  have e5 : expect TokenKind.lparen "for function parameters" c2St4 =
      (Sum.inl { kind := .lparen, start := 12, stop := 13 }, c2St5) := rfl
  rw [e5]
  dsimp only
  have e6 : exitRecovery
      (sumIsErr (Sum.inl ({ kind := .lparen, start := 12, stop := 13 } : Token)))
      [TokenKind.colon, TokenKind.lbrace] [TokenKind.colon, TokenKind.lbrace] c2St5 =
      some c2St6 := rfl
  rw [e6]
  dsimp only
  rw [show c2St6.inRecovery = false from rfl, if_neg Bool.false_ne_true]
  have e7 : consume TokenKind.rparen c2St6 = (false, c2St6) := rfl
  rw [e7]
  dsimp only
  rw [if_neg Bool.false_ne_true]
  have e8 : paramLoop 142 [] c2St6 = .ok (.inl [Binding.err c2Err]) c2St7 := rfl
  rw [e8]
  dsimp only [PRes.andThen]
  have e9 : consume TokenKind.colon c2St7 = (false, c2St7) := rfl
  rw [e9]
  dsimp only
  rw [if_neg Bool.false_ne_true]
  dsimp only [PRes.andThen]
  have e10 : parseBlock 142 c2St7 = .ok (.inl ([c2Stmt], ⟨14, 27⟩)) c2StF := rfl
  rw [e10]
  dsimp only [PRes.andThen]
  rfl

/-! ## The claims -/

/-- C1: the claim says the internal-fault assertion channel (the assert
inside `inRecoveryFor`) is never triggered by malformed user input. It is:
parsing `function f(){}` reaches the assert, because `parseStmt` wraps the
Error expression in an ExpressionStmt node, so the recovering parser hands
`inRecoveryFor` a non-error node. The parse aborts with the assert's
internal-compiler-error message instead of returning a declaration. -/
theorem c1_assert_fault_on_simple_function :
    parsePipeline "function f(){}" = some (.parsed (.fault recoveryFaultMsg)) ∧
    recoveryFaultMsg =
      "internal compiler error: inRecoveryFor must be called with error" :=
  ⟨rfl, rfl⟩

/-- C2 (counterexample): parsing `function foo( { return 1; }` appends two
diagnostics — the failed parameter-name expectation and the failed
closing-parenthesis expectation — not exactly one. -/
theorem c2_two_diagnostics_not_one :
    pipelineDiags "function foo( { return 1; }" = some [c2Diag1, c2Diag2] ∧
    [c2Diag1, c2Diag2].length ≠ 1 := by
  have h := c2_parse_eval
  refine ⟨?_, by decide⟩
  unfold pipelineDiags
  rw [h]
  rfl

/-- C2 (amended): the unclosed parameter list yields exactly the two
diagnostics above, and the parse still returns a FunctionDecl whose
parameter list holds the Error binding — recovery contains the failure
inside the declaration instead of aborting. -/
theorem c2_amended_recovery_containment :
    pipelineDecl "function foo( { return 1; }" = some c2Decl ∧
    c2Decl = .functionDecl (.inl ⟨"foo", ⟨9, 12⟩⟩) [.err c2Err] none
      (.inl [c2Stmt]) ⟨0, 27⟩ ∧
    pipelineDiags "function foo( { return 1; }" = some [c2Diag1, c2Diag2] := by
  have h := c2_parse_eval
  refine ⟨?_, rfl, ?_⟩
  · unfold pipelineDecl
    rw [h]
  · unfold pipelineDiags
    rw [h]
    rfl

/-- C3 (counterexample): `2.square().square()` does not parse to a Call at
all: a Number primary is returned as-is (postfix parsing is reached only
from Identifier primaries), leaving the `.square()` tokens unconsumed. -/
theorem c3_number_receiver_gets_no_postfix :
    exprPipelineExpr "2.square().square()" =
      some (.numberLit (jsStringToNumber "2") ⟨0, 1⟩) ∧
    jsStringToNumber "2" = .val 2 := by
  refine ⟨rfl, ?_⟩
  have h1 : jsStringToNumber "2" = .val ((2 : ℚ) * (10 : ℚ) ^ (0 : ℤ)) := rfl
  rw [h1]
  norm_num

/-- C3 (amended): the `.`-identifier-`(` postfix form desugars UFCS as
claimed — the callee is the bare identifier and the receiver is prepended
to the argument list — but it is reached only after Identifier primaries;
`a.f(x, y)` parses to a call of `f` on `[a, x, y]`. -/
theorem c3_amended_ufcs_only_after_identifier :
    (∀ (fuel : Nat) (e : Expr) (b a0 a1 s0 s1 c0 c1 : Nat) (rest : List Token)
      (R : List TokenKind) (rec : Bool) (ds : List Diag) (src : Src) (eos : Nat),
      parsePostfixExpr (fuel + 1) e b
        { toks := mkTok .dot a0 a1 :: mkTok .identifier s0 s1 :: mkTok .lparen c0 c1 :: rest,
          recoverySet := R, inRecovery := rec, diags := ds, src := src, endOfSrc := eos } =
      (parseCallArgs fuel "to close method call"
        { toks := rest, recoverySet := R, inRecovery := rec, diags := ds,
          src := src, endOfSrc := eos }).andThen fun ae st4 =>
        parsePostfixExpr fuel
          (.call (.ident ⟨String.mk (sliceChars src s0 s1), ⟨s0, s1⟩⟩) (e :: ae.1) ⟨b, ae.2⟩)
          b st4) ∧
    exprPipelineExpr "a.f(x, y)" =
      some (.call (.ident ⟨"f", ⟨2, 3⟩⟩)
        [.ident ⟨"a", ⟨0, 1⟩⟩, .ident ⟨"x", ⟨4, 5⟩⟩, .ident ⟨"y", ⟨7, 8⟩⟩] ⟨0, 9⟩) := by
  constructor
  · intro fuel e b a0 a1 s0 s1 c0 c1 rest R rec ds src eos
    rfl
  · rfl

/-- C4 (counterexample): `&a` lexes without a scan failure, yet the lexer
silently consumed and dropped the `&` (the bare-`&` rejection path
advances the cursor first), so the token stream does not cover the
source: position 0 is inside no skipped-gap and no token span. -/
theorem c4_dropped_ampersand :
    lexRun "&a" = some (.ok ([{ kind := .identifier, start := 1, stop := 2 }], true)) ∧
    ¬ coversFrom "&a".data 0 [{ kind := .identifier, start := 1, stop := 2 }] := by
  refine ⟨rfl, fun h => ?_⟩
  obtain ⟨c, hc, hw⟩ := h.2.2.2.1 0 (le_refl _) (by decide)
  have hc2 : c = '&' := by
    have he : charAt "&a".data 0 = some '&' := rfl
    rw [he] at hc
    exact (Option.some.inj hc).symm
  rw [hc2] at hw
  exact absurd hw (by decide)

/-- C4 (amended): for inputs that lex without a scan failure and without a
rejected character (the `false` flag), the stream covers the source —
every inter-token gap is whitespace — and concatenating skipped gaps and
token slices in stream order reconstructs the source exactly. -/
theorem c4_amended_span_coverage (s : String) (toks : List Token)
    (h : lexRun s = some (.ok (toks, false))) :
    coversFrom s.data 0 toks ∧ reconstructFrom s.data 0 toks = s.data :=
  lexRun_coverage s toks h

/-- C4 witness: the coverage theorem applied to `let x = y;`. -/
theorem c4_span_coverage_witness :
    ∃ toks, lexRun "let x = y;" = some (.ok (toks, false)) ∧
      coversFrom "let x = y;".data 0 toks ∧
      reconstructFrom "let x = y;".data 0 toks = "let x = y;".data :=
  ⟨_, rfl, c4_amended_span_coverage "let x = y;" _ rfl⟩

/-- C5 (counterexample): a malformed string literal DOES surface out of
`Lexer.run` itself — the scan failure propagates through the lexer to its
consumer rather than stopping at `StringScanner`'s caller inside the
lexer. -/
theorem c5_scan_failure_escapes_lexer :
    lexRun "'x" = some (.error .unterminatedStringLiteral) := rfl

/-- C5 (amended): the lexer always terminates with a result for every
input — either a finite token list or the string-scan failure it
propagates. -/
theorem c5_amended_lexer_terminates : ∀ s : String, (lexRun s).isSome :=
  lexRun_total

/-- C6 (counterexample): in `function a { { struct b { }` the `struct`
keyword appears at brace depth 2, yet it still truncates the `function`
island, and the truncated island IS returned (not abandoned). -/
theorem c6_truncated_island_kept_at_depth :
    islandScan "function a \x7b \x7b struct b \x7b \x7d" =
      some ["function a \x7b \x7b "] := rfl

/-- C6 (amended): a declaration-start keyword ends the island scan at ANY
brace depth, and the truncated island is kept (the keyword token itself is
consumed, so the follow-on island's header is lost); an island that
reaches end-of-input before its body brace or before its braces balance is
silently dropped. -/
theorem c6_amended_island_truncation :
    (∀ (rest : List Token) (depth a b : Nat),
      findMatchingBrace (mkTok .structK a b :: rest) depth = some (a, rest)) ∧
    (∀ (rest : List Token) (depth a b : Nat),
      findMatchingBrace (mkTok .functionK a b :: rest) depth = some (a, rest)) ∧
    islandScan "function a \x7b let x = 1; struct b \x7b \x7d" =
      some ["function a \x7b let x = 1; "] ∧
    islandScan "function a \x7b " = some [] ∧
    islandScan "function a (x" = some [] :=
  ⟨fun _ _ _ _ => rfl, fun _ _ _ _ => rfl, rfl, rfl, rfl⟩

/-- C7: `2.square()` lexes to Number(2), Dot, Identifier, LParen, RParen —
a `.` not followed by a digit ends the run and is emitted as its own Dot
token — while `3.14` lexes to the single Number 3.14. -/
theorem c7_number_dot_tokenization :
    lexTokens "2.square()" = some
      [{ kind := .number, start := 0, stop := 1, num := .val 2 },
       { kind := .dot, start := 1, stop := 2 },
       { kind := .identifier, start := 2, stop := 8 },
       { kind := .lparen, start := 8, stop := 9 },
       { kind := .rparen, start := 9, stop := 10 }] ∧
    lexTokens "3.14" =
      some [{ kind := .number, start := 0, stop := 4, num := .val (157 / 50) }] := by
  constructor
  · rw [show (2 : ℚ) = (2 : ℚ) * (10 : ℚ) ^ (0 : ℤ) by norm_num]
    rfl
  · rw [show (157 / 50 : ℚ) = ((3 : ℚ) + (14 : ℚ) / (10 : ℚ) ^ (2 : ℕ)) * (10 : ℚ) ^ (0 : ℤ) by
      norm_num]
    rfl

/-- C8 (counterexample): `'\u{110000}'` raises (the RangeError out of
`String.fromCodePoint`) although none of the claim's four conditions
holds — the literal is closed, no trailing backslash, all digits are hex,
and the braces are terminated. -/
theorem c8_codepoint_failure_outside_conditions :
    scanString "'\\u{110000}'".data 100 0 =
      some (.error (.invalidCodePoint (some 1114112))) ∧
    specScanFailsClaim "'\\u{110000}'".data '\'' 100 1 = some false :=
  ⟨rfl, rfl⟩

/-- C8 (amended): started at a quote with fuel beyond the remaining
length, `scanString` raises iff the amended condition list holds: the four
claimed conditions, or a terminated `\u` brace escape whose braces are
empty or denote a code point above `0x10FFFF`. -/
theorem c8_amended_scan_failure_iff (src : Src) (p fuel : Nat) (q : Char)
    (hq : charAt src p = some q) (hq2 : q = '"' ∨ q = '\'')
    (hfuel : src.length - p < fuel) :
    (∃ e, scanString src fuel p = some (.error e)) ↔
      specScanFailsAmended src q fuel (p + 1) = some true := by
  have hp := charAt_some_lt hq
  unfold scanString
  rw [hq]
  dsimp only
  rw [if_pos (by rcases hq2 with h | h <;> simp [h])]
  exact scanLoop_err_iff src q fuel (p + 1) [] (by omega)

/-- C8 witness: the characterization applied to the unterminated literal
`'x`. -/
theorem c8_scan_failure_iff_witness :
    (∃ e, scanString "'x".data 100 0 = some (.error e)) ↔
      specScanFailsAmended "'x".data '\'' 100 1 = some true :=
  c8_amended_scan_failure_iff "'x".data 0 100 '\'' rfl (Or.inr rfl) (by decide)

/-- C9: the precedence table gives Or level 1, And level 2, the equality
operators level 3, Plus and Minus level 4, Multiply and Divide level 5;
climbing right-recursion at one level higher makes every operator
left-associative: `1 + 2 * 3` parses with the multiplication nested on the
right, `a && b || c` with the conjunction nested on the left, and
`1 - 2 - 3` with the first subtraction nested on the left. -/
theorem c9_precedence_table_and_examples :
    getBinaryPrecedence .or = 1 ∧ getBinaryPrecedence .and = 2 ∧
    getBinaryPrecedence .equals = 3 ∧ getBinaryPrecedence .notEquals = 3 ∧
    getBinaryPrecedence .plus = 4 ∧ getBinaryPrecedence .minus = 4 ∧
    getBinaryPrecedence .multiply = 5 ∧ getBinaryPrecedence .divide = 5 ∧
    exprPipelineExpr "1 + 2 * 3" =
      some (.binary (.numberLit (.val 1) ⟨0, 1⟩) .plus
        (.binary (.numberLit (.val 2) ⟨4, 5⟩) .multiply (.numberLit (.val 3) ⟨8, 9⟩)
          ⟨4, 9⟩) ⟨0, 9⟩) ∧
    exprPipelineExpr "a && b || c" =
      some (.binary
        (.binary (.ident ⟨"a", ⟨0, 1⟩⟩) .and (.ident ⟨"b", ⟨5, 6⟩⟩) ⟨0, 6⟩)
        .or (.ident ⟨"c", ⟨10, 11⟩⟩) ⟨0, 11⟩) ∧
    exprPipelineExpr "1 - 2 - 3" =
      some (.binary
        (.binary (.numberLit (.val 1) ⟨0, 1⟩) .minus (.numberLit (.val 2) ⟨4, 5⟩) ⟨0, 5⟩)
        .minus (.numberLit (.val 3) ⟨8, 9⟩) ⟨0, 9⟩) := by
  refine ⟨rfl, rfl, rfl, rfl, rfl, rfl, rfl, rfl, ?_, ?_, ?_⟩
  · rw [show (1 : ℚ) = (1 : ℚ) * (10 : ℚ) ^ (0 : ℤ) by norm_num,
      show (2 : ℚ) = (2 : ℚ) * (10 : ℚ) ^ (0 : ℤ) by norm_num,
      show (3 : ℚ) = (3 : ℚ) * (10 : ℚ) ^ (0 : ℤ) by norm_num]
    rfl
  · rfl
  · rw [show (1 : ℚ) = (1 : ℚ) * (10 : ℚ) ^ (0 : ℤ) by norm_num,
      show (2 : ℚ) = (2 : ℚ) * (10 : ℚ) ^ (0 : ℤ) by norm_num,
      show (3 : ℚ) = (3 : ℚ) * (10 : ℚ) ^ (0 : ℤ) by norm_num]
    rfl

/-- C10: the whole parse terminates for every input: the pipeline always
returns (the lexer is total and the declaration parser never exhausts its
provably-sufficient fuel); every successfully built token strictly
advances the cursor; and the recovery discard loop drops exactly one token
per step and stops only at end-of-input or at a recovery-set token. -/
theorem c10_pipeline_terminates :
    (∀ s : String, ∃ out, parsePipeline s = some out) ∧
    (∀ (s : String) (r : PRes Decl), parsePipeline s = some (.parsed r) → r ≠ .noFuel) ∧
    (∀ (src : Src) (fuel p : Nat) (t : Token) (q : Nat),
      tokenFn src fuel p = some (.ok (some t, q)) → p < q) ∧
    (∀ (rset : List TokenKind) (e : Nat) (t : Token) (ts : List Token),
      rset.contains t.kind = false →
      recoverLoop rset e (t :: ts) = recoverLoop rset t.stop ts) ∧
    (∀ (rset : List TokenKind) (e : Nat) (ts : List Token),
      (recoverLoop rset e ts).2 = [] ∨
      ∃ t rest, (recoverLoop rset e ts).2 = t :: rest ∧ rset.contains t.kind = true) := by
  refine ⟨?_, ?_, ?_, ?_, ?_⟩
  · intro s
    have htot := lexRun_total s
    unfold parsePipeline
    cases hl : lexRun s with
    | none =>
      rw [hl] at htot
      simp at htot
    | some r =>
      cases r with
      | error e => exact ⟨.lexFail e, rfl⟩
      | ok pr =>
        obtain ⟨toks, flag⟩ := pr
        exact ⟨_, rfl⟩
  · intro s r h
    unfold parsePipeline at h
    cases hl : lexRun s with
    | none =>
      rw [hl] at h
      exact absurd h (by simp)
    | some res =>
      rw [hl] at h
      cases res with
      | error e => simp at h
      | ok pr =>
        obtain ⟨toks, flag⟩ := pr
        dsimp only at h
        simp only [Option.some.injEq, PipelineOut.parsed.injEq] at h
        rw [← h]
        exact parseDeclaration_noFuel s toks
  · intro src fuel p t q h
    exact (tokenFn_ok_some src fuel p t q h).2.2.1
  · intro rset e t ts hk
    simp only [recoverLoop]
    rw [if_neg (by simp only [hk]; exact Bool.false_ne_true)]
  · intro rset e ts
    induction ts generalizing e with
    | nil => exact Or.inl rfl
    | cons t rest ih =>
      by_cases hk : rset.contains t.kind
      · right
        refine ⟨t, rest, ?_, hk⟩
        simp only [recoverLoop]
        rw [if_pos hk]
      · simp only [recoverLoop]
        rw [if_neg hk]
        exact ih t.stop

end TheCeiling
